import Mathlib

/-!
# rtspcamera: the frame pipeline primitives

A shallow embedding of the synchronisation primitives of the repository

* `src/swapper.hpp`    : `Swapper<T>`, the single-slot exchange box,
* `src/queue.hpp`      : `rtspcam::Queue<T>`, the blocking FIFO queue,
* `src/error_slot.hpp` : `ErrorSlot`, the sticky fault channel,
* `src/decoder.cpp`    : `rtspcam::Decoder`, the decode thread,
* `src/video_scaler.cpp`, `src/rtsp_camera_impl.cpp` : the scaling stage and
  the `read()` loop of the camera,
* `src/rtsp_camera_client.cpp` : the video sink and the teardown of the session.

Calls into libavcodec and libswscale are parameters of the model: records of
functions on an abstract library state.  Loops whose exit depends on what the
library returns take a `fuel` bound on their iterations.

Every member function runs its body under the object's mutex, so each call is
one atomic step on the object's fields.  A call that would wait on the
condition variable for ever (no other thread changes the fields) has no result:
the blocking operations return `Option`, with `none` for "still blocked".
`uint64_t` fields are natural numbers, and `+= 1` is written with an explicit
`% 2 ^ 64`.

For the Swapper with a producer and a consumer thread the mutex and the
condition variable are explicit: `Swapper.Threads` is a step relation whose
moves are those of a thread between lock, unlock, wait and notification, and
the end of a wait by its timeout or spuriously.
-/

/-! ## `src/swapper.hpp` -/

/-- Fields of `Swapper<T>` (`mutex_` and `condvar_` carry no data). -/
structure Swapper (T : Type) where
  push_counter_ : Nat
  pop_counter_ : Nat
  item_ : T
  is_waiting_ : Bool
deriving DecidableEq

namespace Swapper

variable {T : Type}

/-- Constructor `Swapper(T&& item)`: both counters start at
`std::numeric_limits<uint64_t>::max()`. -/
def new (item : T) : Swapper T :=
  { push_counter_ := 2 ^ 64 - 1
    pop_counter_ := 2 ^ 64 - 1
    item_ := item
    is_waiting_ := false }

/-- Member `T push(T&& item)`: exchanges `item_` for `item`, adds one to
`push_counter_` (a `uint64_t`), and returns the item that was stored.  The
local `should_signal` only decides whether `condvar_.notify_one()` is called. -/
def push (s : Swapper T) (item : T) : T × Swapper T :=
  (s.item_, { s with item_ := item, push_counter_ := (s.push_counter_ + 1) % 2 ^ 64 })

/-- Member `std::pair<T, uint64_t> pop(T&& item)`: waits until
`pop_counter_ != push_counter_`, then exchanges `item_` for `item`, sets
`pop_counter_ = push_counter_` and returns the stored item with `pop_counter_`.
The result is `none` while the wait predicate is false. -/
def pop (s : Swapper T) (item : T) : Option ((T × Nat) × Swapper T) :=
  if s.pop_counter_ ≠ s.push_counter_ then
    some ((s.item_, s.push_counter_),
      { s with item_ := item, pop_counter_ := s.push_counter_, is_waiting_ := false })
  else
    none

/-- What a call of `try_pop` leaves behind: the returned optional pair, the
caller's argument object (`none` once it has been moved from), and the fields. -/
structure TryPop (T : Type) where
  result : Option (T × Nat)
  item : Option T
  swapper : Swapper T
deriving DecidableEq

/-- Member `try_pop(T&& item, std::chrono::milliseconds timeout)` when no push
arrives during the wait: `wait_for` then returns the value of the predicate
`pop_counter_ != push_counter_`.  If it holds the body is that of `pop`;
otherwise only `is_waiting_` is reset and `{}` is returned. -/
def try_pop (s : Swapper T) (item : T) (_timeout : Nat) : TryPop T :=
  if s.pop_counter_ ≠ s.push_counter_ then
    { result := some (s.item_, s.push_counter_)
      item := none
      swapper := { s with item_ := item, pop_counter_ := s.push_counter_, is_waiting_ := false } }
  else
    { result := none
      item := some item
      swapper := { s with is_waiting_ := false } }

/-- A run of `push` calls with the items of `xs`, in order. -/
def pushAll (s : Swapper T) : List T → Swapper T
  | [] => s
  | x :: xs => pushAll (s.push x).2 xs

/-- One call on a Swapper, with its argument. -/
inductive Op (T : Type) where
  | push (item : T)
  | pop (item : T)
  | try_pop (item : T) (timeout : Nat)
deriving DecidableEq

/-- A Swapper together with the sequence numbers its successful pops have
returned so far, oldest first. -/
structure Run (T : Type) where
  swapper : Swapper T
  seqs : List Nat
deriving DecidableEq

/-- Performs one call.  A `pop` whose wait predicate is false never returns, so
the history cannot continue past it: `none`. -/
def step (r : Run T) : Op T → Option (Run T)
  | Op.push item => some { r with swapper := (r.swapper.push item).2 }
  | Op.pop item =>
    match r.swapper.pop item with
    | some ((_, seq), s) => some { swapper := s, seqs := r.seqs ++ [seq] }
    | none => none
  | Op.try_pop item timeout =>
    match (r.swapper.try_pop item timeout).result with
    | some (_, seq) =>
      some { swapper := (r.swapper.try_pop item timeout).swapper, seqs := r.seqs ++ [seq] }
    | none => some { r with swapper := (r.swapper.try_pop item timeout).swapper }

/-- Performs the calls of `ops` in order. -/
def run (r : Run T) : List (Op T) → Option (Run T)
  | [] => some r
  | op :: ops =>
    match step r op with
    | some r1 => run r1 ops
    | none => none

/-- Number of `push` calls in a history. -/
def pushCount : List (Op T) → Nat
  | [] => 0
  | Op.push _ :: ops => pushCount ops + 1
  | _ :: ops => pushCount ops

/-- The histories of `pushAll`: one `push` per item. -/
def pushOps (xs : List T) : List (Op T) := xs.map Op.push

/-- States reachable from construction by `push`, `pop` and `try_pop`. -/
def Reachable (s : Swapper T) : Prop :=
  ∃ (init : T) (ops : List (Op T)) (seqs : List Nat),
    run { swapper := new init, seqs := [] } ops = some { swapper := s, seqs := seqs }

/-- Bookkeeping for a history with `k` pushes so far: `push_counter_` is the
initial value advanced `k` times, `pop_counter_` is the initial value advanced
`j` times, where `j ≤ k` is the number of pushes seen by the latest successful
pop (`0` before the first), and the sequence numbers handed out so far are
increasing and all below `j`. -/
def Inv (k : Nat) (r : Run T) : Prop :=
  ∃ j, j ≤ k ∧
    r.swapper.push_counter_ = (2 ^ 64 - 1 + k) % 2 ^ 64 ∧
    r.swapper.pop_counter_ = (2 ^ 64 - 1 + j) % 2 ^ 64 ∧
    (∀ x ∈ r.seqs, x + 1 ≤ j) ∧
    r.seqs.Pairwise (fun a b => a < b)

end Swapper

/-! ## `src/queue.hpp` -/

namespace rtspcam

/-- Fields of `rtspcam::Queue<T>`: the `std::deque<T> queue_`, front first. -/
structure Queue (T : Type) where
  queue_ : List T
deriving DecidableEq

namespace Queue

variable {T : Type}

/-- A default-constructed queue: an empty deque. -/
def empty : Queue T := { queue_ := [] }

/-- Member `bool push(T&& item)`: `push_back`, returning whether the queue was
empty before (the caller then notifies one waiter). -/
def push (q : Queue T) (item : T) : Bool × Queue T :=
  (q.queue_.isEmpty, { queue_ := q.queue_ ++ [item] })

/-- Member `T pop()`: waits until `!queue_.empty()`, then takes `front()` and
does `pop_front()`.  The result is `none` while the queue is empty. -/
def pop (q : Queue T) : Option (T × Queue T) :=
  match q.queue_ with
  | [] => none
  | item :: rest => some (item, { queue_ := rest })

/-- Member `try_pop(std::chrono::milliseconds timeout)` when no push arrives
during the wait: `wait_for` returns the value of `!queue_.empty()`; if it holds
the head is removed and returned, otherwise `{}` is returned. -/
def try_pop (q : Queue T) (_timeout : Nat) : Option T × Queue T :=
  match q.queue_ with
  | [] => (none, q)
  | item :: rest => (some item, { queue_ := rest })

/-- Member `std::vector<T> drain()`: moves `queue_.begin() .. queue_.end()` to
the back of a new vector and clears the deque. -/
def drain (q : Queue T) : List T × Queue T :=
  (q.queue_, { queue_ := [] })

/-- Member `size_t size() const`. -/
def size (q : Queue T) : Nat := q.queue_.length

/-- A run of `push` calls with the items of `xs`, in order. -/
def pushAll (q : Queue T) : List T → Queue T
  | [] => q
  | x :: xs => pushAll (q.push x).2 xs

/-- The results of `n` successive `pop` calls, in call order, and the queue they
leave; `none` when one of them finds the queue empty and blocks. -/
def popN (q : Queue T) : Nat → Option (List T × Queue T)
  | 0 => some ([], q)
  | n + 1 =>
    match q.pop with
    | none => none
    | some (item, q1) =>
      match popN q1 n with
      | none => none
      | some (items, q2) => some (item :: items, q2)

/-- One call on a Queue, with its argument. -/
inductive Op (T : Type) where
  | push (item : T)
  | pop
  | try_pop (timeout : Nat)
  | drain
deriving DecidableEq

/-- A Queue with the record of its history: every item pushed, in push order,
and every item handed out by `pop`, `try_pop` or `drain`, in the order
returned. -/
structure Run (T : Type) where
  queue : Queue T
  pushed : List T
  returned : List T
deriving DecidableEq

/-- Performs one call.  A `pop` on the empty queue never returns, so the history
cannot continue past it: `none`. -/
def step (r : Run T) : Op T → Option (Run T)
  | Op.push item =>
    some { r with queue := (r.queue.push item).2, pushed := r.pushed ++ [item] }
  | Op.pop =>
    match r.queue.pop with
    | some (item, q) => some { r with queue := q, returned := r.returned ++ [item] }
    | none => none
  | Op.try_pop timeout =>
    match r.queue.try_pop timeout with
    | (some item, q) => some { r with queue := q, returned := r.returned ++ [item] }
    | (none, q) => some { r with queue := q }
  | Op.drain =>
    some { r with queue := r.queue.drain.2, returned := r.returned ++ r.queue.drain.1 }

/-- Performs the calls of `ops` in order. -/
def run (r : Run T) : List (Op T) → Option (Run T)
  | [] => some r
  | op :: ops =>
    match step r op with
    | some r1 => run r1 ops
    | none => none

/-- A new queue with an empty history. -/
def start : Run T := { queue := empty, pushed := [], returned := [] }

end Queue

end rtspcam

/-! ## `src/error_slot.hpp` -/

/-- Fields of `ErrorSlot`: the atomic flag `errored_` and the message `error_`. -/
structure ErrorSlot where
  errored_ : Bool
  error_ : String
deriving DecidableEq

namespace ErrorSlot

/-- Constructor `ErrorSlot()`: `errored_(false)` and a default (empty) string. -/
def new : ErrorSlot := { errored_ := false, error_ := "" }

/-- Member `void set(std::string const& error)`: stores the message, then
stores `true` in `errored_`. -/
def set (e : ErrorSlot) (error : String) : ErrorSlot :=
  { e with error_ := error, errored_ := true }

/-- Member `std::optional<std::string> check()`: a copy of `error_` if
`errored_` is set, and `{}` otherwise; returned with the fields it leaves. -/
def check (e : ErrorSlot) : Option String × ErrorSlot :=
  if e.errored_ then (some e.error_, e) else (none, e)

/-- One call on an ErrorSlot. -/
inductive Op where
  | set (error : String)
  | check
deriving DecidableEq

/-- An ErrorSlot with the results of the `check` calls made so far. -/
structure Run where
  slot : ErrorSlot
  checks : List (Option String)
deriving DecidableEq

/-- Performs one call. -/
def step (r : Run) : Op → Run
  | Op.set error => { r with slot := r.slot.set error }
  | Op.check => { slot := r.slot.check.2, checks := r.checks ++ [r.slot.check.1] }

/-- Performs the calls of `ops` in order. -/
def run (r : Run) : List Op → Run
  | [] => r
  | op :: ops => run (step r op) ops

end ErrorSlot

/-! ## `src/video_frame.hpp`, `src/decoder.hpp`, `src/decoder.cpp` -/

namespace rtspcam

/-- The values of libavutil's `enum AVPixelFormat` that the sources name; any
other value is `other n`. -/
inductive AVPixelFormat where
  | NONE
  | YUV420P
  | YUV422P
  | YUV444P
  | YUV440P
  | YUVJ420P
  | YUVJ422P
  | YUVJ444P
  | YUVJ440P
  | RGB24
  | BGR24
  | other (n : Nat)
deriving DecidableEq

/-- The fields of libavutil's `AVFrame` that the sources read or write:
`data[0]` is a list of byte values, `linesize` is `linesize[0]`. -/
structure AVFrame where
  width : Int
  height : Int
  format : AVPixelFormat
  data : List Nat
  linesize : Int
deriving DecidableEq

/-- Function `make_videoframe()`: a frame as `av_frame_alloc` leaves it.  A
`VideoFramePtr` is modelled by the frame it owns; the sources never use one
that has been moved from. -/
def make_videoframe : AVFrame :=
  { width := 0, height := 0, format := AVPixelFormat.NONE, data := [], linesize := 0 }

/-- The libavcodec calls of `decoder.cpp`, as functions on the library state `σ`
(what `codec_context_` and `parser_context_` point to).

* `av_parser_parse2 av buf buf_size` gives the returned `len`, the packet
  (`packet->data`, with `packet->size` its length) and the new state;
* `avcodec_send_packet av packet` gives the return code and the new state;
* `avcodec_receive_frame av frame` gives the return code, the frame as the call
  leaves it, and the new state;
* `AVERROR_EAGAIN` and `AVERROR_EOF` are the values of the macros
  `AVERROR(EAGAIN)` and `AVERROR_EOF`. -/
structure Libavcodec (σ : Type) where
  av_parser_parse2 : σ → List Nat → Int → Int × List Nat × σ
  avcodec_send_packet : σ → List Nat → Int × σ
  avcodec_receive_frame : σ → AVFrame → Int × AVFrame × σ
  AVERROR_EAGAIN : Int
  AVERROR_EOF : Int

/-- Fields of `Decoder`, with the `Swapper` that `swapper_` refers to.  The
byte chunks in `queue_` are lists of byte values. -/
structure Decoder (σ : Type) where
  libav : σ
  src_frame_ : AVFrame
  packet_ : List Nat
  swapper_ : Swapper AVFrame
  first_frame_ : Bool
  queue_ : Queue (List Nat)

/-- How a function of the decode thread is left. -/
inductive Exit where
  | returned
  | threw (what : String)
  | out_of_fuel
deriving DecidableEq

/-- Conversion `(int)cur_size` of a `size_t` to a 32-bit `int`. -/
def toInt32 (n : Nat) : Int :=
  if n % 2 ^ 32 < 2 ^ 31 then (n % 2 ^ 32 : Nat) else ((n % 2 ^ 32 : Nat) : Int) - 2 ^ 32

namespace Decoder

variable {σ : Type}

/-- Constructor `Decoder(swapper, extradata)` once the codec is open, with `av`
the library state then: a new `src_frame_`, `first_frame_(true)`, an empty
queue. -/
def new (av : σ) (swapper : Swapper AVFrame) : Decoder σ :=
  { libav := av
    src_frame_ := make_videoframe
    packet_ := []
    swapper_ := swapper
    first_frame_ := true
    queue_ := Queue.empty }

/-- Member `void send(Slice slice, uint64_t pts)`: pushes a copy of the bytes. -/
def send (d : Decoder σ) (slice : List Nat) : Decoder σ :=
  { d with queue_ := (d.queue_.push slice).2 }

/-- The `while (ret >= 0)` loop of `decode()`, entered with `ret >= 0`: receive
a frame; return on `AVERROR(EAGAIN)` or `AVERROR_EOF`; throw on another
negative code; otherwise clear `first_frame_` and exchange `src_frame_` with
the Swapper.  (The `assert`s and the printing have no effect on the fields.) -/
def receive_loop (lib : Libavcodec σ) : Nat → Decoder σ → Exit × Decoder σ
  | 0, d => (Exit.out_of_fuel, d)
  | fuel + 1, d =>
    let r := lib.avcodec_receive_frame d.libav d.src_frame_
    let d1 := { d with libav := r.2.2, src_frame_ := r.2.1 }
    if r.1 = lib.AVERROR_EAGAIN ∨ r.1 = lib.AVERROR_EOF then
      (Exit.returned, d1)
    else if r.1 < 0 then
      (Exit.threw "Error during decoding", d1)
    else
      receive_loop lib fuel
        { d1 with
          first_frame_ := false
          src_frame_ := (d1.swapper_.push d1.src_frame_).1
          swapper_ := (d1.swapper_.push d1.src_frame_).2 }

/-- Member `void decode()`: send `packet_`; throw if the return code is not 0;
then run the receive loop. -/
def decode (lib : Libavcodec σ) (fuel : Nat) (d : Decoder σ) : Exit × Decoder σ :=
  let r := lib.avcodec_send_packet d.libav d.packet_
  let d1 := { d with libav := r.2 }
  if r.1 ≠ 0 then
    (Exit.threw "Error sending a packet for decoding", d1)
  else
    receive_loop lib fuel d1

/-- The `while (cur_size > 0)` loop of `decode_loop()` on one chunk `slice`:
`cur_ptr` is the offset of the read pointer from `slice.data()`, `cur_size` the
`size_t` count of bytes left.  Each round calls the splitter on the bytes from
`cur_ptr`, advances `cur_ptr` by `len`, subtracts `len` from `cur_size` (in
`size_t` arithmetic), and calls `decode()` unless the packet is empty. -/
def parse_loop (lib : Libavcodec σ) (decode_fuel : Nat) (slice : List Nat) :
    Nat → Int → Nat → Decoder σ → Exit × Decoder σ
  | 0, _, cur_size, d => if cur_size = 0 then (Exit.returned, d) else (Exit.out_of_fuel, d)
  | fuel + 1, cur_ptr, cur_size, d =>
    if cur_size = 0 then
      (Exit.returned, d)
    else
      let r := lib.av_parser_parse2 d.libav (slice.drop cur_ptr.toNat) (toInt32 cur_size)
      let d1 := { d with libav := r.2.2, packet_ := r.2.1 }
      let cur_ptr1 := cur_ptr + r.1
      let cur_size1 := (((cur_size : Int) - r.1) % 2 ^ 64).toNat
      if d1.packet_.length = 0 then
        parse_loop lib decode_fuel slice fuel cur_ptr1 cur_size1 d1
      else
        match decode lib decode_fuel d1 with
        | (Exit.returned, d2) => parse_loop lib decode_fuel slice fuel cur_ptr1 cur_size1 d2
        | (e, d2) => (e, d2)

/-- How `decode_loop()` is left: by the `break` on an empty chunk, by an
exception, not at all because `queue_.pop()` waits on the empty queue, or not
within the fuel given to the inner loops. -/
inductive LoopExit where
  | exited
  | blocked
  | threw (what : String)
  | out_of_fuel
deriving DecidableEq

/-- What a run of `decode_loop()` leaves: how it ended, the fields, and the
chunks that entered the splitting loop, in the order they did. -/
structure LoopResult (σ : Type) where
  exit : LoopExit
  decoder : Decoder σ
  processed : List (List Nat)

/-- The `for (;;)` loop of `decode_loop()` over the chunks `queue_` holds, front
first: pop a chunk, `break` if it is empty, otherwise run the splitting loop on
it from offset 0 with `cur_size = slice.size()`.  `processed` collects the
chunks handled before. -/
def decode_loop_from (lib : Libavcodec σ) (fuel : Nat) :
    List (List Nat) → Decoder σ → List (List Nat) → LoopResult σ
  | [], d, processed =>
    { exit := LoopExit.blocked, decoder := { d with queue_ := { queue_ := [] } },
      processed := processed }
  | slice :: rest, d, processed =>
    if slice.isEmpty then
      { exit := LoopExit.exited, decoder := { d with queue_ := { queue_ := rest } },
        processed := processed }
    else
      match parse_loop lib fuel slice fuel 0 slice.length
          { d with queue_ := { queue_ := rest } } with
      | (Exit.returned, d1) => decode_loop_from lib fuel rest d1 (processed ++ [slice])
      | (Exit.threw what, d1) =>
        { exit := LoopExit.threw what, decoder := d1, processed := processed ++ [slice] }
      | (Exit.out_of_fuel, d1) =>
        { exit := LoopExit.out_of_fuel, decoder := d1, processed := processed ++ [slice] }

/-- Member `void decode_loop()`, run on the chunks now in `queue_` while no
other thread pushes. -/
def decode_loop (lib : Libavcodec σ) (fuel : Nat) (d : Decoder σ) : LoopResult σ :=
  decode_loop_from lib fuel d.queue_.queue_ d []

/-- What the model asks of the library for a run without fault: the splitter
consumes at least one byte and at most the bytes offered, and every call of
`decode()` returns within the fuel. -/
def NoFault (lib : Libavcodec σ) (fuel : Nat) : Prop :=
  (∀ (av : σ) (buf : List Nat) (n : Int), 0 < n →
    1 ≤ (lib.av_parser_parse2 av buf n).1 ∧ (lib.av_parser_parse2 av buf n).1 ≤ n) ∧
  (∀ d : Decoder σ, (decode lib fuel d).1 = Exit.returned)

end Decoder

end rtspcam

/-! ## `src/image.hpp`, `src/video_scaler.cpp`, `src/rtsp_camera_impl.cpp` -/

namespace rtspcam

/-- Fields of `struct Image`; `data_` is what the pointer refers to. -/
structure Image where
  data_ : List Nat
  size_ : Nat
  frame_index_ : Nat
  width_ : Int
  height_ : Int
  stride_ : Int
deriving DecidableEq

/-- The `enum class ImageFormat`. -/
inductive ImageFormat where
  | RGB
  | BGR
deriving DecidableEq

/-- The libswscale and libavutil calls of `video_scaler.cpp`, as functions on
the scaling context `κ` (what `sws_context_` points to).

* `sws_getContext srcW srcH srcFormat dstW dstH dstFormat` is `none` for a null
  result;
* `sws_getColorspaceDetails ctx` gives the return code (the details read are
  passed back unchanged to the next call, except `src_range`);
* `sws_setColorspaceDetails ctx src_range` gives the return code and the
  context;
* `av_frame_get_buffer frame` gives the return code and the frame with its
  buffer;
* `sws_scale ctx src dst` gives the returned height and `dst` as written. -/
structure Libswscale (κ : Type) where
  sws_getContext : Int → Int → AVPixelFormat → Int → Int → AVPixelFormat → Option κ
  sws_getColorspaceDetails : κ → Int
  sws_setColorspaceDetails : κ → Int → Int × κ
  av_frame_get_buffer : AVFrame → Int × AVFrame
  sws_scale : κ → AVFrame → AVFrame → Int × AVFrame

/-- Static function `maybe_change_pixel_format`. -/
def maybe_change_pixel_format : AVPixelFormat → AVPixelFormat × Bool
  | AVPixelFormat.YUVJ420P => (AVPixelFormat.YUV420P, true)
  | AVPixelFormat.YUVJ422P => (AVPixelFormat.YUV422P, true)
  | AVPixelFormat.YUVJ444P => (AVPixelFormat.YUV444P, true)
  | AVPixelFormat.YUVJ440P => (AVPixelFormat.YUV440P, true)
  | pixfmt => (pixfmt, false)

/-- Fields of `VideoScaler`; `none` is a null pointer. -/
structure VideoScaler (κ : Type) where
  sws_context_ : Option κ
  dst_frame_ : Option AVFrame

namespace VideoScaler

variable {κ : Type}

/-- A default-constructed `VideoScaler`: both pointers null. -/
def new : VideoScaler κ := { sws_context_ := none, dst_frame_ := none }

/-- Member `void initialize(src_width, src_height, src_pixfmt, dst_width,
dst_height, dst_pixfmt)`.  The first component is the message of the
`std::runtime_error` thrown, if one is. -/
def initialize_ (lib : Libswscale κ) (v : VideoScaler κ) (src_width src_height : Int)
    (src_pixfmt : AVPixelFormat) (dst_width dst_height : Int) (dst_pixfmt : AVPixelFormat) :
    Option String × VideoScaler κ :=
  let p := maybe_change_pixel_format src_pixfmt
  match lib.sws_getContext src_width src_height p.1 dst_width dst_height dst_pixfmt with
  | none => (some "Failed to initialize video scaler", { v with sws_context_ := none })
  | some ctx =>
    let v1 := { v with sws_context_ := some ctx }
    let alloc (v2 : VideoScaler κ) : Option String × VideoScaler κ :=
      let r := lib.av_frame_get_buffer
        { make_videoframe with
          format := AVPixelFormat.RGB24, width := dst_width, height := dst_height }
      if r.1 ≠ 0 then
        (some "Failed to allocate buffer for frame", { v2 with dst_frame_ := some r.2 })
      else
        (none, { v2 with dst_frame_ := some r.2 })
    if p.2 then
      if lib.sws_getColorspaceDetails ctx < 0 then
        (some "Failed to get colorspace details", v1)
      else
        let r := lib.sws_setColorspaceDetails ctx 1
        if r.1 < 0 then
          (some "Failed to set colorspace details", { v1 with sws_context_ := some r.2 })
        else
          alloc { v1 with sws_context_ := some r.2 }
    else
      alloc v1

/-- Member `Image convert(AVFrame const* src_frame, uint64_t frame_index)`, for
a scaler whose pointers are not null: throws unless `sws_scale` returns the
height of `dst_frame_`, else builds the `Image` from `dst_frame_` and
`frame_index`.  With a null pointer the call has no defined result; the model
reports it as a throw with an empty message. -/
def convert (lib : Libswscale κ) (v : VideoScaler κ) (src_frame : AVFrame)
    (frame_index : Nat) : Except String Image × VideoScaler κ :=
  match v.sws_context_, v.dst_frame_ with
  | some ctx, some dst =>
    let r := lib.sws_scale ctx src_frame dst
    let v1 := { v with dst_frame_ := some r.2 }
    if r.1 ≠ r.2.height then
      (Except.error "Failed to scale video frame", v1)
    else
      (Except.ok
        { data_ := r.2.data
          size_ := ((r.2.linesize % 2 ^ 64).toNat * (r.2.height % 2 ^ 64).toNat) % 2 ^ 64
          frame_index_ := frame_index
          width_ := r.2.width
          height_ := r.2.height
          stride_ := r.2.linesize }, v1)
  | _, _ => (Except.error "", v)

end VideoScaler

/-- Fields of `RtspCameraImpl` used by `read`, `set_image_format` and
`set_size`. -/
structure RtspCameraImpl (κ : Type) where
  swapper_ : Swapper AVFrame
  error_slot_ : ErrorSlot
  video_frame_ : AVFrame
  video_scaler_ : VideoScaler κ
  pixel_format_ : AVPixelFormat
  width_ : Int
  height_ : Int
  first_frame_ : Bool

/-- How one round of the loop of `read()` ends when it does not `continue`: with
the returned image, with the `std::runtime_error` thrown for the message found
in the ErrorSlot, or with a `std::runtime_error` thrown by the scaling stage. -/
inductive ReadResult where
  | image (img : Image)
  | fatal (what : String)
  | scaler_threw (what : String)
deriving DecidableEq

namespace RtspCameraImpl

variable {κ : Type}

/-- Constructor `RtspCameraImpl(url)`, for the fields of the model. -/
def new : RtspCameraImpl κ :=
  { swapper_ := Swapper.new make_videoframe
    error_slot_ := ErrorSlot.new
    video_frame_ := make_videoframe
    video_scaler_ := VideoScaler.new
    pixel_format_ := AVPixelFormat.RGB24
    width_ := 0
    height_ := 0
    first_frame_ := true }

/-- Member `void set_image_format(ImageFormat format)`. -/
def set_image_format (c : RtspCameraImpl κ) (format : ImageFormat) : RtspCameraImpl κ :=
  if c.first_frame_ then
    match format with
    | ImageFormat.RGB => { c with pixel_format_ := AVPixelFormat.RGB24 }
    | ImageFormat.BGR => { c with pixel_format_ := AVPixelFormat.BGR24 }
  else
    c

/-- Member `void set_size(int width, int height)`. -/
def set_size (c : RtspCameraImpl κ) (width height : Int) : RtspCameraImpl κ :=
  if c.first_frame_ then { c with width_ := width, height_ := height } else c

/-- The part of the loop body of `read()` after a successful `try_pop`, with
`video_frame_` already holding the popped frame. -/
def read_frame (lib : Libswscale κ) (c : RtspCameraImpl κ) (frame_index : Nat) :
    ReadResult × RtspCameraImpl κ :=
  let scale (c1 : RtspCameraImpl κ) : ReadResult × RtspCameraImpl κ :=
    match c1.video_scaler_.convert lib c1.video_frame_ frame_index with
    | (Except.ok img, v) => (ReadResult.image img, { c1 with video_scaler_ := v })
    | (Except.error what, v) => (ReadResult.scaler_threw what, { c1 with video_scaler_ := v })
  if c.first_frame_ then
    let width := c.video_frame_.width
    let height := c.video_frame_.height
    let c1 :=
      if c.width_ = 0 ∨ c.height_ = 0 then { c with width_ := width, height_ := height } else c
    match c1.video_scaler_.initialize_ lib width height c1.video_frame_.format
        c1.width_ c1.height_ c1.pixel_format_ with
    | (some what, v) => (ReadResult.scaler_threw what, { c1 with video_scaler_ := v })
    | (none, v) => scale { c1 with video_scaler_ := v }
  else
    scale c

/-- One round of the `for (;;)` loop of `read()`: `try_pop` with a timeout of
100 ms; on a timeout `check` the ErrorSlot and throw its message or
`continue` (`none`); otherwise take the frame and go on with `read_frame`. -/
def read_iteration (lib : Libswscale κ) (c : RtspCameraImpl κ) :
    Option ReadResult × RtspCameraImpl κ :=
  let t := c.swapper_.try_pop c.video_frame_ 100
  match t.result with
  | none =>
    let c1 := { c with swapper_ := t.swapper }
    match c1.error_slot_.check with
    | (some what, slot) => (some (ReadResult.fatal what), { c1 with error_slot_ := slot })
    | (none, slot) => (none, { c1 with error_slot_ := slot })
  | some (frame, frame_index) =>
    let r := read_frame lib { c with swapper_ := t.swapper, video_frame_ := frame } frame_index
    (some r.1, r.2)

/-- What the other threads do to the fields of the camera: the decode thread
pushes a picture into `swapper_`, the session thread sets `error_slot_`. -/
inductive Event where
  | push (frame : AVFrame)
  | set_error (what : String)
deriving DecidableEq

/-- Applies one event. -/
def apply (c : RtspCameraImpl κ) : Event → RtspCameraImpl κ
  | Event.push frame => { c with swapper_ := (c.swapper_.push frame).2 }
  | Event.set_error what => { c with error_slot_ := c.error_slot_.set what }

/-- Applies the events of a list in order. -/
def applyAll (c : RtspCameraImpl κ) : List Event → RtspCameraImpl κ
  | [] => c
  | e :: es => applyAll (c.apply e) es

/-- Member `Image read()`: the rounds of its loop, where `schedule` lists, round
by round, the events that take effect before that round's `try_pop` decides.
The result is `none` when every round of the schedule ended in `continue`:
`read()` is then still polling. -/
def read (lib : Libswscale κ) : List (List Event) → RtspCameraImpl κ →
    Option ReadResult × RtspCameraImpl κ
  | [], c => (none, c)
  | events :: schedule, c =>
    match read_iteration lib (c.applyAll events) with
    | (some r, c1) => (some r, c1)
    | (none, c1) => read lib schedule c1

/-- One step of a history of a camera: an event of another thread, a call of a
setter, or one round of the loop of `read()`. -/
inductive Op where
  | event (e : Event)
  | set_image_format (format : ImageFormat)
  | set_size (width height : Int)
  | read_round
deriving DecidableEq

/-- A camera with what the rounds of `read()` have given so far, oldest first. -/
structure Run (κ : Type) where
  camera : RtspCameraImpl κ
  results : List ReadResult

/-- Performs one step of a history. -/
def step (lib : Libswscale κ) (r : Run κ) : Op → Run κ
  | Op.event e => { r with camera := r.camera.apply e }
  | Op.set_image_format format => { r with camera := r.camera.set_image_format format }
  | Op.set_size width height => { r with camera := r.camera.set_size width height }
  | Op.read_round =>
    match read_iteration lib r.camera with
    | (some res, c) => { camera := c, results := r.results ++ [res] }
    | (none, c) => { r with camera := c }

/-- Performs the steps of `ops` in order. -/
def run (lib : Libswscale κ) (r : Run κ) : List Op → Run κ
  | [] => r
  | op :: ops => run lib (step lib r op) ops

/-- Number of pictures pushed in a history. -/
def pushCount : List Op → Nat
  | [] => 0
  | Op.event (Event.push _) :: ops => pushCount ops + 1
  | _ :: ops => pushCount ops

/-- The history in which the decode thread pushes the pictures of `frames`. -/
def pushEvents (frames : List AVFrame) : List Op :=
  frames.map (fun frame => Op.event (Event.push frame))

/-- The `frame_index_` of the images among the results, in order. -/
def frameIndexes : List ReadResult → List Nat
  | [] => []
  | ReadResult.image img :: rs => img.frame_index_ :: frameIndexes rs
  | _ :: rs => frameIndexes rs

/-- A scaling library in which every call succeeds: the context records the
target width, height and pixel format, the buffer gets a line size of three
bytes per pixel, and scaling writes the source bytes into the target frame. -/
def plainScaler : Libswscale (Int × Int × AVPixelFormat) :=
  { sws_getContext := fun _ _ _ dstW dstH dstFormat => some (dstW, dstH, dstFormat)
    sws_getColorspaceDetails := fun _ => 0
    sws_setColorspaceDetails := fun ctx _ => (0, ctx)
    av_frame_get_buffer := fun frame => (0, { frame with linesize := 3 * frame.width })
    sws_scale := fun _ src dst => (dst.height, { dst with data := src.data }) }

end RtspCameraImpl

end rtspcam

/-! ## The session: decode thread and camera on one Swapper -/

namespace rtspcam

/-- The objects of one stream: the camera, which owns the Swapper and the
ErrorSlot, and the Decoder of the video sink, whose `swapper_` refers to the
camera's Swapper.  The Decoder is constructed from the Swapper and the
extradata only. -/
structure Session (σ κ : Type) where
  camera : RtspCameraImpl κ
  decoder : Decoder σ

namespace Session

variable {σ κ : Type}

/-- How the thread started by `thread_ = std::thread([this]() { decode_loop(); })`
goes on: `decode_loop()` returned, so the thread can be joined; it waits in
`queue_.pop()`; the inner loops did not end within the fuel; or an exception
left the thread function, for which `std::thread` calls `std::terminate`: the
process is aborted and none of its objects is left. -/
inductive ThreadEnd (σ κ : Type) where
  | returned (s : Session σ κ)
  | blocked (s : Session σ κ)
  | out_of_fuel (s : Session σ κ)
  | terminate (what : String)

/-- The objects of the process after the decode thread has run, if the process
still exists. -/
def ThreadEnd.session? : ThreadEnd σ κ → Option (Session σ κ)
  | ThreadEnd.returned s => some s
  | ThreadEnd.blocked s => some s
  | ThreadEnd.out_of_fuel s => some s
  | ThreadEnd.terminate _ => none

/-- The decode thread, `decode_loop()` of the Decoder, run on the camera's
Swapper.  No function of the repository catches an exception, so one thrown by
`decode()` leaves `decode_loop()` and the thread function. -/
def decode_thread (lib : Libavcodec σ) (fuel : Nat) (s : Session σ κ) : ThreadEnd σ κ :=
  let r := Decoder.decode_loop lib fuel { s.decoder with swapper_ := s.camera.swapper_ }
  let s1 : Session σ κ :=
    { camera := { s.camera with swapper_ := r.decoder.swapper_ }, decoder := r.decoder }
  match r.exit with
  | Decoder.LoopExit.exited => ThreadEnd.returned s1
  | Decoder.LoopExit.blocked => ThreadEnd.blocked s1
  | Decoder.LoopExit.out_of_fuel => ThreadEnd.out_of_fuel s1
  | Decoder.LoopExit.threw what => ThreadEnd.terminate what

end Session

/-- A decoding library without faults: the splitter hands over all the bytes
offered as one packet, every packet sent is accepted and yields one picture,
whose `data` is the packet. -/
def plainCodec : Libavcodec (Option (List Nat)) :=
  { av_parser_parse2 := fun av buf n => (n, buf, av)
    avcodec_send_packet := fun _ packet => (0, some packet)
    avcodec_receive_frame := fun av frame =>
      match av with
      | some packet => (0, { frame with width := 4, height := 2, data := packet }, none)
      | none => (-11, frame, none)
    AVERROR_EAGAIN := -11
    AVERROR_EOF := -541478725 }

/-- A decoding library that splits like `plainCodec` and rejects every packet
whose first byte is 255 when it is sent. -/
def faultyCodec : Libavcodec (Option (List Nat)) :=
  { plainCodec with
    avcodec_send_packet := fun av packet =>
      if packet.head? = some 255 then (-1, av) else (0, some packet) }

end rtspcam

/-! ## Further definitions for the camera and the decoder -/

namespace rtspcam

/-- What the model asks of the scaling library for the size of the returned
image: `av_frame_get_buffer` and `sws_scale` leave the `width` and `height` of
the frame they are given as they are (they fill `data` and `linesize`). -/
def Libswscale.KeepsSize {κ : Type} (lib : Libswscale κ) : Prop :=
  (∀ frame : AVFrame,
    (lib.av_frame_get_buffer frame).2.width = frame.width ∧
    (lib.av_frame_get_buffer frame).2.height = frame.height) ∧
  (∀ (ctx : κ) (src dst : AVFrame),
    (lib.sws_scale ctx src dst).2.width = dst.width ∧
    (lib.sws_scale ctx src dst).2.height = dst.height)

namespace RtspCameraImpl

/-- A scaling library like `plainScaler`, except that `sws_getContext` returns
null for a source width of 6. -/
def pickyScaler : Libswscale (Int × Int × AVPixelFormat) :=
  { plainScaler with
    sws_getContext := fun srcW _ _ dstW dstH dstFormat =>
      if srcW = 6 then none else some (dstW, dstH, dstFormat) }

end RtspCameraImpl

namespace Decoder

variable {σ : Type}

/-- A run of `send` calls with the chunks of `slices`, in order. -/
def sendAll (d : Decoder σ) : List (List Nat) → Decoder σ
  | [] => d
  | slice :: slices => sendAll (d.send slice) slices

/-- A call of the decoding library with what it was given or gave back: a
splitter call with the `len` and the packet it returned, a packet sent for
decoding, a frame asked for with the code returned. -/
inductive Call where
  | parse (len : Int) (packet : List Nat)
  | send (packet : List Nat)
  | receive (ret : Int)
deriving DecidableEq

/-- The library `lib` with a record of the calls made to it, oldest first,
kept next to its state. -/
def logged (lib : Libavcodec σ) : Libavcodec (σ × List Call) :=
  { av_parser_parse2 := fun av buf n =>
      ((lib.av_parser_parse2 av.1 buf n).1, (lib.av_parser_parse2 av.1 buf n).2.1,
        ((lib.av_parser_parse2 av.1 buf n).2.2,
          av.2 ++ [Call.parse (lib.av_parser_parse2 av.1 buf n).1
            (lib.av_parser_parse2 av.1 buf n).2.1]))
    avcodec_send_packet := fun av packet =>
      ((lib.avcodec_send_packet av.1 packet).1,
        ((lib.avcodec_send_packet av.1 packet).2, av.2 ++ [Call.send packet]))
    avcodec_receive_frame := fun av frame =>
      ((lib.avcodec_receive_frame av.1 frame).1, (lib.avcodec_receive_frame av.1 frame).2.1,
        ((lib.avcodec_receive_frame av.1 frame).2.2,
          av.2 ++ [Call.receive (lib.avcodec_receive_frame av.1 frame).1]))
    AVERROR_EAGAIN := lib.AVERROR_EAGAIN
    AVERROR_EOF := lib.AVERROR_EOF }

/-- The `len` and packet of the splitter calls in a record, in order. -/
def parseCalls : List Call → List (Int × List Nat)
  | [] => []
  | Call.parse len packet :: calls => (len, packet) :: parseCalls calls
  | _ :: calls => parseCalls calls

/-- The packets sent for decoding in a record, one per call of `decode()`, in
order. -/
def sentPackets : List Call → List (List Nat)
  | [] => []
  | Call.send packet :: calls => packet :: sentPackets calls
  | _ :: calls => sentPackets calls

end Decoder

/-- A decoding library like `plainCodec` whose splitter consumes one byte per
call and hands it over as the packet. -/
def byteCodec : Libavcodec (Option (List Nat)) :=
  { plainCodec with av_parser_parse2 := fun av buf _ => (1, buf.take 1, av) }

/-- The library `byteCodec`, except that it rejects the packet `[255]` when it
is sent. -/
def faultyByteCodec : Libavcodec (Option (List Nat)) :=
  { faultyCodec with av_parser_parse2 := fun av buf _ => (1, buf.take 1, av) }

end rtspcam

/-! ## `src/rtsp_camera_client.cpp`: the video sink -/

namespace rtspcam

/-- The constant `receive_buffer_size`. -/
def receive_buffer_size : Nat := 2000000

/-- Fields of `VideoSink` used by `afterGettingFrame`. -/
structure VideoSink (σ : Type) where
  receive_buffer_ : List Nat
  waiting_for_sps_unit_ : Bool
  decoder_ : Decoder σ

namespace VideoSink

variable {σ : Type}

/-- Constructor `VideoSink(...)`: a zero-filled buffer of `receive_buffer_size +
4` bytes that starts with the marker `00 00 00 01`, `waiting_for_sps_unit_(true)`
and a new Decoder (`av` is the state of the opened codec). -/
def new (av : σ) (swapper : Swapper AVFrame) : VideoSink σ :=
  { receive_buffer_ := [0, 0, 0, 1] ++ List.replicate receive_buffer_size 0
    waiting_for_sps_unit_ := true
    decoder_ := Decoder.new av swapper }

/-- The call `fSource->getNextFrame(&receive_buffer_[4], receive_buffer_size,
afterGettingFrame, ...)` of `continuePlaying()` when the source has the frame
`frame`: at most `receive_buffer_size` bytes of it are written from offset 4
on; the second component is the `frameSize` then passed to the callback. -/
def getNextFrame (s : VideoSink σ) (frame : List Nat) : VideoSink σ × Nat :=
  ({ s with
     receive_buffer_ :=
       s.receive_buffer_.take 4 ++ frame.take receive_buffer_size
         ++ s.receive_buffer_.drop (4 + (frame.take receive_buffer_size).length) },
    (frame.take receive_buffer_size).length)

/-- Member `afterGettingFrame(frameSize, ...)`: clear `waiting_for_sps_unit_` if
it is set and `receive_buffer_[4] == 0x67`; if it is then clear, send the first
`frameSize + 4` bytes of the buffer (an `unsigned` sum) to the Decoder. -/
def afterGettingFrame (s : VideoSink σ) (frameSize : Nat) : VideoSink σ :=
  let s1 :=
    if s.waiting_for_sps_unit_ = true ∧ s.receive_buffer_.getD 4 0 = 0x67 then
      { s with waiting_for_sps_unit_ := false }
    else
      s
  if s1.waiting_for_sps_unit_ = false then
    { s1 with decoder_ := s1.decoder_.send (s1.receive_buffer_.take ((frameSize + 4) % 2 ^ 32)) }
  else
    s1

/-- One received frame: the source writes it, then calls `afterGettingFrame`. -/
def deliver (s : VideoSink σ) (frame : List Nat) : VideoSink σ :=
  (s.getNextFrame frame).1.afterGettingFrame (s.getNextFrame frame).2

/-- The frames of a list received in order. -/
def deliverAll (s : VideoSink σ) : List (List Nat) → VideoSink σ
  | [] => s
  | frame :: frames => deliverAll (s.deliver frame) frames

/-- Whether a frame does not start with the byte `0x67`. -/
def notSps (frame : List Nat) : Bool := decide (frame.head? ≠ some 0x67)

/-- What the sink sends for a frame: the marker and the bytes that fit the
buffer. -/
def chunkOf (frame : List Nat) : List Nat := [0, 0, 0, 1] ++ frame.take receive_buffer_size

/-- The state of the buffer the model relies on: its length, the marker at the
front, and no `0x67` at offset 4 while the sink is waiting. -/
def BufferOk (s : VideoSink σ) : Prop :=
  s.receive_buffer_.length = receive_buffer_size + 4 ∧
  s.receive_buffer_.take 4 = [0, 0, 0, 1] ∧
  (s.waiting_for_sps_unit_ = true → s.receive_buffer_.getD 4 0 ≠ 0x67)

end VideoSink

end rtspcam

/-! ## `src/rtsp_camera_client.cpp`: teardown of the session -/

namespace rtspcam

/-- What the model keeps of a `MediaSubsession`: whether `sink` and
`rtcpInstance()` are non-null. -/
structure MediaSubsession where
  sink : Bool
  rtcpInstance : Bool
deriving DecidableEq

/-- What the model keeps of `RtspCameraClient::StreamState`: `session_`, null
or the session with its subsessions. -/
structure StreamState where
  session_ : Option (List MediaSubsession)
deriving DecidableEq

/-- The calls that the teardown makes on other objects: `Medium::close` of the
sink of subsession `i`, `setByeHandler(NULL, NULL)` on its RTCP instance,
`sendTeardownCommand`, and `error_slot_.set`. -/
inductive ClientCall where
  | close_sink (i : Nat)
  | clear_bye_handler (i : Nat)
  | send_teardown
  | error_slot_set (error : String)
deriving DecidableEq

/-- Fields of `RtspCameraClient` used by the teardown, the ErrorSlot that
`error_slot_` refers to, and the record `calls` of the calls made so far. -/
structure RtspCameraClient where
  error_slot_ : ErrorSlot
  error_message_ : String
  quit_flag_ : Nat
  already_shutteddown_ : Bool
  stream_state_ : StreamState
  calls : List ClientCall
deriving DecidableEq

namespace RtspCameraClient

/-- Constructor `RtspCameraClient(environment, rtsp_url, swapper, error_slot)`:
an empty `error_message_`, `quit_flag_(0)`, `already_shutteddown_(false)`, a
value-initialised `stream_state_`. -/
def new (error_slot : ErrorSlot) : RtspCameraClient :=
  { error_slot_ := error_slot
    error_message_ := ""
    quit_flag_ := 0
    already_shutteddown_ := false
    stream_state_ := { session_ := none }
    calls := [] }

/-- The loop of `shutdownStream` over the subsessions, from index `i`: every
non-null sink is closed and set to null, and the BYE handler of its RTCP
instance is cleared. -/
def closeSinks : Nat → List MediaSubsession → List MediaSubsession × List ClientCall
  | _, [] => ([], [])
  | i, sub :: subs =>
    if sub.sink then
      ({ sub with sink := false } :: (closeSinks (i + 1) subs).1,
        ClientCall.close_sink i ::
          ((if sub.rtcpInstance then [ClientCall.clear_bye_handler i] else [])
            ++ (closeSinks (i + 1) subs).2))
    else
      (sub :: (closeSinks (i + 1) subs).1, (closeSinks (i + 1) subs).2)

/-- Function `shutdownStream(rtsp_client)`. -/
def shutdownStream (c : RtspCameraClient) : RtspCameraClient :=
  if c.already_shutteddown_ then
    c
  else
    let c1 :=
      match c.stream_state_.session_ with
      | none => c
      | some subs =>
        { c with
          stream_state_ := { session_ := some (closeSinks 0 subs).1 }
          calls := c.calls ++ (closeSinks 0 subs).2
            ++ (if subs.any (fun sub => sub.sink) then [ClientCall.send_teardown] else []) }
    { c1 with
      already_shutteddown_ := true
      error_slot_ := c1.error_slot_.set c1.error_message_
      calls := c1.calls ++ [ClientCall.error_slot_set c1.error_message_] }

/-- Function `continueAfterDESCRIBE(rtsp_client, result_code, result_string)`;
`session` is what `MediaSession::createNew` returns for the description.  On
success the function goes on to `setupNextSubsession`, which changes none of
the other fields. -/
def continueAfterDESCRIBE (c : RtspCameraClient) (result_code : Int) (result_string : String)
    (session : Option (List MediaSubsession)) : RtspCameraClient :=
  if result_code ≠ 0 then
    shutdownStream
      { c with error_message_ := "Failed to get a SDP description: " ++ result_string }
  else
    match session with
    | none => shutdownStream { c with stream_state_ := { session_ := none } }
    | some subs =>
      if subs.isEmpty then
        shutdownStream { c with stream_state_ := { session_ := some subs } }
      else
        { c with stream_state_ := { session_ := some subs } }

/-- What `setupNextSubsession` and `continueAfterSETUP` do to the fields of the
model: they change `stream_state_` (subsessions initiated, sinks created) and
nothing else, and do not call `shutdownStream`. -/
def setup (c : RtspCameraClient) (state : StreamState) : RtspCameraClient :=
  { c with stream_state_ := state }

/-- Function `continueAfterPLAY(rtsp_client, result_code, result_string)`. -/
def continueAfterPLAY (c : RtspCameraClient) (result_code : Int) : RtspCameraClient :=
  if result_code ≠ 0 then shutdownStream c else c

/-- Function `subsessionAfterPlaying` for subsession `i` (also the end of
`subsessionByeHandler`): close its sink, and shut the stream down unless
another subsession still has a sink. -/
def subsessionAfterPlaying (c : RtspCameraClient) (i : Nat) : RtspCameraClient :=
  match c.stream_state_.session_ with
  | none => c
  | some subs =>
    let subs1 := subs.modify (fun sub => { sub with sink := false }) i
    let c1 :=
      { c with
        stream_state_ := { session_ := some subs1 }
        calls := c.calls ++ [ClientCall.close_sink i] }
    if subs1.any (fun sub => sub.sink) then c1 else shutdownStream c1

/-- Function `streamTimerHandler(client_data)`. -/
def streamTimerHandler (c : RtspCameraClient) : RtspCameraClient :=
  shutdownStream c

/-- Member `void on_quit()`. -/
def on_quit (c : RtspCameraClient) : RtspCameraClient :=
  { shutdownStream c with quit_flag_ := 1 }

/-- One callback of the event loop, with what the library passes to it. -/
inductive Op where
  | describe (result_code : Int) (result_string : String)
      (session : Option (List MediaSubsession))
  | setup (state : StreamState)
  | play (result_code : Int)
  | after_playing (i : Nat)
  | stream_timer
  | quit
deriving DecidableEq

/-- Handles one callback; `doEventLoop(&quit_flag_)` handles none once
`quit_flag_` is set. -/
def step (c : RtspCameraClient) (op : Op) : RtspCameraClient :=
  if c.quit_flag_ ≠ 0 then
    c
  else
    match op with
    | Op.describe result_code result_string session =>
      c.continueAfterDESCRIBE result_code result_string session
    | Op.setup state => c.setup state
    | Op.play result_code => c.continueAfterPLAY result_code
    | Op.after_playing i => c.subsessionAfterPlaying i
    | Op.stream_timer => c.streamTimerHandler
    | Op.quit => c.on_quit

/-- Handles the callbacks of `ops` in order. -/
def run (c : RtspCameraClient) : List Op → RtspCameraClient
  | [] => c
  | op :: ops => run (c.step op) ops

/-- Number of `error_slot_.set` calls in a record. -/
def setCount : List ClientCall → Nat
  | [] => 0
  | ClientCall.error_slot_set _ :: calls => setCount calls + 1
  | _ :: calls => setCount calls

/-- Whether a callback is a DESCRIBE response that reports a failure. -/
def failedDescribe : Op → Bool
  | Op.describe result_code _ _ => decide (result_code ≠ 0)
  | _ => false

end RtspCameraClient

end rtspcam

/-! ## `src/swapper.hpp`: a producer and a consumer thread on one Swapper -/

namespace Swapper

/-- The two threads: one calls `push`, the other `try_pop`. -/
inductive Thread where
  | producer
  | consumer
deriving DecidableEq

/-- Where the producer thread is in `push`. -/
inductive PushAt where
  /-- Not in a call, or before the `std::scoped_lock`. -/
  | outside
  /-- It holds `mutex_`; the block has not run yet. -/
  | locked
  /-- The block is done and `mutex_` released; `if (should_signal)` is next. -/
  | unlocked (should_signal : Bool)
deriving DecidableEq

/-- Where the consumer thread is in `try_pop`. -/
inductive TryPopAt where
  /-- Not in a call, or before the `std::unique_lock`. -/
  | outside
  /-- It holds `mutex_`; `is_waiting_ = true` is next. -/
  | locked
  /-- Inside `wait_for`: `mutex_` released, the thread blocked on `condvar_`. -/
  | blocked
  /-- The wait has ended (by a notification, the timeout or spuriously); the
  thread has to take `mutex_` again. -/
  | unblocked (timed_out : Bool)
  /-- It holds `mutex_` again; the wait returns with this status. -/
  | relocked (timed_out : Bool)
deriving DecidableEq

/-- The Swapper, its mutex, and the two threads: what the producer still has to
push, the arguments of the `try_pop` calls the consumer still has to make, and
what its calls have returned so far. -/
structure Threads where
  swapper : Swapper Nat
  mutex_ : Option Thread
  push_at : PushAt
  to_push : List Nat
  try_pop_at : TryPopAt
  spares : List Nat
  timeout : Nat
  results : List (Option (Nat × Nat))
deriving DecidableEq

/-- What moves next: a thread runs up to its next lock, unlock or wait, or the
wait of the consumer ends by its timeout or spuriously. -/
inductive Action where
  | producer
  | consumer
  | timeout
  | spurious
deriving DecidableEq

namespace Threads

/-- The values the consumer has received, oldest first. -/
def received (st : Threads) : List Nat :=
  st.results.filterMap (fun r => r.map Prod.fst)

/-- The consumer returns from `try_pop` with `mutex_` held and the wait over:
`wait_for` has returned the value of the predicate, the rest of the body runs
and the lock is released. -/
def returns (st : Threads) (spare : Nat) (rest : List Nat) : Threads :=
  { st with
    swapper := (st.swapper.try_pop spare st.timeout).swapper
    mutex_ := none
    try_pop_at := TryPopAt.outside
    spares := rest
    results := st.results ++ [(st.swapper.try_pop spare st.timeout).result] }

/-- The test `while (!pred())` of `wait_for`, with `mutex_` held: if
`pop_counter_ != push_counter_` the wait returns true and `try_pop` returns;
otherwise the thread releases `mutex_` and blocks on `condvar_`. -/
def test_predicate (st : Threads) (spare : Nat) (rest : List Nat) : Threads :=
  if st.swapper.pop_counter_ ≠ st.swapper.push_counter_ then
    st.returns spare rest
  else
    { st with mutex_ := none, try_pop_at := TryPopAt.blocked }

/-- One move.  `none` when the move is not possible in this state: the thread
has no call left, waits for `mutex_`, or is blocked on `condvar_`. -/
def step (st : Threads) : Action → Option Threads
  | Action.producer =>
    match st.push_at, st.to_push with
    | PushAt.outside, [] => none
    | PushAt.outside, _ :: _ =>
      if st.mutex_ = none then
        some { st with mutex_ := some Thread.producer, push_at := PushAt.locked }
      else none
    | PushAt.locked, [] => none
    | PushAt.locked, item :: rest =>
      some { st with
             swapper := (st.swapper.push item).2
             mutex_ := none
             push_at := PushAt.unlocked st.swapper.is_waiting_
             to_push := rest }
    | PushAt.unlocked should_signal, _ =>
      some { st with
             push_at := PushAt.outside
             try_pop_at :=
               if should_signal = true ∧ st.try_pop_at = TryPopAt.blocked then
                 TryPopAt.unblocked false
               else st.try_pop_at }
  | Action.consumer =>
    match st.try_pop_at, st.spares with
    | TryPopAt.outside, [] => none
    | TryPopAt.outside, _ :: _ =>
      if st.mutex_ = none then
        some { st with mutex_ := some Thread.consumer, try_pop_at := TryPopAt.locked }
      else none
    | TryPopAt.locked, spare :: rest =>
      some (test_predicate
        { st with swapper := { st.swapper with is_waiting_ := true } } spare rest)
    | TryPopAt.unblocked timed_out, _ =>
      if st.mutex_ = none then
        some { st with mutex_ := some Thread.consumer,
                       try_pop_at := TryPopAt.relocked timed_out }
      else none
    | TryPopAt.relocked true, spare :: rest => some (st.returns spare rest)
    | TryPopAt.relocked false, spare :: rest => some (st.test_predicate spare rest)
    | _, _ => none
  | Action.timeout =>
    if st.try_pop_at = TryPopAt.blocked ∨ st.try_pop_at = TryPopAt.unblocked false then
      some { st with try_pop_at := TryPopAt.unblocked true }
    else none
  | Action.spurious =>
    if st.try_pop_at = TryPopAt.blocked then
      some { st with try_pop_at := TryPopAt.unblocked false }
    else none

/-- A schedule: the moves of a list, in order; `none` if one is not possible. -/
def run (st : Threads) : List Action → Option Threads
  | [] => some st
  | a :: as =>
    match st.step a with
    | none => none
    | some st1 => run st1 as

/-- A new Swapper, the producer about to push `items` in order and the consumer
about to call `try_pop` once for each of `spares`. -/
def start (init : Nat) (items spares : List Nat) (timeout : Nat) : Threads :=
  { swapper := Swapper.new init
    mutex_ := none
    push_at := PushAt.outside
    to_push := items
    try_pop_at := TryPopAt.outside
    spares := spares
    timeout := timeout
    results := [] }

/-- The producer has made all its calls. -/
def producerDone (st : Threads) : Prop := st.push_at = PushAt.outside ∧ st.to_push = []

/-- The consumer has made all its calls. -/
def consumerDone (st : Threads) : Prop := st.try_pop_at = TryPopAt.outside ∧ st.spares = []

/-- How the lock, the calls in progress, `is_waiting_` and the pending
notification fit together in a state. -/
structure Control (st : Threads) : Prop where
  producer_lock : st.mutex_ = some Thread.producer ↔ st.push_at = PushAt.locked
  consumer_lock : st.mutex_ = some Thread.consumer ↔
    (st.try_pop_at = TryPopAt.locked ∨ ∃ t, st.try_pop_at = TryPopAt.relocked t)
  producer_call : st.push_at = PushAt.locked → st.to_push ≠ []
  consumer_call : st.try_pop_at ≠ TryPopAt.outside → st.spares ≠ []
  waiting : st.try_pop_at ≠ TryPopAt.outside → st.try_pop_at ≠ TryPopAt.locked →
    st.swapper.is_waiting_ = true
  wakeup : st.try_pop_at = TryPopAt.blocked →
    st.swapper.pop_counter_ ≠ st.swapper.push_counter_ → st.push_at = PushAt.unlocked true

/-- How the stored item and the received values relate to the values pushed so
far, when the producer pushes `items`. -/
def Data (items : List Nat) (st : Threads) : Prop :=
  st.received.Pairwise (fun a b => a < b) ∧
  ∃ pushed, items = pushed ++ st.to_push ∧
    (∀ r ∈ st.received, r ∈ pushed) ∧
    (st.swapper.pop_counter_ ≠ st.swapper.push_counter_ →
      st.swapper.item_ ∈ pushed ∧ ∀ r ∈ st.received, r < st.swapper.item_)

/-- A bound on the moves the producer still makes. -/
def pushRank (st : Threads) : Nat :=
  match st.push_at with
  | PushAt.outside => 3 * st.to_push.length
  | PushAt.locked => 3 * st.to_push.length - 1
  | PushAt.unlocked _ => 3 * st.to_push.length + 1

/-- A bound on the moves the consumer still makes when each of its waits ends by
the timeout. -/
def tryPopRank (st : Threads) : Nat :=
  match st.try_pop_at with
  | TryPopAt.outside => 6 * st.spares.length
  | TryPopAt.locked => 6 * (st.spares.length - 1) + 4
  | TryPopAt.blocked => 6 * (st.spares.length - 1) + 3
  | TryPopAt.unblocked false => 6 * (st.spares.length - 1) + 5
  | TryPopAt.unblocked true => 6 * (st.spares.length - 1) + 2
  | TryPopAt.relocked false => 6 * (st.spares.length - 1) + 4
  | TryPopAt.relocked true => 6 * (st.spares.length - 1) + 1

/-- A bound on the moves left under the schedule `next`. -/
def rank (st : Threads) : Nat := 3 * st.pushRank + st.tryPopRank

/-- A schedule that finishes every call: the holder of `mutex_` moves; if it is
free the producer moves while it has something to do, then the consumer, whose
wait ends by the timeout. -/
def next (st : Threads) : Action :=
  match st.mutex_ with
  | some Thread.producer => Action.producer
  | some Thread.consumer => Action.consumer
  | none =>
    if st.push_at = PushAt.outside ∧ st.to_push = [] then
      if st.try_pop_at = TryPopAt.blocked then Action.timeout else Action.consumer
    else Action.producer

end Threads

end Swapper

/-! ## Swapper: lemmas -/

namespace Swapper

variable {T : Type}

theorem pushAll_cons_eq (s : Swapper T) (x : T) (xs : List T) :
    pushAll s (x :: xs) =
      { s with
        item_ := (x :: xs).getLast (List.cons_ne_nil x xs)
        push_counter_ := (s.push_counter_ + (xs.length + 1)) % 2 ^ 64 } := by
  induction xs generalizing s x with
  | nil => simp [pushAll, push]
  | cons y ys ih =>
    have h := ih (s.push x).2 y
    rw [pushAll, h]
    simp only [push, List.length_cons, List.getLast_cons_cons]
    congr 1
    omega

theorem pushAll_eq (s : Swapper T) (xs : List T) (hne : xs ≠ []) :
    pushAll s xs =
      { s with
        item_ := xs.getLast hne
        push_counter_ := (s.push_counter_ + xs.length) % 2 ^ 64 } := by
  cases xs with
  | nil => exact absurd rfl hne
  | cons x xs => exact pushAll_cons_eq s x xs

theorem run_append (r : Run T) (a b : List (Op T)) :
    run r (a ++ b) = (run r a).bind (fun r1 => run r1 b) := by
  induction a generalizing r with
  | nil => simp [run]
  | cons op ops ih =>
    simp only [List.cons_append, run]
    cases step r op with
    | none => simp
    | some r1 => simpa using ih r1

theorem run_pushOps (r : Run T) (xs : List T) :
    run r (pushOps xs) = some { r with swapper := pushAll r.swapper xs } := by
  induction xs generalizing r with
  | nil => simp [pushOps, run, pushAll]
  | cons x xs ih =>
    have h := ih { r with swapper := (r.swapper.push x).2 }
    simp only [pushOps] at h
    simp [pushOps, run, step, pushAll, h]

theorem pushCount_append (a b : List (Op T)) :
    pushCount (a ++ b) = pushCount a + pushCount b := by
  induction a with
  | nil => simp [pushCount]
  | cons op ops ih =>
    cases op <;> simp [pushCount, ih]
    omega

theorem inv_new (init : T) : Inv 0 { swapper := new init, seqs := [] } :=
  ⟨0, le_refl 0, by simp [new], by simp [new], by simp, by simp⟩

theorem inv_step (k : Nat) (r r1 : Run T) (op : Op T) (hinv : Inv k r)
    (hstep : step r op = some r1) (hk : k + pushCount [op] ≤ 2 ^ 64) :
    Inv (k + pushCount [op]) r1 := by
  obtain ⟨j, hjk, hpush, hpop, hseqs, hpw⟩ := hinv
  have hk0 : k ≤ 2 ^ 64 := by omega
  have popCase : r.swapper.pop_counter_ ≠ r.swapper.push_counter_ →
      ∀ s1 : Swapper T, s1.push_counter_ = r.swapper.push_counter_ →
        s1.pop_counter_ = r.swapper.push_counter_ →
        Inv k { swapper := s1, seqs := r.seqs ++ [r.swapper.push_counter_] } := by
    intro hne s1 e1 e2
    refine ⟨k, le_refl k, e1.trans hpush, e2.trans hpush, ?_, ?_⟩
    · intro x hx
      rcases List.mem_append.mp hx with hx | hx
      · have := hseqs x hx
        omega
      · simp only [List.mem_singleton] at hx
        subst hx
        omega
    · refine List.pairwise_append.mpr ⟨hpw, List.pairwise_singleton _ _, ?_⟩
      intro a ha b hb
      simp only [List.mem_singleton] at hb
      subst hb
      have := hseqs a ha
      omega
  cases op with
  | push item =>
    simp only [step, Option.some.injEq] at hstep
    subst hstep
    simp only [pushCount] at hk ⊢
    refine ⟨j, by omega, ?_, hpop, hseqs, hpw⟩
    simp only [push, hpush]
    omega
  | pop item =>
    simp only [step, pop] at hstep
    by_cases hne : r.swapper.pop_counter_ ≠ r.swapper.push_counter_
    · rw [if_pos hne] at hstep
      simp only [Option.some.injEq] at hstep
      subst hstep
      have h := popCase hne
        { r.swapper with
          item_ := item, pop_counter_ := r.swapper.push_counter_, is_waiting_ := false }
        rfl rfl
      simpa [pushCount] using h
    · rw [if_neg hne] at hstep
      simp at hstep
  | try_pop item timeout =>
    simp only [step, try_pop] at hstep
    by_cases hne : r.swapper.pop_counter_ ≠ r.swapper.push_counter_
    · rw [if_pos hne] at hstep
      simp only [Option.some.injEq] at hstep
      subst hstep
      have h := popCase hne
        { r.swapper with
          item_ := item, pop_counter_ := r.swapper.push_counter_, is_waiting_ := false }
        rfl rfl
      simpa [pushCount] using h
    · rw [if_neg hne] at hstep
      simp only [Option.some.injEq] at hstep
      subst hstep
      exact ⟨j, by simpa [pushCount] using hjk, hpush, hpop, hseqs, hpw⟩

theorem inv_run (k : Nat) (r r1 : Run T) (ops : List (Op T)) (hinv : Inv k r)
    (hrun : run r ops = some r1) (hk : k + pushCount ops ≤ 2 ^ 64) :
    Inv (k + pushCount ops) r1 := by
  induction ops generalizing k r with
  | nil =>
    simp only [run, Option.some.injEq] at hrun
    subst hrun
    simpa [pushCount] using hinv
  | cons op ops ih =>
    simp only [run] at hrun
    cases hs : step r op with
    | none => simp [hs] at hrun
    | some r2 =>
      rw [hs] at hrun
      have hc : pushCount (op :: ops) = pushCount [op] + pushCount ops :=
        pushCount_append [op] ops
      rw [hc] at hk ⊢
      have h2 := inv_step k r r2 op hinv hs (by omega)
      have h3 := ih (k + pushCount [op]) r2 h2 hrun (by omega)
      rw [← Nat.add_assoc]
      exact h3

theorem pushAll_blocked (s : Swapper T) (xs : List T) (hne : xs ≠ [])
    (hcnt : (s.push_counter_ + xs.length) % 2 ^ 64 = s.pop_counter_)
    (spare : T) (timeout : Nat) :
    pop (pushAll s xs) spare = none ∧
    (try_pop (pushAll s xs) spare timeout).result = none := by
  rw [pushAll_eq s xs hne]
  have hd : ¬ (s.pop_counter_ ≠ (s.push_counter_ + xs.length) % 2 ^ 64) := by
    rw [hcnt]
    exact fun h => h rfl
  constructor
  · simp only [pop]
    rw [if_neg hd]
  · simp only [try_pop]
    rw [if_neg hd]

theorem run_pushOps_pop_seqs (r : Run T) (xs : List T) (hne : xs ≠ []) (spare : T)
    (hd : r.swapper.pop_counter_ ≠ (r.swapper.push_counter_ + xs.length) % 2 ^ 64) :
    (run r (pushOps xs ++ [Op.pop spare])).map Run.seqs
      = some (r.seqs ++ [(r.swapper.push_counter_ + xs.length) % 2 ^ 64]) := by
  rw [run_append, run_pushOps, pushAll_eq _ _ hne]
  simp only [Option.some_bind, run, step, pop]
  rw [if_pos hd]
  rfl

end Swapper

/-! ## Swapper: the contract -/

namespace Swapper

variable {T : Type}

/-- C1 (as amended): after pushes `x1..xn` with no pop in between, a `pop` or
`try_pop` that succeeds returns `xn` as its item, from every state; and when
the two counters were equal before the pushes and `n < 2^64`, both do succeed. -/
theorem pushes_then_pop_latest (s : Swapper T) (xs : List T) (hne : xs ≠ [])
    (spare : T) (timeout : Nat) :
    (∀ res, pop (pushAll s xs) spare = some res → res.1.1 = xs.getLast hne) ∧
    (∀ res, (try_pop (pushAll s xs) spare timeout).result = some res →
      res.1 = xs.getLast hne) ∧
    (s.pop_counter_ = s.push_counter_ → xs.length < 2 ^ 64 →
      (∃ seq s1, pop (pushAll s xs) spare = some ((xs.getLast hne, seq), s1)) ∧
      (∃ seq, (try_pop (pushAll s xs) spare timeout).result
        = some (xs.getLast hne, seq))) := by
  have hlen : 1 ≤ xs.length := by
    cases xs with
    | nil => exact absurd rfl hne
    | cons x xs => simp
  rw [pushAll_eq s xs hne]
  refine ⟨?_, ?_, ?_⟩
  · intro res h
    simp only [pop] at h
    split at h
    · simp only [Option.some.injEq] at h
      rw [← h]
    · simp at h
  · intro res h
    simp only [try_pop] at h
    split at h
    · simp only [Option.some.injEq] at h
      rw [← h]
    · simp at h
  · intro heq hlt
    have hd : s.pop_counter_ ≠ (s.push_counter_ + xs.length) % 2 ^ 64 := by
      omega
    exact ⟨⟨_, _, by simp only [pop]; rw [if_pos hd]⟩,
      ⟨_, by simp only [try_pop]; rw [if_pos hd]⟩⟩

/-- Witness of C1: two pushes on a new Swapper. -/
theorem pushes_then_pop_latest_witness :
    ([5, 6] : List Nat) ≠ [] ∧
    (new (0 : Nat)).pop_counter_ = (new (0 : Nat)).push_counter_ ∧
    (∃ seq s1, pop (pushAll (new (0 : Nat)) [5, 6]) 9 = some ((6, seq), s1)) :=
  ⟨by decide, rfl,
    ((pushes_then_pop_latest (new (0 : Nat)) [5, 6] (by decide) 9 100).2.2 rfl
      (by decide)).1⟩

/-- C1 as stated fails: from the reachable state left by one push, a further
`2^64 - 1` pushes bring `push_counter_` back to `pop_counter_`, so the next
`pop` blocks and the next `try_pop` times out instead of returning the last
item. -/
theorem latest_wins_counterexample :
    Reachable ((new (0 : Nat)).push 1).2 ∧
    1 ≤ (List.replicate (2 ^ 64 - 1) (7 : Nat)).length ∧
    (List.replicate (2 ^ 64 - 1) (7 : Nat)).length < 2 ^ 64 ∧
    pop (pushAll ((new (0 : Nat)).push 1).2 (List.replicate (2 ^ 64 - 1) 7)) 9 = none ∧
    (try_pop (pushAll ((new (0 : Nat)).push 1).2 (List.replicate (2 ^ 64 - 1) 7)) 9 100).result
      = none := by
  have hlen : (List.replicate (2 ^ 64 - 1) (7 : Nat)).length = 2 ^ 64 - 1 :=
    List.length_replicate _ _
  have hne : List.replicate (2 ^ 64 - 1) (7 : Nat) ≠ [] :=
    List.ne_nil_of_length_pos (by rw [hlen]; decide)
  have hcnt : (((new (0 : Nat)).push 1).2.push_counter_
      + (List.replicate (2 ^ 64 - 1) (7 : Nat)).length) % 2 ^ 64
      = ((new (0 : Nat)).push 1).2.pop_counter_ := by
    rw [hlen]
    decide
  refine ⟨⟨0, [Op.push 1], [], rfl⟩, ?_, ?_, ?_, ?_⟩
  · rw [hlen]
    decide
  · rw [hlen]
    decide
  · exact (pushAll_blocked _ _ hne hcnt 9 100).1
  · exact (pushAll_blocked _ _ hne hcnt 9 100).2

/-- C2 (as amended): for `1 ≤ n < 2^64`, when the `n`-th push in total on a
newly constructed Swapper has just been made, `pop` returns that push's item
with the sequence number `n - 1`: the numbers count pushes from zero. -/
theorem pop_seq_is_push_total_minus_one (init : T) (ops : List (Op T)) (x : T)
    (r : Run T) (spare : T)
    (hrun : run { swapper := new init, seqs := [] } (ops ++ [Op.push x]) = some r)
    (hn : pushCount (ops ++ [Op.push x]) < 2 ^ 64) :
    1 ≤ pushCount (ops ++ [Op.push x]) ∧
    ∃ s1, pop r.swapper spare
      = some ((x, pushCount (ops ++ [Op.push x]) - 1), s1) := by
  rw [pushCount_append] at hn ⊢
  simp only [pushCount] at hn ⊢
  rw [run_append] at hrun
  cases h0 : run { swapper := new init, seqs := [] } ops with
  | none => simp [h0] at hrun
  | some r1 =>
    rw [h0] at hrun
    simp only [Option.some_bind, run, step, Option.some.injEq] at hrun
    subst hrun
    have hinv := inv_run 0 _ r1 ops (inv_new init) h0 (by omega)
    obtain ⟨j, hjk, hpush, hpop, -, -⟩ := hinv
    refine ⟨by omega, ?_⟩
    have hd : r1.swapper.pop_counter_ ≠ (r1.swapper.push_counter_ + 1) % 2 ^ 64 := by
      omega
    have hs : (r1.swapper.push_counter_ + 1) % 2 ^ 64 = pushCount ops + 0 + 1 - 1 := by
      omega
    simp only [pop, push]
    rw [if_pos hd, hs]
    exact ⟨_, rfl⟩

/-- Witness of C2: push, pop, push, push; the third push in total is popped
with sequence number `2`. -/
theorem pop_seq_is_push_total_minus_one_witness :
    run { swapper := new (0 : Nat), seqs := [] }
      ([Op.push 5, Op.pop 0, Op.push 6] ++ [Op.push 7])
      = some { swapper := ⟨2, 0, 7, false⟩, seqs := [0] } ∧
    ∃ s1, pop (Swapper.mk 2 0 (7 : Nat) false) 9 = some ((7, 2), s1) :=
  ⟨by decide,
    (pop_seq_is_push_total_minus_one (0 : Nat) [Op.push 5, Op.pop 0, Op.push 6] 7
      { swapper := ⟨2, 0, 7, false⟩, seqs := [0] } 9 (by decide) (by decide)).2⟩

/-- C2 as stated fails: after one push on a new Swapper `pop` returns the
sequence number `0`, not the number of pushes `1`. -/
theorem pop_seq_counterexample :
    pushCount [Op.push (5 : Nat)] = 1 ∧
    (pop (pushAll (new (0 : Nat)) [5]) 9).map (fun res => res.1.2) = some 0 := by
  decide

/-- C3 (as amended): in every history of `push`, `pop` and `try_pop` calls on a
new Swapper that contains at most `2^64` pushes, the sequence numbers returned
by the successful pops are strictly increasing, so none is returned twice. -/
theorem pop_seqs_strictly_increasing (init : T) (ops : List (Op T)) (r : Run T)
    (hrun : run { swapper := new init, seqs := [] } ops = some r)
    (hk : pushCount ops ≤ 2 ^ 64) :
    r.seqs.Pairwise (fun a b => a < b) ∧ r.seqs.Nodup := by
  obtain ⟨j, -, -, -, -, hpw⟩ := inv_run 0 _ r ops (inv_new init) hrun (by omega)
  exact ⟨hpw, hpw.imp (fun h => Nat.ne_of_lt h)⟩

/-- Witness of C3: a history with three successful pops and a timed-out one. -/
theorem pop_seqs_strictly_increasing_witness :
    run { swapper := new (0 : Nat), seqs := [] }
      [Op.push 1, Op.push 2, Op.pop 0, Op.try_pop 0 100, Op.push 3, Op.try_pop 0 100,
        Op.push 4, Op.push 5, Op.pop 0]
      = some { swapper := ⟨4, 4, 0, false⟩, seqs := [1, 2, 4] } ∧
    List.Pairwise (fun a b => a < b) [1, 2, 4] ∧ List.Nodup [1, 2, 4] :=
  ⟨by decide,
    pop_seqs_strictly_increasing (0 : Nat)
      [Op.push 1, Op.push 2, Op.pop 0, Op.try_pop 0 100, Op.push 3, Op.try_pop 0 100,
        Op.push 4, Op.push 5, Op.pop 0]
      { swapper := ⟨4, 4, 0, false⟩, seqs := [1, 2, 4] } (by decide) (by decide)⟩

/-- C3 as stated fails: two pushes and a pop (sequence number `1`), then
`2^64 - 1` more pushes and a pop, which returns the wrapped-around sequence
number `0`. -/
theorem pop_seqs_counterexample :
    (run { swapper := new (0 : Nat), seqs := [] }
      ([Op.push 1, Op.push 2, Op.pop 0] ++
        (pushOps (List.replicate (2 ^ 64 - 1) 3) ++ [Op.pop 0]))).map Run.seqs
      = some [1, 0] ∧
    ¬ List.Pairwise (fun a b => a < b) [1, 0] := by
  have hlen : (List.replicate (2 ^ 64 - 1) (3 : Nat)).length = 2 ^ 64 - 1 :=
    List.length_replicate _ _
  have hne : List.replicate (2 ^ 64 - 1) (3 : Nat) ≠ [] :=
    List.ne_nil_of_length_pos (by rw [hlen]; decide)
  have h1 : run { swapper := new (0 : Nat), seqs := [] } [Op.push 1, Op.push 2, Op.pop 0]
      = some { swapper := ⟨1, 1, 0, false⟩, seqs := [1] } := by decide
  have h2 := run_pushOps_pop_seqs { swapper := ⟨1, 1, (0 : Nat), false⟩, seqs := [1] }
    (List.replicate (2 ^ 64 - 1) 3) hne 0 (by rw [hlen]; decide)
  rw [hlen] at h2
  refine ⟨?_, by decide⟩
  rw [run_append, h1, Option.some_bind, h2]
  decide

/-- C4 (as amended): in every state reachable from construction by a history
with fewer than `2^64` pushes, both counters are 64-bit values and, counted
from their initial value `2^64 - 1` (that is, after adding one modulo `2^64`),
the pop counter is at most the push counter. -/
theorem counter_invariant (init : T) (ops : List (Op T)) (r : Run T)
    (hrun : run { swapper := new init, seqs := [] } ops = some r)
    (hk : pushCount ops < 2 ^ 64) :
    (r.swapper.pop_counter_ + 1) % 2 ^ 64 ≤ (r.swapper.push_counter_ + 1) % 2 ^ 64 ∧
    (r.swapper.push_counter_ + 1) % 2 ^ 64 = pushCount ops ∧
    r.swapper.pop_counter_ < 2 ^ 64 ∧ r.swapper.push_counter_ < 2 ^ 64 := by
  obtain ⟨j, hjk, hpush, hpop, -, -⟩ :=
    inv_run 0 _ r ops (inv_new init) hrun (by omega)
  omega

/-- Witness of C4: push, push, pop, push leaves counters `1` and `2`. -/
theorem counter_invariant_witness :
    run { swapper := new (0 : Nat), seqs := [] }
      [Op.push 1, Op.push 2, Op.pop 0, Op.push 3]
      = some { swapper := ⟨2, 1, 3, false⟩, seqs := [1] } ∧
    (1 + 1) % 2 ^ 64 ≤ (2 + 1) % 2 ^ 64 :=
  ⟨by decide,
    (counter_invariant (0 : Nat) [Op.push 1, Op.push 2, Op.pop 0, Op.push 3]
      { swapper := ⟨2, 1, 3, false⟩, seqs := [1] } (by decide) (by decide)).1⟩

/-- C4 as stated fails: after the first push on a new Swapper `push_counter_`
has wrapped to `0` while `pop_counter_` is still `2^64 - 1`. -/
theorem counter_invariant_counterexample :
    Reachable ((new (0 : Nat)).push 1).2 ∧
    ((new (0 : Nat)).push 1).2.push_counter_ = 0 ∧
    ((new (0 : Nat)).push 1).2.pop_counter_ = 2 ^ 64 - 1 ∧
    ¬ (((new (0 : Nat)).push 1).2.pop_counter_
        ≤ ((new (0 : Nat)).push 1).2.push_counter_) :=
  ⟨⟨0, [Op.push 1], [], rfl⟩, by decide, by decide, by decide⟩

/-- C5: `push(x)` returns the item that was stored, leaves `x` stored, adds one
to `push_counter_` modulo `2^64`, and leaves `pop_counter_` unchanged. -/
theorem push_exchange (s : Swapper T) (x : T) :
    (s.push x).1 = s.item_ ∧
    (s.push x).2.item_ = x ∧
    (s.push x).2.push_counter_ = (s.push_counter_ + 1) % 2 ^ 64 ∧
    (s.push x).2.pop_counter_ = s.pop_counter_ :=
  ⟨rfl, rfl, rfl, rfl⟩

/-- C6: when the counters differ `pop(spare)` returns the stored item with
`push_counter_`, leaves `spare` stored, sets `pop_counter_` to `push_counter_`
and keeps `push_counter_`; and `pop` returns exactly when the counters differ. -/
theorem pop_exchange (s : Swapper T) (spare : T) :
    (s.push_counter_ ≠ s.pop_counter_ →
      ∃ s1, s.pop spare = some ((s.item_, s.push_counter_), s1) ∧
        s1.item_ = spare ∧ s1.pop_counter_ = s.push_counter_ ∧
        s1.push_counter_ = s.push_counter_) ∧
    ((s.pop spare).isSome ↔ s.push_counter_ ≠ s.pop_counter_) := by
  constructor
  · intro h
    have hd : s.pop_counter_ ≠ s.push_counter_ := fun e => h e.symm
    refine ⟨{ s with item_ := spare, pop_counter_ := s.push_counter_, is_waiting_ := false },
      ?_, rfl, rfl, rfl⟩
    simp only [pop]
    rw [if_pos hd]
  · simp only [pop]
    by_cases hd : s.pop_counter_ ≠ s.push_counter_
    · rw [if_pos hd]
      simpa using fun e => hd e.symm
    · rw [if_neg hd]
      have he : s.pop_counter_ = s.push_counter_ := not_not.mp hd
      simp [he]

/-- Witness of C6: a Swapper holding `5` with counters `3` and `2`. -/
theorem pop_exchange_witness :
    (3 : Nat) ≠ 2 ∧
    ∃ s1, (Swapper.mk 3 2 (5 : Nat) false).pop 9 = some ((5, 3), s1) ∧
      s1.item_ = 9 ∧ s1.pop_counter_ = 3 ∧ s1.push_counter_ = 3 :=
  ⟨by decide, (pop_exchange (Swapper.mk 3 2 (5 : Nat) false) 9).1 (by decide)⟩

/-- C7: with equal counters (as in a newly constructed Swapper) and no push
arriving, `try_pop(spare, timeout)` returns nothing, leaves `spare` with the
caller, and keeps the stored item and both counters; with different counters
it returns the pair and makes the state change of `pop`. -/
theorem try_pop_timeout (s : Swapper T) (spare : T) (timeout : Nat) :
    (s.push_counter_ = s.pop_counter_ →
      (s.try_pop spare timeout).result = none ∧
      (s.try_pop spare timeout).item = some spare ∧
      (s.try_pop spare timeout).swapper.item_ = s.item_ ∧
      (s.try_pop spare timeout).swapper.push_counter_ = s.push_counter_ ∧
      (s.try_pop spare timeout).swapper.pop_counter_ = s.pop_counter_) ∧
    (∀ init : T,
      ((new init).try_pop spare timeout).result = none ∧
      ((new init).try_pop spare timeout).item = some spare ∧
      ((new init).try_pop spare timeout).swapper = new init) ∧
    (s.push_counter_ ≠ s.pop_counter_ →
      ∃ res, (s.try_pop spare timeout).result = some res ∧
        s.pop spare = some (res, (s.try_pop spare timeout).swapper)) := by
  refine ⟨?_, ?_, ?_⟩
  · intro h
    have hd : ¬ (s.pop_counter_ ≠ s.push_counter_) := fun e => e h.symm
    simp only [try_pop]
    rw [if_neg hd]
    exact ⟨rfl, rfl, rfl, rfl, rfl⟩
  · intro init
    have hd : ¬ ((new init).pop_counter_ ≠ (new init).push_counter_) := fun e => e rfl
    simp only [try_pop]
    rw [if_neg hd]
    exact ⟨rfl, rfl, rfl⟩
  · intro h
    have hd : s.pop_counter_ ≠ s.push_counter_ := fun e => h e.symm
    simp only [try_pop, pop]
    rw [if_pos hd, if_pos hd]
    exact ⟨_, rfl, rfl⟩

/-- Witness of C7: a timed-out call on equal counters, and a successful one. -/
theorem try_pop_timeout_witness :
    ((Swapper.mk 3 3 (5 : Nat) true).try_pop 9 100).result = none ∧
    ((Swapper.mk 3 3 (5 : Nat) true).try_pop 9 100).item = some 9 ∧
    ((Swapper.mk 3 3 (5 : Nat) true).try_pop 9 100).swapper.item_ = 5 ∧
    ∃ res, ((Swapper.mk 3 2 (5 : Nat) false).try_pop 9 100).result = some res ∧
      (Swapper.mk 3 2 (5 : Nat) false).pop 9
        = some (res, ((Swapper.mk 3 2 (5 : Nat) false).try_pop 9 100).swapper) :=
  ⟨((try_pop_timeout (Swapper.mk 3 3 (5 : Nat) true) 9 100).1 rfl).1,
    ((try_pop_timeout (Swapper.mk 3 3 (5 : Nat) true) 9 100).1 rfl).2.1,
    ((try_pop_timeout (Swapper.mk 3 3 (5 : Nat) true) 9 100).1 rfl).2.2.1,
    (try_pop_timeout (Swapper.mk 3 2 (5 : Nat) false) 9 100).2.2 (by decide)⟩

end Swapper

/-! ## Queue: lemmas and contract -/

namespace rtspcam

namespace Queue

variable {T : Type}

theorem pushAll_queue (q : Queue T) (xs : List T) :
    (pushAll q xs).queue_ = q.queue_ ++ xs := by
  induction xs generalizing q with
  | nil => simp [pushAll]
  | cons x xs ih => simp [pushAll, ih, push]

theorem popN_append (ys zs : List T) :
    popN { queue_ := ys ++ zs } ys.length = some (ys, { queue_ := zs }) := by
  induction ys with
  | nil => simp [popN]
  | cons y ys ih => simp [popN, pop, ih]

theorem step_keeps_items (r r1 : Run T) (op : Op T) (hstep : step r op = some r1)
    (hinv : r.returned ++ r.queue.queue_ = r.pushed) :
    r1.returned ++ r1.queue.queue_ = r1.pushed := by
  obtain ⟨⟨items⟩, pushed, returned⟩ := r
  simp only at hinv
  cases op with
  | push item =>
    simp only [step, push, Option.some.injEq] at hstep
    subst hstep
    simp [← hinv]
  | pop =>
    cases items with
    | nil => simp [step, pop] at hstep
    | cons x rest =>
      simp only [step, pop, Option.some.injEq] at hstep
      subst hstep
      simp [← hinv]
  | try_pop timeout =>
    cases items with
    | nil =>
      simp only [step, try_pop, Option.some.injEq] at hstep
      subst hstep
      simpa using hinv
    | cons x rest =>
      simp only [step, try_pop, Option.some.injEq] at hstep
      subst hstep
      simp [← hinv]
  | drain =>
    simp only [step, drain, Option.some.injEq] at hstep
    subst hstep
    simpa using hinv

theorem popN_pushAll_empty (xs : List T) :
    popN (pushAll empty xs) xs.length = some (xs, empty) := by
  have h : pushAll (empty : Queue T) xs = { queue_ := xs ++ [] } := by
    have := pushAll_queue (empty : Queue T) xs
    cases hq : pushAll (empty : Queue T) xs
    rw [hq] at this
    simp only [empty, List.nil_append] at this
    simp [this]
  rw [h]
  exact popN_append xs []

/-- C8: after `x1..xn` are pushed in that order onto an empty queue, `n` calls
of `pop` all return, with exactly `x1, .., xn` in that order, and leave the
queue empty. -/
theorem push_then_pop_fifo (xs : List T) :
    popN (pushAll empty xs) xs.length = some (xs, empty) ∧
    (pushAll (empty : Queue T) xs).queue_ = xs := by
  refine ⟨popN_pushAll_empty xs, ?_⟩
  have h := pushAll_queue (empty : Queue T) xs
  simpa [empty] using h

/-- C9: in every history of `push`, `pop`, `try_pop` and `drain` calls on one
queue, the items returned so far (in the order returned) followed by the items
still queued are exactly the pushed items in push order. -/
theorem no_loss_no_duplication (ops : List (Op T)) (r : Run T)
    (hrun : run start ops = some r) :
    r.returned ++ r.queue.queue_ = r.pushed := by
  have key : ∀ (ops : List (Op T)) (r0 r1 : Run T), run r0 ops = some r1 →
      r0.returned ++ r0.queue.queue_ = r0.pushed →
      r1.returned ++ r1.queue.queue_ = r1.pushed := by
    intro ops
    induction ops with
    | nil =>
      intro r0 r1 h hinv
      simp only [run, Option.some.injEq] at h
      subst h
      exact hinv
    | cons op ops ih =>
      intro r0 r1 h hinv
      simp only [run] at h
      cases hs : step r0 op with
      | none => simp [hs] at h
      | some r2 =>
        rw [hs] at h
        exact ih r2 r1 h (step_keeps_items r0 r2 op hs hinv)
  exact key ops start r hrun rfl

/-- Witness of C9: a history that uses all four operations. -/
theorem no_loss_no_duplication_witness :
    run (start : Run Nat)
      [Op.push 1, Op.push 2, Op.pop, Op.push 3, Op.try_pop 5, Op.try_pop 5, Op.try_pop 5,
        Op.push 4, Op.push 5, Op.drain, Op.push 6]
      = some { queue := { queue_ := [6] }, pushed := [1, 2, 3, 4, 5, 6],
               returned := [1, 2, 3, 4, 5] } ∧
    [1, 2, 3, 4, 5] ++ [6] = [1, 2, 3, 4, 5, 6] :=
  ⟨by decide,
    no_loss_no_duplication
      [Op.push 1, Op.push 2, Op.pop, Op.push 3, Op.try_pop 5, Op.try_pop 5, Op.try_pop 5,
        Op.push 4, Op.push 5, Op.drain, Op.push 6]
      { queue := { queue_ := [6] }, pushed := [1, 2, 3, 4, 5, 6],
        returned := [1, 2, 3, 4, 5] } (by decide)⟩

/-- C10: `drain` returns the queued items front first, which is the list that
`size()` successive pops return and, for a queue filled by pushes, the push
order; it leaves the queue empty, so `size()` is `0` and a second `drain`
returns the empty list; items pushed afterwards are popped in order. -/
theorem drain_returns_all (q : Queue T) :
    q.drain.1 = q.queue_ ∧
    popN q q.size = some (q.drain.1, q.drain.2) ∧
    (∀ xs : List T, (pushAll empty xs).drain = (xs, empty)) ∧
    q.drain.2 = empty ∧
    q.drain.2.size = 0 ∧
    q.drain.2.drain = ([], empty) ∧
    (∀ xs : List T, popN (pushAll q.drain.2 xs) xs.length = some (xs, empty)) := by
  refine ⟨rfl, ?_, ?_, rfl, rfl, rfl, fun xs => popN_pushAll_empty xs⟩
  · have h := popN_append q.queue_ ([] : List T)
    simp only [List.append_nil] at h
    exact h
  · intro xs
    have h := pushAll_queue (empty : Queue T) xs
    simp only [empty, List.nil_append] at h
    simp [drain, empty, h]

end Queue

end rtspcam

/-! ## Queue: `try_pop` -/

namespace rtspcam

namespace Queue

variable {T : Type}

/-- C11: on an empty queue that receives no push `try_pop(timeout)` returns no
item and leaves the queue as it was; on a non-empty queue it returns the head
item and removes it, with the result and the queue that `pop` gives. -/
theorem try_pop_spec (q : Queue T) (timeout : Nat) :
    (q.queue_ = [] → q.try_pop timeout = (none, q) ∧ q.pop = none) ∧
    (∀ (x : T) (rest : List T), q.queue_ = x :: rest →
      q.try_pop timeout = (some x, { queue_ := rest }) ∧
      q.pop = some (x, { queue_ := rest })) ∧
    (∀ (x : T) (q1 : Queue T), q.pop = some (x, q1) → q.try_pop timeout = (some x, q1)) := by
  obtain ⟨items⟩ := q
  refine ⟨?_, ?_, ?_⟩
  · intro h
    simp only at h
    subst h
    exact ⟨rfl, rfl⟩
  · intro x rest h
    simp only at h
    subst h
    exact ⟨rfl, rfl⟩
  · intro x q1 h
    cases items with
    | nil => simp [pop] at h
    | cons y rest =>
      simp only [pop, Option.some.injEq, Prod.mk.injEq] at h
      obtain ⟨h1, h2⟩ := h
      subst h1
      subst h2
      rfl

/-- Witness of C11: the empty queue and a queue of three items. -/
theorem try_pop_spec_witness :
    (empty : Queue Nat).try_pop 100 = (none, empty) ∧
    (Queue.mk [4, 5, 6]).try_pop 100 = (some 4, { queue_ := [5, 6] }) ∧
    (Queue.mk [4, 5, 6]).pop = some (4, { queue_ := [5, 6] }) :=
  ⟨((try_pop_spec (empty : Queue Nat) 100).1 rfl).1,
    (try_pop_spec (Queue.mk [4, 5, 6]) 100).2.1 4 [5, 6] rfl⟩

end Queue

end rtspcam

/-! ## ErrorSlot: the contract -/

namespace ErrorSlot

theorem step_keeps_errored (r : Run) (op : Op) (h : r.slot.errored_ = true) :
    (step r op).slot.errored_ = true := by
  cases op with
  | set error => rfl
  | check => simp [step, check, h]

theorem run_sticky (r : Run) (ops : List Op) (h : r.slot.errored_ = true)
    (hc : ∀ res ∈ r.checks, res.isSome = true) :
    (run r ops).slot.errored_ = true ∧ ∀ res ∈ (run r ops).checks, res.isSome = true := by
  induction ops generalizing r with
  | nil => exact ⟨h, hc⟩
  | cons op ops ih =>
    refine ih (step r op) (step_keeps_errored r op h) ?_
    cases op with
    | set error => exact hc
    | check =>
      intro res hres
      have hck : r.slot.check = (some r.slot.error_, r.slot) := by
        simp only [check]
        rw [if_pos h]
      simp only [step, hck, List.mem_append, List.mem_singleton] at hres
      rcases hres with hres | hres
      · exact hc res hres
      · subst hres
        rfl

/-- C12: `check` on a newly constructed ErrorSlot returns empty; after `set(m)`
it returns exactly `m`; and `check` leaves the slot as it was, so a second
`check` returns what the first returned. -/
theorem check_spec (e : ErrorSlot) (m : String) :
    new.check.1 = none ∧
    (e.set m).check.1 = some m ∧
    e.check.2 = e ∧
    e.check.2.check.1 = e.check.1 := by
  refine ⟨rfl, rfl, ?_, ?_⟩
  · simp only [check]
    split <;> rfl
  · simp only [check]
    split <;> simp_all

/-- C13: once `set` has been called, in every later sequence of `set` and
`check` calls each `check` returns a non-empty optional and `errored_` stays
true; no single call turns `errored_` from true to false. -/
theorem set_is_sticky (e : ErrorSlot) (m : String) (ops : List Op) :
    (∀ res ∈ (run { slot := e.set m, checks := [] } ops).checks, res.isSome = true) ∧
    (run { slot := e.set m, checks := [] } ops).slot.errored_ = true ∧
    (∀ (r : Run) (op : Op), r.slot.errored_ = true → (step r op).slot.errored_ = true) :=
  ⟨(run_sticky { slot := e.set m, checks := [] } ops rfl (by simp)).2,
    (run_sticky { slot := e.set m, checks := [] } ops rfl (by simp)).1,
    step_keeps_errored⟩

/-- Witness of C13: a slot left in the set state by an earlier call. -/
theorem set_is_sticky_witness :
    (step { slot := new.set "a", checks := [] } Op.check).slot.errored_ = true :=
  (set_is_sticky new "a" []).2.2 { slot := new.set "a", checks := [] } Op.check rfl

/-- C14: after `set(m1)` followed by `set(m2)`, `check` returns `m2`: the second
message replaces the first. -/
theorem last_set_wins (e : ErrorSlot) (m1 m2 : String) :
    ((e.set m1).set m2).check.1 = some m2 ∧
    ((e.set m1).set m2).error_ = m2 ∧
    (run { slot := e, checks := [] } [Op.set m1, Op.set m2, Op.check]).checks = [some m2] :=
  ⟨rfl, rfl, rfl⟩

end ErrorSlot

/-! ## Decoder: lemmas -/

namespace rtspcam

namespace Decoder

variable {σ : Type}

theorem receive_loop_queue (lib : Libavcodec σ) (fuel : Nat) (d : Decoder σ) :
    (receive_loop lib fuel d).2.queue_ = d.queue_ := by
  induction fuel generalizing d with
  | zero => rfl
  | succ n ih =>
    simp only [receive_loop]
    split
    · rfl
    · split
      · rfl
      · rw [ih]

theorem decode_queue (lib : Libavcodec σ) (fuel : Nat) (d : Decoder σ) :
    (decode lib fuel d).2.queue_ = d.queue_ := by
  simp only [decode]
  split
  · rfl
  · rw [receive_loop_queue]

theorem parse_loop_queue (lib : Libavcodec σ) (dfuel : Nat) (slice : List Nat) (fuel : Nat)
    (cur_ptr : Int) (cur_size : Nat) (d : Decoder σ) :
    (parse_loop lib dfuel slice fuel cur_ptr cur_size d).2.queue_ = d.queue_ := by
  induction fuel generalizing cur_ptr cur_size d with
  | zero =>
    simp only [parse_loop]
    split <;> rfl
  | succ n ih =>
    simp only [parse_loop]
    split
    · rfl
    · split
      · rw [ih]
      · have hq := decode_queue lib dfuel
          { d with
            libav := (lib.av_parser_parse2 d.libav (List.drop cur_ptr.toNat slice)
              (toInt32 cur_size)).2.2
            packet_ := (lib.av_parser_parse2 d.libav (List.drop cur_ptr.toNat slice)
              (toInt32 cur_size)).2.1 }
        split
        · rename_i d2 heq
          rw [ih]
          rw [heq] at hq
          exact hq
        · rename_i e d2 hne heq
          rw [heq] at hq
          exact hq

theorem toInt32_small (n : Nat) (h : n < 2 ^ 31) : toInt32 n = (n : Int) := by
  have h1 : n % 2 ^ 32 = n := by omega
  simp only [toInt32, h1]
  rw [if_pos h]

theorem parse_loop_returns (lib : Libavcodec σ) (dfuel : Nat) (hnf : NoFault lib dfuel)
    (slice : List Nat) (fuel : Nat) (cur_ptr : Int) (cur_size : Nat) (d : Decoder σ)
    (hfuel : cur_size ≤ fuel) (hsmall : cur_size < 2 ^ 31) :
    (parse_loop lib dfuel slice fuel cur_ptr cur_size d).1 = Exit.returned := by
  induction fuel generalizing cur_ptr cur_size d with
  | zero =>
    have h0 : cur_size = 0 := by omega
    simp [parse_loop, h0]
  | succ n ih =>
    simp only [parse_loop]
    split
    · rfl
    · rename_i hpos
      have hlen := hnf.1 d.libav (List.drop cur_ptr.toNat slice) (toInt32 cur_size)
        (by rw [toInt32_small cur_size hsmall]; omega)
      rw [toInt32_small cur_size hsmall] at hlen
      have hnext : (((cur_size : Int)
          - (lib.av_parser_parse2 d.libav (List.drop cur_ptr.toNat slice)
              (toInt32 cur_size)).1) % 2 ^ 64).toNat ≤ n ∧
          (((cur_size : Int)
          - (lib.av_parser_parse2 d.libav (List.drop cur_ptr.toNat slice)
              (toInt32 cur_size)).1) % 2 ^ 64).toNat < 2 ^ 31 := by
        rw [toInt32_small cur_size hsmall]
        omega
      split
      · exact ih _ _ _ hnext.1 hnext.2
      · have hdec := hnf.2
          { d with
            libav := (lib.av_parser_parse2 d.libav (List.drop cur_ptr.toNat slice)
              (toInt32 cur_size)).2.2
            packet_ := (lib.av_parser_parse2 d.libav (List.drop cur_ptr.toNat slice)
              (toInt32 cur_size)).2.1 }
        split
        · exact ih _ _ _ hnext.1 hnext.2
        · rename_i e d2 hne heq
          rw [heq] at hdec
          simp only at hdec
          exact absurd hdec hne

theorem decode_loop_from_prefix (lib : Libavcodec σ) (fuel : Nat) (chunks : List (List Nat))
    (d : Decoder σ) (log : List (List Nat)) :
    ∃ pre, (decode_loop_from lib fuel chunks d log).processed = log ++ pre ∧
      pre <+: chunks.takeWhile (fun c => !c.isEmpty) := by
  induction chunks generalizing d log with
  | nil => exact ⟨[], by simp [decode_loop_from], by simp⟩
  | cons slice rest ih =>
    simp only [decode_loop_from]
    split
    · rename_i hempty
      exact ⟨[], by simp, by simp⟩
    · rename_i hne
      have htw : List.takeWhile (fun c : List Nat => !c.isEmpty) (slice :: rest)
          = slice :: List.takeWhile (fun c : List Nat => !c.isEmpty) rest := by
        simp [List.takeWhile, hne]
      rw [htw]
      split
      · rename_i d1 heq
        obtain ⟨pre, h1, h2⟩ := ih d1 (log ++ [slice])
        refine ⟨slice :: pre, by simp [h1], ?_⟩
        exact (List.prefix_cons_inj slice).mpr h2
      · exact ⟨[slice], rfl, by simp [List.prefix_iff_eq_append]⟩
      · exact ⟨[slice], rfl, by simp [List.prefix_iff_eq_append]⟩

theorem decode_loop_from_exited (lib : Libavcodec σ) (fuel : Nat) (chunks : List (List Nat))
    (d : Decoder σ) (log : List (List Nat))
    (hexit : (decode_loop_from lib fuel chunks d log).exit = LoopExit.exited) :
    (decode_loop_from lib fuel chunks d log).processed
      = log ++ chunks.takeWhile (fun c => !c.isEmpty) ∧
    (decode_loop_from lib fuel chunks d log).decoder.queue_.queue_
      = (chunks.dropWhile (fun c => !c.isEmpty)).drop 1 ∧
    ∃ c ∈ chunks, c = [] := by
  induction chunks generalizing d log with
  | nil => simp [decode_loop_from] at hexit
  | cons slice rest ih =>
    simp only [decode_loop_from] at hexit ⊢
    split at hexit
    · rename_i hempty
      rw [if_pos hempty]
      have hnil : slice = [] := List.isEmpty_iff.mp hempty
      subst hnil
      simp
    · rename_i hne
      rw [if_neg hne]
      have htw : List.takeWhile (fun c : List Nat => !c.isEmpty) (slice :: rest)
          = slice :: List.takeWhile (fun c : List Nat => !c.isEmpty) rest := by
        simp [List.takeWhile, hne]
      have hdw : List.dropWhile (fun c : List Nat => !c.isEmpty) (slice :: rest)
          = List.dropWhile (fun c : List Nat => !c.isEmpty) rest := by
        simp [List.dropWhile, hne]
      rw [htw, hdw]
      split at hexit
      · rename_i d1 heq
        obtain ⟨h1, h2, c, hc, hc0⟩ := ih d1 (log ++ [slice]) hexit
        exact ⟨by simp [h1], h2, c, List.mem_cons_of_mem _ hc, hc0⟩
      · simp at hexit
      · simp at hexit

theorem decode_loop_from_threw (lib : Libavcodec σ) (fuel : Nat) (chunks : List (List Nat))
    (d : Decoder σ) (log : List (List Nat)) (what : String)
    (hexit : (decode_loop_from lib fuel chunks d log).exit = LoopExit.threw what) :
    ∃ pre slice rest, chunks = pre ++ slice :: rest ∧
      (decode_loop_from lib fuel chunks d log).processed = log ++ pre ++ [slice] ∧
      (decode_loop_from lib fuel chunks d log).decoder.queue_.queue_ = rest := by
  induction chunks generalizing d log with
  | nil => simp [decode_loop_from] at hexit
  | cons slice rest ih =>
    simp only [decode_loop_from] at hexit ⊢
    split at hexit
    · simp at hexit
    · rename_i hne
      rw [if_neg hne]
      have hq := parse_loop_queue lib fuel slice fuel 0 slice.length
        { d with queue_ := { queue_ := rest } }
      split at hexit
      · rename_i d1 heq
        obtain ⟨pre, sl, rs, h1, h2, h3⟩ := ih d1 (log ++ [slice]) hexit
        exact ⟨slice :: pre, sl, rs, by simp [h1], by simp [h2], h3⟩
      · rename_i w d1 heq
        rw [heq] at hq
        refine ⟨[], slice, rest, rfl, by simp, ?_⟩
        simp only at hq ⊢
        rw [hq]
      · simp at hexit

theorem decode_loop_from_noFault (lib : Libavcodec σ) (fuel : Nat) (hnf : NoFault lib fuel)
    (chunks : List (List Nat)) (d : Decoder σ) (log : List (List Nat))
    (hsize : ∀ c ∈ chunks.takeWhile (fun c => !c.isEmpty),
      c.length ≤ fuel ∧ c.length < 2 ^ 31) :
    (decode_loop_from lib fuel chunks d log).processed
      = log ++ chunks.takeWhile (fun c => !c.isEmpty) ∧
    (decode_loop_from lib fuel chunks d log).decoder.queue_.queue_
      = (chunks.dropWhile (fun c => !c.isEmpty)).drop 1 ∧
    (decode_loop_from lib fuel chunks d log).exit
      = if chunks.all (fun c => !c.isEmpty) then LoopExit.blocked else LoopExit.exited := by
  induction chunks generalizing d log with
  | nil => simp [decode_loop_from]
  | cons slice rest ih =>
    simp only [decode_loop_from]
    split
    · rename_i hempty
      have hnil : slice = [] := List.isEmpty_iff.mp hempty
      subst hnil
      simp
    · rename_i hne
      have htw : List.takeWhile (fun c : List Nat => !c.isEmpty) (slice :: rest)
          = slice :: List.takeWhile (fun c : List Nat => !c.isEmpty) rest := by
        simp [List.takeWhile, hne]
      have hdw : List.dropWhile (fun c : List Nat => !c.isEmpty) (slice :: rest)
          = List.dropWhile (fun c : List Nat => !c.isEmpty) rest := by
        simp [List.dropWhile, hne]
      have hall : List.all (slice :: rest) (fun c : List Nat => !c.isEmpty)
          = List.all rest (fun c : List Nat => !c.isEmpty) := by
        simp [List.all_cons, hne]
      rw [htw] at hsize
      rw [htw, hdw, hall]
      have hret := parse_loop_returns lib fuel hnf slice fuel 0 slice.length
        { d with queue_ := { queue_ := rest } }
        (hsize slice (List.mem_cons_self _ _)).1 (hsize slice (List.mem_cons_self _ _)).2
      split
      · rename_i d1 heq
        obtain ⟨h1, h2, h3⟩ := ih d1 (log ++ [slice])
          (fun c hc => hsize c (List.mem_cons_of_mem _ hc))
        exact ⟨by simp [h1], h2, h3⟩
      · rename_i w d1 heq
        rw [heq] at hret
        simp at hret
      · rename_i d1 heq
        rw [heq] at hret
        simp at hret

theorem sentinel_split (pending later : List (List Nat)) (h : ∀ c ∈ pending, c ≠ []) :
    (pending ++ [] :: later).takeWhile (fun c => !c.isEmpty) = pending ∧
    (pending ++ [] :: later).dropWhile (fun c => !c.isEmpty) = [] :: later ∧
    (pending ++ [] :: later).all (fun c => !c.isEmpty) = false := by
  induction pending with
  | nil => simp
  | cons c cs ih =>
    have hc : c ≠ [] := h c (List.mem_cons_self _ _)
    have hce : c.isEmpty = false := by
      cases c with
      | nil => exact absurd rfl hc
      | cons x xs => rfl
    obtain ⟨h1, h2, h3⟩ := ih (fun x hx => h x (List.mem_cons_of_mem _ hx))
    refine ⟨?_, ?_, ?_⟩
    · simp [List.takeWhile, hce, h1]
    · simp [List.dropWhile, hce, h2]
    · simp only [List.cons_append, List.all_cons, h3, Bool.and_false]

theorem plainCodec_noFault (n : Nat) : NoFault plainCodec (n + 2) := by
  refine ⟨?_, ?_⟩
  · intro av buf k hk
    simp only [plainCodec]
    omega
  · intro d
    simp [decode, receive_loop, plainCodec]

end Decoder

end rtspcam

/-! ## Camera: lemmas -/

namespace rtspcam

namespace RtspCameraImpl

variable {κ : Type}

theorem convert_index (lib : Libswscale κ) (v : VideoScaler κ) (frame : AVFrame)
    (frame_index : Nat) (img : Image)
    (h : (v.convert lib frame frame_index).1 = Except.ok img) :
    img.frame_index_ = frame_index := by
  simp only [VideoScaler.convert] at h
  split at h
  · split at h
    · simp at h
    · simp only [Except.ok.injEq] at h
      rw [← h]
  · simp at h

theorem read_frame_keeps (lib : Libswscale κ) (c : RtspCameraImpl κ) (frame_index : Nat) :
    (read_frame lib c frame_index).2.swapper_ = c.swapper_ ∧
    (read_frame lib c frame_index).2.error_slot_ = c.error_slot_ ∧
    (read_frame lib c frame_index).2.first_frame_ = c.first_frame_ ∧
    (read_frame lib c frame_index).2.video_frame_ = c.video_frame_ := by
  simp only [read_frame]
  split
  · split
    · split <;> exact ⟨rfl, rfl, rfl, rfl⟩
    · split <;> split <;> exact ⟨rfl, rfl, rfl, rfl⟩
  · split <;> exact ⟨rfl, rfl, rfl, rfl⟩

theorem read_frame_index (lib : Libswscale κ) (c : RtspCameraImpl κ) (frame_index : Nat)
    (img : Image) (h : (read_frame lib c frame_index).1 = ReadResult.image img) :
    img.frame_index_ = frame_index := by
  simp only [read_frame] at h
  split at h
  · split at h
    · simp at h
    · split at h
      · rename_i img1 v heq
        simp only [ReadResult.image.injEq] at h
        subst h
        exact convert_index lib _ _ _ _ (by rw [heq])
      · simp at h
  · split at h
    · rename_i img1 v heq
      simp only [ReadResult.image.injEq] at h
      subst h
      exact convert_index lib _ _ _ _ (by rw [heq])
    · simp at h

theorem read_iteration_timeout (lib : Libswscale κ) (c : RtspCameraImpl κ)
    (h : (c.swapper_.try_pop c.video_frame_ 100).result = none) :
    read_iteration lib c =
      (if c.error_slot_.errored_ then some (ReadResult.fatal c.error_slot_.error_) else none,
        { c with swapper_ := (c.swapper_.try_pop c.video_frame_ 100).swapper }) := by
  simp only [read_iteration, h, ErrorSlot.check]
  cases he : c.error_slot_.errored_ <;> simp

theorem read_iteration_popped (lib : Libswscale κ) (c : RtspCameraImpl κ) (frame : AVFrame)
    (frame_index : Nat)
    (h : (c.swapper_.try_pop c.video_frame_ 100).result = some (frame, frame_index)) :
    read_iteration lib c =
      (some (read_frame lib
          { c with
            swapper_ := (c.swapper_.try_pop c.video_frame_ 100).swapper
            video_frame_ := frame } frame_index).1,
        (read_frame lib
          { c with
            swapper_ := (c.swapper_.try_pop c.video_frame_ 100).swapper
            video_frame_ := frame } frame_index).2) := by
  simp only [read_iteration, h]

theorem read_iteration_keeps (lib : Libswscale κ) (c : RtspCameraImpl κ) :
    (read_iteration lib c).2.swapper_ = (c.swapper_.try_pop c.video_frame_ 100).swapper ∧
    (read_iteration lib c).2.error_slot_ = c.error_slot_ ∧
    (read_iteration lib c).2.first_frame_ = c.first_frame_ := by
  cases h : (c.swapper_.try_pop c.video_frame_ 100).result with
  | none =>
    rw [read_iteration_timeout lib c h]
    exact ⟨rfl, rfl, rfl⟩
  | some p =>
    obtain ⟨frame, frame_index⟩ := p
    rw [read_iteration_popped lib c frame frame_index h]
    obtain ⟨h1, h2, h3, -⟩ := read_frame_keeps lib
      { c with
        swapper_ := (c.swapper_.try_pop c.video_frame_ 100).swapper
        video_frame_ := frame } frame_index
    exact ⟨h1, h2, h3⟩

theorem read_iteration_fatal (lib : Libswscale κ) (c : RtspCameraImpl κ) (what : String)
    (h : (read_iteration lib c).1 = some (ReadResult.fatal what)) :
    (c.swapper_.try_pop c.video_frame_ 100).result = none ∧
    c.error_slot_.errored_ = true ∧ c.error_slot_.error_ = what := by
  cases ht : (c.swapper_.try_pop c.video_frame_ 100).result with
  | none =>
    rw [read_iteration_timeout lib c ht] at h
    simp only at h
    cases he : c.error_slot_.errored_ with
    | false => simp [he] at h
    | true =>
      simp only [he, if_true, Option.some.injEq, ReadResult.fatal.injEq] at h
      exact ⟨rfl, rfl, h⟩
  | some p =>
    obtain ⟨frame, frame_index⟩ := p
    rw [read_iteration_popped lib c frame frame_index ht] at h
    simp only [Option.some.injEq] at h
    simp only [read_frame] at h
    split at h
    · split at h
      · simp at h
      · split at h <;> simp at h
    · split at h <;> simp at h

theorem read_iteration_image (lib : Libswscale κ) (c : RtspCameraImpl κ) (img : Image)
    (h : (read_iteration lib c).1 = some (ReadResult.image img)) :
    ∃ frame, (c.swapper_.try_pop c.video_frame_ 100).result
      = some (frame, img.frame_index_) := by
  cases ht : (c.swapper_.try_pop c.video_frame_ 100).result with
  | none =>
    rw [read_iteration_timeout lib c ht] at h
    simp only at h
    split at h <;> simp at h
  | some p =>
    obtain ⟨frame, frame_index⟩ := p
    rw [read_iteration_popped lib c frame frame_index ht] at h
    simp only [Option.some.injEq] at h
    have := read_frame_index lib _ frame_index img h
    exact ⟨frame, by rw [this]⟩

theorem run_concat (lib : Libswscale κ) (r : Run κ) (a b : List Op) :
    run lib r (a ++ b) = run lib (run lib r a) b := by
  induction a generalizing r with
  | nil => rfl
  | cons op ops ih => simpa [run] using ih (step lib r op)

theorem run_pushEvents (lib : Libswscale κ) (r : Run κ) (frames : List AVFrame) :
    run lib r (pushEvents frames) =
      { r with camera := { r.camera with swapper_ := Swapper.pushAll r.camera.swapper_ frames } } := by
  induction frames generalizing r with
  | nil => rfl
  | cons f fs ih =>
    have h := ih (step lib r (Op.event (Event.push f)))
    simp only [pushEvents] at h
    simp only [pushEvents, List.map_cons, run, h]
    rfl

theorem pushCount_concat (a b : List Op) : pushCount (a ++ b) = pushCount a + pushCount b := by
  induction a with
  | nil => simp [pushCount]
  | cons op ops ih =>
    show pushCount (op :: (ops ++ b)) = pushCount (op :: ops) + pushCount b
    cases op with
    | event e =>
      cases e with
      | push frame =>
        simp only [pushCount, ih]
        omega
      | set_error what => simp only [pushCount, ih]
    | set_image_format format => simp only [pushCount, ih]
    | set_size width height => simp only [pushCount, ih]
    | read_round => simp only [pushCount, ih]

theorem frameIndexes_append (a b : List ReadResult) :
    frameIndexes (a ++ b) = frameIndexes a ++ frameIndexes b := by
  induction a with
  | nil => rfl
  | cons res rs ih =>
    cases res <;> simp [frameIndexes, ih]

theorem frameIndexes_single (res : ReadResult) (idx : Nat)
    (h : ∀ img, res = ReadResult.image img → img.frame_index_ = idx) :
    List.Sublist (frameIndexes [res]) [idx] := by
  cases res with
  | image img =>
    have := h img rfl
    simp [frameIndexes, this]
  | fatal what => simp [frameIndexes]
  | scaler_threw what => simp [frameIndexes]

theorem step_inv (lib : Libswscale κ) (k : Nat) (r : Run κ) (seqs : List Nat) (op : Op)
    (hinv : Swapper.Inv k { swapper := r.camera.swapper_, seqs := seqs })
    (hsub : List.Sublist (frameIndexes r.results) seqs) (hk : k + pushCount [op] ≤ 2 ^ 64) :
    ∃ seqs1, Swapper.Inv (k + pushCount [op])
        { swapper := (step lib r op).camera.swapper_, seqs := seqs1 } ∧
      List.Sublist (frameIndexes (step lib r op).results) seqs1 := by
  cases op with
  | event e =>
    cases e with
    | push frame =>
      have h := Swapper.inv_step k { swapper := r.camera.swapper_, seqs := seqs } _
        (Swapper.Op.push frame) hinv rfl (by simpa [pushCount, Swapper.pushCount] using hk)
      exact ⟨seqs, by simpa [pushCount, Swapper.pushCount] using h, hsub⟩
    | set_error what => exact ⟨seqs, by simpa [pushCount] using hinv, hsub⟩
  | set_image_format format =>
    refine ⟨seqs, ?_, hsub⟩
    simp only [step, set_image_format, pushCount, Nat.add_zero]
    split
    · split <;> exact hinv
    · exact hinv
  | set_size width height =>
    refine ⟨seqs, ?_, hsub⟩
    simp only [step, set_size, pushCount, Nat.add_zero]
    split <;> exact hinv
  | read_round =>
    have hk0 : k + Swapper.pushCount [Swapper.Op.try_pop r.camera.video_frame_ 100] ≤ 2 ^ 64 := by
      simpa [pushCount, Swapper.pushCount] using hk
    simp only [pushCount, Nat.add_zero]
    cases ht : (r.camera.swapper_.try_pop r.camera.video_frame_ 100).result with
    | none =>
      have hs : Swapper.step { swapper := r.camera.swapper_, seqs := seqs }
          (Swapper.Op.try_pop r.camera.video_frame_ 100)
          = some { swapper := (r.camera.swapper_.try_pop r.camera.video_frame_ 100).swapper,
                   seqs := seqs } := by
        simp only [Swapper.step, ht]
      have h := Swapper.inv_step k _ _ _ hinv hs hk0
      simp only [Swapper.pushCount, Nat.add_zero] at h
      refine ⟨seqs, ?_, ?_⟩
      · simp only [step, read_iteration_timeout lib r.camera ht]
        split
        · rename_i res c heq
          simp only [Prod.mk.injEq] at heq
          rw [← heq.2]
          exact h
        · rename_i c heq
          simp only [Prod.mk.injEq] at heq
          rw [← heq.2]
          exact h
      · simp only [step, read_iteration_timeout lib r.camera ht]
        split
        · rename_i res c heq
          simp only [Prod.mk.injEq] at heq
          have hres : frameIndexes [res] = [] := by
            cases he : r.camera.error_slot_.errored_ with
            | false => simp [he] at heq
            | true =>
              simp only [he, if_true, Option.some.injEq] at heq
              rw [← heq.1]
              rfl
          simp only [frameIndexes_append, hres, List.append_nil]
          exact hsub
        · exact hsub
    | some p =>
      obtain ⟨frame, idx⟩ := p
      have hs : Swapper.step { swapper := r.camera.swapper_, seqs := seqs }
          (Swapper.Op.try_pop r.camera.video_frame_ 100)
          = some { swapper := (r.camera.swapper_.try_pop r.camera.video_frame_ 100).swapper,
                   seqs := seqs ++ [idx] } := by
        simp only [Swapper.step, ht]
      have h := Swapper.inv_step k _ _ _ hinv hs hk0
      simp only [Swapper.pushCount, Nat.add_zero] at h
      obtain ⟨k1, -, -, -⟩ := read_frame_keeps lib
        { r.camera with
          swapper_ := (r.camera.swapper_.try_pop r.camera.video_frame_ 100).swapper
          video_frame_ := frame } idx
      refine ⟨seqs ++ [idx], ?_, ?_⟩
      · simp only [step, read_iteration_popped lib r.camera frame idx ht, k1]
        exact h
      · simp only [step, read_iteration_popped lib r.camera frame idx ht, frameIndexes_append]
        exact List.Sublist.append hsub
          (frameIndexes_single _ idx (fun img himg => read_frame_index lib _ idx img himg))

theorem run_inv (lib : Libswscale κ) (k : Nat) (r : Run κ) (seqs : List Nat) (ops : List Op)
    (hinv : Swapper.Inv k { swapper := r.camera.swapper_, seqs := seqs })
    (hsub : List.Sublist (frameIndexes r.results) seqs) (hk : k + pushCount ops ≤ 2 ^ 64) :
    ∃ seqs1, Swapper.Inv (k + pushCount ops)
        { swapper := (run lib r ops).camera.swapper_, seqs := seqs1 } ∧
      List.Sublist (frameIndexes (run lib r ops).results) seqs1 := by
  induction ops generalizing k r seqs with
  | nil => exact ⟨seqs, by simpa [pushCount, run] using hinv, hsub⟩
  | cons op ops ih =>
    have hc : pushCount (op :: ops) = pushCount [op] + pushCount ops :=
      pushCount_concat [op] ops
    rw [hc] at hk ⊢
    obtain ⟨seqs1, h1, h2⟩ := step_inv lib k r seqs op hinv hsub (by omega)
    obtain ⟨seqs2, h3, h4⟩ := ih (k + pushCount [op]) (step lib r op) seqs1 h1 h2 (by omega)
    exact ⟨seqs2, by simpa [run, Nat.add_assoc] using h3, h4⟩

end RtspCameraImpl

end rtspcam

/-! ## Decoder: the contract -/

namespace rtspcam

namespace Decoder

variable {σ : Type}

/-- C15, what the code does on a decode fault: when the decode transform fails,
`decode()` throws (with "Error sending a packet for decoding" if
`avcodec_send_packet` returns non-zero, with "Error during decoding" if
`avcodec_receive_frame` returns a negative code other than `AVERROR(EAGAIN)`
and `AVERROR_EOF`); a throw of `decode()` leaves the splitting loop and
`decode_loop()`, which stops at that chunk with the later chunks still queued;
the exception then leaves the thread function, so the process is terminated;
and whenever the process is still there after the decode thread has run, the
camera's ErrorSlot is as it was: the Decoder never records anything in it. -/
theorem decode_fault_stops_loop (lib : Libavcodec σ) (fuel : Nat) :
    (∀ d : Decoder σ, (lib.avcodec_send_packet d.libav d.packet_).1 ≠ 0 →
      (decode lib fuel d).1 = Exit.threw "Error sending a packet for decoding") ∧
    (∀ d : Decoder σ,
      (lib.avcodec_receive_frame d.libav d.src_frame_).1 < 0 →
      (lib.avcodec_receive_frame d.libav d.src_frame_).1 ≠ lib.AVERROR_EAGAIN →
      (lib.avcodec_receive_frame d.libav d.src_frame_).1 ≠ lib.AVERROR_EOF →
      (receive_loop lib (fuel + 1) d).1 = Exit.threw "Error during decoding") ∧
    (∀ (slice : List Nat) (rounds : Nat) (cur_ptr : Int) (cur_size : Nat) (d : Decoder σ)
      (what : String), cur_size ≠ 0 →
      (lib.av_parser_parse2 d.libav (slice.drop cur_ptr.toNat) (toInt32 cur_size)).2.1.length
        ≠ 0 →
      (decode lib fuel
        { d with
          libav := (lib.av_parser_parse2 d.libav (slice.drop cur_ptr.toNat)
            (toInt32 cur_size)).2.2
          packet_ := (lib.av_parser_parse2 d.libav (slice.drop cur_ptr.toNat)
            (toInt32 cur_size)).2.1 }).1 = Exit.threw what →
      (parse_loop lib fuel slice (rounds + 1) cur_ptr cur_size d).1 = Exit.threw what) ∧
    (∀ (slice : List Nat) (rest : List (List Nat)) (d : Decoder σ) (log : List (List Nat))
      (what : String), slice ≠ [] →
      (parse_loop lib fuel slice fuel 0 slice.length
        { d with queue_ := { queue_ := rest } }).1 = Exit.threw what →
      (decode_loop_from lib fuel (slice :: rest) d log).exit = LoopExit.threw what) ∧
    (∀ (d : Decoder σ) (what : String),
      (decode_loop lib fuel d).exit = LoopExit.threw what →
      ∃ pre slice rest, d.queue_.queue_ = pre ++ slice :: rest ∧
        (decode_loop lib fuel d).processed = pre ++ [slice] ∧
        (decode_loop lib fuel d).decoder.queue_.queue_ = rest) ∧
    (∀ (κ : Type) (s : Session σ κ) (what : String),
      (decode_loop lib fuel { s.decoder with swapper_ := s.camera.swapper_ }).exit
        = LoopExit.threw what →
      Session.decode_thread lib fuel s = Session.ThreadEnd.terminate what ∧
      (Session.decode_thread lib fuel s).session? = none) ∧
    (∀ (κ : Type) (s s1 : Session σ κ),
      (Session.decode_thread lib fuel s).session? = some s1 →
      s1.camera.error_slot_ = s.camera.error_slot_ ∧
      ∀ what, (decode_loop lib fuel { s.decoder with swapper_ := s.camera.swapper_ }).exit
        ≠ LoopExit.threw what) := by
  refine ⟨?_, ?_, ?_, ?_, ?_, ?_, ?_⟩
  · intro d h
    simp only [decode]
    rw [if_pos h]
  · intro d hneg h1 h2
    simp only [receive_loop]
    rw [if_neg (by intro h; rcases h with h | h; exact h1 h; exact h2 h), if_pos hneg]
  · intro slice rounds cur_ptr cur_size d what hsize hpkt hdec
    simp only [parse_loop]
    rw [if_neg hsize, if_neg hpkt]
    split
    · rename_i d2 heq
      rw [heq] at hdec
      simp at hdec
    · rename_i e d2 hne heq
      rw [heq] at hdec
      exact hdec
  · intro slice rest d log what hne hparse
    have hce : ¬ (slice.isEmpty = true) := by
      cases slice with
      | nil => exact absurd rfl hne
      | cons x xs => simp
    simp only [decode_loop_from]
    rw [if_neg hce]
    split
    · rename_i d1 heq
      rw [heq] at hparse
      simp at hparse
    · rename_i w d1 heq
      rw [heq] at hparse
      simp only [Exit.threw.injEq] at hparse
      rw [hparse]
    · rename_i d1 heq
      rw [heq] at hparse
      simp at hparse
  · intro d what h
    obtain ⟨pre, slice, rest, h1, h2, h3⟩ :=
      decode_loop_from_threw lib fuel d.queue_.queue_ d [] what h
    exact ⟨pre, slice, rest, h1, by simpa [decode_loop] using h2, h3⟩
  · intro κ s what h
    simp only [Session.decode_thread, h, Session.ThreadEnd.session?, and_self]
  · intro κ s s1 h
    simp only [Session.decode_thread] at h
    cases hexit : (decode_loop lib fuel { s.decoder with swapper_ := s.camera.swapper_ }).exit with
    | exited =>
      rw [hexit] at h
      simp only [Session.ThreadEnd.session?, Option.some.injEq] at h
      subst h
      exact ⟨rfl, fun what hw => LoopExit.noConfusion hw⟩
    | blocked =>
      rw [hexit] at h
      simp only [Session.ThreadEnd.session?, Option.some.injEq] at h
      subst h
      exact ⟨rfl, fun what hw => LoopExit.noConfusion hw⟩
    | out_of_fuel =>
      rw [hexit] at h
      simp only [Session.ThreadEnd.session?, Option.some.injEq] at h
      subst h
      exact ⟨rfl, fun what hw => LoopExit.noConfusion hw⟩
    | threw what =>
      rw [hexit] at h
      simp only [Session.ThreadEnd.session?] at h
      exact Option.noConfusion h

/-- C15 at the failing input: the library rejects the packet `[255, 1]`, the
first chunk sent; `decode()` throws, `decode_loop()` is left by the exception
at that chunk, and the process is terminated with the chunk `[2]` never
decoded and nothing recorded in an ErrorSlot. -/
theorem decode_fault_stops_loop_witness :
    (faultyCodec.avcodec_send_packet none [255, 1]).1 ≠ 0 ∧
    (decode faultyCodec 5
      { (new none (Swapper.new make_videoframe)) with packet_ := [255, 1] }).1
      = Exit.threw "Error sending a packet for decoding" ∧
    (decode_loop faultyCodec 5
      (((new none (Swapper.new make_videoframe)).send [255, 1]).send [2])).processed
      = [[255, 1]] ∧
    Session.decode_thread faultyCodec 5
      { camera := (RtspCameraImpl.new : RtspCameraImpl (Int × Int × AVPixelFormat))
        decoder := ((new none (Swapper.new make_videoframe)).send [255, 1]).send [2] }
      = Session.ThreadEnd.terminate "Error sending a packet for decoding" :=
  ⟨by decide,
    (decode_fault_stops_loop faultyCodec 5).1
      { (new none (Swapper.new make_videoframe)) with packet_ := [255, 1] } (by decide),
    by decide,
    ((decode_fault_stops_loop faultyCodec 5).2.2.2.2.2.1 _
      { camera := (RtspCameraImpl.new : RtspCameraImpl (Int × Int × AVPixelFormat))
        decoder := ((new none (Swapper.new make_videoframe)).send [255, 1]).send [2] }
      "Error sending a packet for decoding" (by decide)).1⟩

/-- C16 (as amended): the chunks that `decode_loop()` hands to the splitter are,
in queue order, a prefix of the chunks that precede the first empty chunk, so
no chunk at or after the first empty chunk is handed on; when the loop exits by
its `break` they are exactly those chunks and the chunks behind the empty one
stay queued; and it does exit so when there is an empty chunk, no decode fault
occurs and the splitter consumes every chunk before it (each shorter than
`2^31` bytes, with fuel for one round per byte). -/
theorem decode_loop_sentinel_order (lib : Libavcodec σ) (fuel : Nat) (d : Decoder σ) :
    (decode_loop lib fuel d).processed
      <+: d.queue_.queue_.takeWhile (fun c => !c.isEmpty) ∧
    ((decode_loop lib fuel d).exit = LoopExit.exited →
      (decode_loop lib fuel d).processed = d.queue_.queue_.takeWhile (fun c => !c.isEmpty) ∧
      (decode_loop lib fuel d).decoder.queue_.queue_
        = (d.queue_.queue_.dropWhile (fun c => !c.isEmpty)).drop 1) ∧
    (NoFault lib fuel →
      (∀ c ∈ d.queue_.queue_.takeWhile (fun c => !c.isEmpty),
        c.length ≤ fuel ∧ c.length < 2 ^ 31) →
      (∃ c ∈ d.queue_.queue_, c = []) →
      (decode_loop lib fuel d).exit = LoopExit.exited ∧
      (decode_loop lib fuel d).processed
        = d.queue_.queue_.takeWhile (fun c => !c.isEmpty)) := by
  refine ⟨?_, ?_, ?_⟩
  · obtain ⟨pre, h1, h2⟩ := decode_loop_from_prefix lib fuel d.queue_.queue_ d []
    simp only [decode_loop, h1, List.nil_append]
    exact h2
  · intro h
    obtain ⟨h1, h2, -⟩ := decode_loop_from_exited lib fuel d.queue_.queue_ d [] h
    exact ⟨by simpa [decode_loop] using h1, h2⟩
  · intro hnf hsize hempty
    obtain ⟨h1, h2, h3⟩ := decode_loop_from_noFault lib fuel hnf d.queue_.queue_ d [] hsize
    have hall : d.queue_.queue_.all (fun c => !c.isEmpty) = false := by
      obtain ⟨c, hc, hc0⟩ := hempty
      subst hc0
      cases hb : d.queue_.queue_.all (fun c => !c.isEmpty) with
      | false => rfl
      | true =>
        have := List.all_eq_true.mp hb [] hc
        simp at this
    refine ⟨?_, by simpa [decode_loop] using h1⟩
    simp only [decode_loop, h3, hall]
    rfl

/-- Witness of C16: two chunks, the sentinel, and a chunk behind it. -/
theorem decode_loop_sentinel_order_witness :
    (decode_loop plainCodec 5
      { (new none (Swapper.new make_videoframe)) with
        queue_ := { queue_ := [[1, 2], [3], [], [4]] } }).exit = LoopExit.exited ∧
    (decode_loop plainCodec 5
      { (new none (Swapper.new make_videoframe)) with
        queue_ := { queue_ := [[1, 2], [3], [], [4]] } }).processed = [[1, 2], [3]] :=
  (decode_loop_sentinel_order plainCodec 5
    { (new none (Swapper.new make_videoframe)) with
      queue_ := { queue_ := [[1, 2], [3], [], [4]] } }).2.2
    (plainCodec_noFault 3) (by decide) ⟨[], by decide, rfl⟩

/-- C16 as stated fails: when the decode transform rejects the first chunk, the
second chunk, which also precedes the empty chunk, is never processed. -/
theorem decode_loop_order_counterexample :
    (decode_loop faultyCodec 5
      { (new none (Swapper.new make_videoframe)) with
        queue_ := { queue_ := [[255, 1], [2], []] } }).processed = [[255, 1]] ∧
    (decode_loop faultyCodec 5
      { (new none (Swapper.new make_videoframe)) with
        queue_ := { queue_ := [[255, 1], [2], []] } }).exit
      = LoopExit.threw "Error sending a packet for decoding" ∧
    List.takeWhile (fun c : List Nat => !c.isEmpty) [[255, 1], [2], []] = [[255, 1], [2]] := by
  refine ⟨by decide, by decide, by decide⟩

end Decoder

end rtspcam

/-! ## Camera: the contract -/

namespace rtspcam

namespace RtspCameraImpl

variable {κ : Type}

/-- C18: in a round of the loop of `read()` in which `try_pop` times out, `read`
throws the fatal error with the message stored in the ErrorSlot if the slot is
set, and polls again without throwing if it is not; a round throws the fatal
error only on a timeout with the slot set, with the stored message; and when a
call of `read()` ends with the fatal error, the slot is set and holds that
message. -/
theorem read_fault_reporting (lib : Libswscale κ) (c : RtspCameraImpl κ) :
    ((c.swapper_.try_pop c.video_frame_ 100).result = none →
      (∀ what, c.error_slot_.check.1 = some what →
        (read_iteration lib c).1 = some (ReadResult.fatal what) ∧
        what = c.error_slot_.error_) ∧
      (c.error_slot_.check.1 = none → (read_iteration lib c).1 = none)) ∧
    (∀ what, (read_iteration lib c).1 = some (ReadResult.fatal what) →
      (c.swapper_.try_pop c.video_frame_ 100).result = none ∧
      c.error_slot_.check.1 = some what) ∧
    (c.error_slot_.errored_ = false →
      ∀ what, (read_iteration lib c).1 ≠ some (ReadResult.fatal what)) ∧
    (∀ (schedule : List (List Event)) (what : String),
      (read lib schedule c).1 = some (ReadResult.fatal what) →
      (read lib schedule c).2.error_slot_.check.1 = some what) := by
  have hcheck : ∀ (e : ErrorSlot) (what : String),
      e.check.1 = some what ↔ (e.errored_ = true ∧ e.error_ = what) := by
    intro e what
    simp only [ErrorSlot.check]
    cases he : e.errored_ <;> simp
  refine ⟨?_, ?_, ?_, ?_⟩
  · intro ht
    rw [read_iteration_timeout lib c ht]
    refine ⟨?_, ?_⟩
    · intro what hw
      obtain ⟨h1, h2⟩ := (hcheck _ _).mp hw
      simp [h1, h2]
    · intro hn
      cases he : c.error_slot_.errored_ with
      | false => simp
      | true => simp [ErrorSlot.check, he] at hn
  · intro what h
    obtain ⟨h1, h2, h3⟩ := read_iteration_fatal lib c what h
    exact ⟨h1, (hcheck _ _).mpr ⟨h2, h3⟩⟩
  · intro hunset what h
    obtain ⟨-, h2, -⟩ := read_iteration_fatal lib c what h
    rw [hunset] at h2
    exact Bool.false_ne_true h2
  · intro schedule what
    induction schedule generalizing c with
    | nil =>
      intro h
      simp [read] at h
    | cons events rest ih =>
      intro h
      simp only [read] at h ⊢
      split at h
      · rename_i res c1 heq
        simp only [Option.some.injEq] at h
        subst h
        have hit : (read_iteration lib (c.applyAll events)).1
            = some (ReadResult.fatal what) := by rw [heq]
        obtain ⟨-, h2, h3⟩ := read_iteration_fatal lib _ what hit
        have hk := (read_iteration_keeps lib (c.applyAll events)).2.1
        rw [heq] at hk
        simp only at hk
        simp only [heq]
        rw [hk]
        exact (hcheck _ _).mpr ⟨h2, h3⟩
      · rename_i c1 heq
        exact ih c1 h

/-- Witness of C18: a camera with no picture whose ErrorSlot holds "bye". -/
theorem read_fault_reporting_witness :
    (read_iteration plainScaler
      { (new : RtspCameraImpl (Int × Int × AVPixelFormat)) with
        error_slot_ := ErrorSlot.new.set "bye" }).1 = some (ReadResult.fatal "bye") ∧
    "bye" = (ErrorSlot.new.set "bye").error_ :=
  ((read_fault_reporting plainScaler
    { (new : RtspCameraImpl (Int × Int × AVPixelFormat)) with
      error_slot_ := ErrorSlot.new.set "bye" }).1 (by decide)).1 "bye" (by decide)

/-- C19, the code at the failing input: no round of `read()` changes
`first_frame_`, so it is still true after an image has been returned; a later
`set_size(2, 1)` and `set_image_format(BGR)` then change the target, and the
next `read()` sets up the scaling stage again and returns a 2 x 1 image. -/
theorem setters_after_first_read :
    (∀ (lib : Libswscale (Int × Int × AVPixelFormat))
        (c : RtspCameraImpl (Int × Int × AVPixelFormat)),
      (read_iteration lib c).2.first_frame_ = c.first_frame_) ∧
    (run plainScaler { camera := new, results := [] }
      [Op.event (Event.push
          { width := 4, height := 2, format := AVPixelFormat.YUV420P, data := [7],
            linesize := 4 }),
        Op.read_round,
        Op.set_size 2 1,
        Op.set_image_format ImageFormat.BGR,
        Op.event (Event.push
          { width := 4, height := 2, format := AVPixelFormat.YUV420P, data := [8],
            linesize := 4 }),
        Op.read_round]).results
      = [ReadResult.image
          { data_ := [7], size_ := 24, frame_index_ := 0, width_ := 4, height_ := 2,
            stride_ := 12 },
         ReadResult.image
          { data_ := [8], size_ := 6, frame_index_ := 1, width_ := 2, height_ := 1,
            stride_ := 6 }] ∧
    (run plainScaler { camera := new, results := [] }
      [Op.event (Event.push
          { width := 4, height := 2, format := AVPixelFormat.YUV420P, data := [7],
            linesize := 4 }),
        Op.read_round,
        Op.set_size 2 1,
        Op.set_image_format ImageFormat.BGR]).camera.pixel_format_ = AVPixelFormat.BGR24 ∧
    (run plainScaler { camera := new, results := [] }
      [Op.event (Event.push
          { width := 4, height := 2, format := AVPixelFormat.YUV420P, data := [7],
            linesize := 4 }),
        Op.read_round,
        Op.set_size 2 1,
        Op.set_image_format ImageFormat.BGR]).camera.width_ = 2 :=
  ⟨fun lib c => (read_iteration_keeps lib c).2.2, by decide, by decide, by decide⟩

/-- C20 (as amended): in every history of a new camera with at most `2^64`
pictures pushed, the `frame_index_` values of the images that `read()` returns
are strictly increasing; and the `frame_index_` of a returned image is the
sequence number that the `try_pop` of that round returned. -/
theorem read_indexes_increasing (lib : Libswscale κ) (ops : List Op)
    (hk : pushCount ops ≤ 2 ^ 64) :
    (frameIndexes (run lib { camera := new, results := [] } ops).results).Pairwise
      (fun a b => a < b) ∧
    (∀ (c : RtspCameraImpl κ) (img : Image),
      (read_iteration lib c).1 = some (ReadResult.image img) →
      ∃ frame, (c.swapper_.try_pop c.video_frame_ 100).result
        = some (frame, img.frame_index_)) := by
  refine ⟨?_, fun c img h => read_iteration_image lib c img h⟩
  obtain ⟨seqs, hinv, hsub⟩ := run_inv lib 0 { camera := new, results := [] } [] ops
    (Swapper.inv_new make_videoframe) (List.Sublist.refl _) (by omega)
  obtain ⟨j, -, -, -, -, hpw⟩ := hinv
  exact List.Pairwise.sublist hsub hpw

/-- Witness of C20: two pictures, two reads. -/
theorem read_indexes_increasing_witness :
    List.Pairwise (fun a b => a < b)
      (frameIndexes (run plainScaler { camera := new, results := [] }
        [Op.event (Event.push make_videoframe), Op.read_round, Op.read_round,
          Op.event (Event.push make_videoframe), Op.read_round]).results) :=
  (read_indexes_increasing plainScaler
    [Op.event (Event.push make_videoframe), Op.read_round, Op.read_round,
      Op.event (Event.push make_videoframe), Op.read_round] (by decide)).1

/-- C20 as stated fails: a `read()` after two pictures returns `frame_index_`
1; after `2^64 - 1` more pictures the next `read()` returns `frame_index_` 0. -/
theorem read_indexes_counterexample :
    frameIndexes (run plainScaler { camera := new, results := [] }
      ([Op.event (Event.push make_videoframe), Op.event (Event.push make_videoframe),
          Op.read_round] ++
        (pushEvents (List.replicate (2 ^ 64 - 1) make_videoframe)
          ++ [Op.read_round]))).results = [1, 0] ∧
    ¬ List.Pairwise (fun a b => a < b) [1, 0] := by
  have hlen : (List.replicate (2 ^ 64 - 1) make_videoframe).length = 2 ^ 64 - 1 :=
    List.length_replicate _ _
  have hne : List.replicate (2 ^ 64 - 1) make_videoframe ≠ [] :=
    List.ne_nil_of_length_pos (by rw [hlen]; decide)
  refine ⟨?_, by decide⟩
  rw [run_concat, run_concat, run_pushEvents, Swapper.pushAll_eq _ _ hne,
    List.getLast_replicate, hlen]
  decide

end RtspCameraImpl

end rtspcam

/-! ## Camera: target size, lazy set-up, first index, precedence -/

namespace rtspcam

namespace RtspCameraImpl

variable {κ : Type}

theorem initialize_ok (lib : Libswscale κ) (v0 v : VideoScaler κ) (src_width src_height : Int)
    (src_pixfmt : AVPixelFormat) (dst_width dst_height : Int) (dst_pixfmt : AVPixelFormat)
    (h : v0.initialize_ lib src_width src_height src_pixfmt dst_width dst_height dst_pixfmt
      = (none, v)) :
    (∃ ctx, v.sws_context_ = some ctx) ∧
    v.dst_frame_ = some (lib.av_frame_get_buffer
      { make_videoframe with
        format := AVPixelFormat.RGB24, width := dst_width, height := dst_height }).2 := by
  simp only [VideoScaler.initialize_] at h
  split at h
  · simp at h
  · rename_i ctx hctx
    split at h
    · split at h
      · simp at h
      · split at h
        · simp at h
        · split at h
          · simp at h
          · simp only [Prod.mk.injEq, true_and] at h
            subst h
            exact ⟨⟨_, rfl⟩, rfl⟩
    · split at h
      · simp at h
      · simp only [Prod.mk.injEq, true_and] at h
        subst h
        exact ⟨⟨_, rfl⟩, rfl⟩

theorem convert_dims (lib : Libswscale κ) (v : VideoScaler κ) (ctx : κ) (dst frame : AVFrame)
    (frame_index : Nat) (img : Image) (hctx : v.sws_context_ = some ctx)
    (hdst : v.dst_frame_ = some dst)
    (h : (v.convert lib frame frame_index).1 = Except.ok img) :
    img.width_ = (lib.sws_scale ctx frame dst).2.width ∧
    img.height_ = (lib.sws_scale ctx frame dst).2.height := by
  simp only [VideoScaler.convert, hctx, hdst] at h
  split at h
  · simp at h
  · simp only [Except.ok.injEq] at h
    rw [← h]
    exact ⟨rfl, rfl⟩

theorem read_frame_first (lib : Libswscale κ) (c : RtspCameraImpl κ) (frame_index : Nat)
    (dst_width dst_height : Int) (hfirst : c.first_frame_ = true)
    (htarget : (c.width_ = 0 ∨ c.height_ = 0) ∧
        dst_width = c.video_frame_.width ∧ dst_height = c.video_frame_.height ∨
      ¬ (c.width_ = 0 ∨ c.height_ = 0) ∧ dst_width = c.width_ ∧ dst_height = c.height_) :
    (read_frame lib c frame_index).2.width_ = dst_width ∧
    (read_frame lib c frame_index).2.height_ = dst_height ∧
    (∀ what v,
      c.video_scaler_.initialize_ lib c.video_frame_.width c.video_frame_.height
        c.video_frame_.format dst_width dst_height c.pixel_format_ = (some what, v) →
      (read_frame lib c frame_index).1 = ReadResult.scaler_threw what) ∧
    (∀ img, (read_frame lib c frame_index).1 = ReadResult.image img →
      ∃ v, c.video_scaler_.initialize_ lib c.video_frame_.width c.video_frame_.height
          c.video_frame_.format dst_width dst_height c.pixel_format_ = (none, v) ∧
        (v.convert lib c.video_frame_ frame_index).1 = Except.ok img) := by
  simp only [read_frame, hfirst, if_true]
  rcases htarget with ⟨hz, hw, hh⟩ | ⟨hz, hw, hh⟩
  · rw [if_pos hz]
    subst hw
    subst hh
    simp only
    split
    · rename_i what v heq
      refine ⟨rfl, rfl, ?_, ?_⟩
      · intro what1 v1 h1
        rw [h1] at heq
        simp only [Prod.mk.injEq, Option.some.injEq] at heq
        rw [heq.1]
      · intro img himg
        simp at himg
    · rename_i v heq
      refine ⟨?_, ?_, ?_, ?_⟩
      · split <;> rfl
      · split <;> rfl
      · intro what1 v1 h1
        rw [h1] at heq
        simp at heq
      · intro img himg
        refine ⟨v, heq, ?_⟩
        split at himg
        · rename_i img1 v2 hc
          simp only [ReadResult.image.injEq] at himg
          rw [hc, himg]
        · simp at himg
  · rw [if_neg hz]
    subst hw
    subst hh
    split
    · rename_i what v heq
      refine ⟨rfl, rfl, ?_, ?_⟩
      · intro what1 v1 h1
        rw [h1] at heq
        simp only [Prod.mk.injEq, Option.some.injEq] at heq
        rw [heq.1]
      · intro img himg
        simp at himg
    · rename_i v heq
      refine ⟨?_, ?_, ?_, ?_⟩
      · split <;> rfl
      · split <;> rfl
      · intro what1 v1 h1
        rw [h1] at heq
        simp at heq
      · intro img himg
        refine ⟨v, heq, ?_⟩
        split at himg
        · rename_i img1 v2 hc
          simp only [ReadResult.image.injEq] at himg
          rw [hc, himg]
        · simp at himg

theorem plainScaler_keepsSize : Libswscale.KeepsSize plainScaler :=
  ⟨fun _ => ⟨rfl, rfl⟩, fun _ _ _ => ⟨rfl, rfl⟩⟩

theorem image_dims (lib : Libswscale κ) (hlib : lib.KeepsSize) (v0 v : VideoScaler κ)
    (frame : AVFrame) (frame_index : Nat) (dst_width dst_height : Int)
    (dst_pixfmt : AVPixelFormat) (img : Image)
    (hinit : v0.initialize_ lib frame.width frame.height frame.format dst_width dst_height
      dst_pixfmt = (none, v))
    (hconv : (v.convert lib frame frame_index).1 = Except.ok img) :
    img.width_ = dst_width ∧ img.height_ = dst_height := by
  obtain ⟨⟨ctx, hctx⟩, hdst⟩ := initialize_ok lib v0 v _ _ _ _ _ _ hinit
  obtain ⟨h1, h2⟩ := convert_dims lib v ctx _ frame frame_index img hctx hdst hconv
  rw [h1, h2, (hlib.2 _ _ _).1, (hlib.2 _ _ _).2, (hlib.1 _).1, (hlib.1 _).2]
  exact ⟨rfl, rfl⟩

theorem step_first_frame (lib : Libswscale κ) (r : Run κ) (op : Op) :
    (step lib r op).camera.first_frame_ = r.camera.first_frame_ := by
  cases op with
  | event e => cases e <;> rfl
  | set_image_format format =>
    simp only [step, set_image_format]
    split
    · split <;> rfl
    · rfl
  | set_size width height =>
    simp only [step, set_size]
    split <;> rfl
  | read_round =>
    have h := (read_iteration_keeps lib r.camera).2.2
    simp only [step]
    split
    · rename_i res c heq
      rw [heq] at h
      exact h
    · rename_i c heq
      rw [heq] at h
      exact h

theorem run_first_frame (lib : Libswscale κ) (r : Run κ) (ops : List Op) :
    (run lib r ops).camera.first_frame_ = r.camera.first_frame_ := by
  induction ops generalizing r with
  | nil => rfl
  | cons op ops ih =>
    simp only [run]
    rw [ih, step_first_frame]

/-- C21: on the first successful pop, with the target width and height both 0
(`set_size` never called), `read()` sets the target to the width and height of
the decoded picture and sets up the scaling stage with them, and the returned
image has those dimensions; with a target size set to non-zero values the
scaling stage is set up with that size, which stays as it was, and the returned
image has it. -/
theorem unset_size_defaults_to_source (lib : Libswscale κ) (c : RtspCameraImpl κ)
    (frame : AVFrame) (frame_index : Nat) (hfirst : c.first_frame_ = true)
    (hpop : (c.swapper_.try_pop c.video_frame_ 100).result = some (frame, frame_index)) :
    (c.width_ = 0 ∧ c.height_ = 0 →
      (read_iteration lib c).2.width_ = frame.width ∧
      (read_iteration lib c).2.height_ = frame.height ∧
      ∀ img, (read_iteration lib c).1 = some (ReadResult.image img) →
        (∃ v, c.video_scaler_.initialize_ lib frame.width frame.height frame.format
            frame.width frame.height c.pixel_format_ = (none, v) ∧
          (v.convert lib frame frame_index).1 = Except.ok img) ∧
        (lib.KeepsSize → img.width_ = frame.width ∧ img.height_ = frame.height)) ∧
    (c.width_ ≠ 0 ∧ c.height_ ≠ 0 →
      (read_iteration lib c).2.width_ = c.width_ ∧
      (read_iteration lib c).2.height_ = c.height_ ∧
      ∀ img, (read_iteration lib c).1 = some (ReadResult.image img) →
        (∃ v, c.video_scaler_.initialize_ lib frame.width frame.height frame.format
            c.width_ c.height_ c.pixel_format_ = (none, v) ∧
          (v.convert lib frame frame_index).1 = Except.ok img) ∧
        (lib.KeepsSize → img.width_ = c.width_ ∧ img.height_ = c.height_)) := by
  rw [read_iteration_popped lib c frame frame_index hpop]
  constructor
  · intro hz
    obtain ⟨h1, h2, -, h4⟩ := read_frame_first lib
      { c with
        swapper_ := (c.swapper_.try_pop c.video_frame_ 100).swapper
        video_frame_ := frame } frame_index frame.width frame.height hfirst
      (Or.inl ⟨Or.inl hz.1, rfl, rfl⟩)
    refine ⟨h1, h2, ?_⟩
    intro img himg
    simp only [Option.some.injEq] at himg
    obtain ⟨v, hv1, hv2⟩ := h4 img himg
    exact ⟨⟨v, hv1, hv2⟩, fun hlib => image_dims lib hlib _ v frame frame_index _ _ _ img hv1 hv2⟩
  · intro hnz
    obtain ⟨h1, h2, -, h4⟩ := read_frame_first lib
      { c with
        swapper_ := (c.swapper_.try_pop c.video_frame_ 100).swapper
        video_frame_ := frame } frame_index c.width_ c.height_ hfirst
      (Or.inr ⟨fun h => h.elim hnz.1 hnz.2, rfl, rfl⟩)
    refine ⟨h1, h2, ?_⟩
    intro img himg
    simp only [Option.some.injEq] at himg
    obtain ⟨v, hv1, hv2⟩ := h4 img himg
    exact ⟨⟨v, hv1, hv2⟩, fun hlib => image_dims lib hlib _ v frame frame_index _ _ _ img hv1 hv2⟩

/-- Witness of C21: a new camera into which a 4 x 2 picture has been pushed. -/
theorem unset_size_defaults_to_source_witness :
    (read_iteration plainScaler
      ((new : RtspCameraImpl (Int × Int × AVPixelFormat)).apply
        (Event.push { width := 4, height := 2, format := AVPixelFormat.YUV420P,
                      data := [7], linesize := 4 }))).2.width_ = 4 ∧
    (read_iteration plainScaler
      ((new : RtspCameraImpl (Int × Int × AVPixelFormat)).apply
        (Event.push { width := 4, height := 2, format := AVPixelFormat.YUV420P,
                      data := [7], linesize := 4 }))).2.height_ = 2 :=
  ⟨((unset_size_defaults_to_source plainScaler
      ((new : RtspCameraImpl (Int × Int × AVPixelFormat)).apply
        (Event.push { width := 4, height := 2, format := AVPixelFormat.YUV420P,
                      data := [7], linesize := 4 }))
      { width := 4, height := 2, format := AVPixelFormat.YUV420P, data := [7], linesize := 4 }
      0 rfl (by decide)).1 ⟨rfl, rfl⟩).1,
    ((unset_size_defaults_to_source plainScaler
      ((new : RtspCameraImpl (Int × Int × AVPixelFormat)).apply
        (Event.push { width := 4, height := 2, format := AVPixelFormat.YUV420P,
                      data := [7], linesize := 4 }))
      { width := 4, height := 2, format := AVPixelFormat.YUV420P, data := [7], linesize := 4 }
      0 rfl (by decide)).1 ⟨rfl, rfl⟩).2.1⟩

/-- C24, the code at the failing input: `first_frame_` is true in every state a
history of a new camera reaches, so every successful pop runs
`VideoScaler::initialize` again; with a library whose `sws_getContext` fails
for a source width of 6, the second `read()`, of a 6 x 2 picture, throws
"Failed to initialize video scaler". -/
theorem initialize_on_every_pop :
    (∀ (lib : Libswscale (Int × Int × AVPixelFormat)) (ops : List Op),
      (run lib { camera := new, results := [] } ops).camera.first_frame_ = true) ∧
    (run pickyScaler { camera := new, results := [] }
      [Op.event (Event.push
          { width := 4, height := 2, format := AVPixelFormat.YUV420P, data := [7],
            linesize := 4 }),
        Op.read_round,
        Op.event (Event.push
          { width := 6, height := 2, format := AVPixelFormat.YUV420P, data := [8],
            linesize := 6 }),
        Op.read_round]).results
      = [ReadResult.image
          { data_ := [7], size_ := 24, frame_index_ := 0, width_ := 4, height_ := 2,
            stride_ := 12 },
         ReadResult.scaler_threw "Failed to initialize video scaler"] :=
  ⟨fun lib ops => run_first_frame lib _ ops, by decide⟩

theorem read_iteration_pending (c : RtspCameraImpl κ)
    (hpend : c.swapper_.push_counter_ ≠ c.swapper_.pop_counter_) :
    (c.swapper_.try_pop c.video_frame_ 100).result
      = some (c.swapper_.item_, c.swapper_.push_counter_) := by
  have hd : c.swapper_.pop_counter_ ≠ c.swapper_.push_counter_ := fun h => hpend h.symm
  simp only [Swapper.try_pop]
  rw [if_pos hd]

/-- C27 (as amended): both counters of a new Swapper are `2^64 - 1` and `push`
adds one modulo `2^64`, so for `1 ≤ n < 2^64`, after `n` pushes on a new
Swapper `pop` returns the sequence number `n - 1`; and a `read()` on a new
camera into which `n` pictures have been pushed returns without the fatal
error, with `frame_index_` `n - 1` if it returns an image: `0` when exactly one
picture has been pushed. -/
theorem sequence_numbers_zero_based :
    (∀ (T : Type) (init : T),
      (Swapper.new init).push_counter_ = 2 ^ 64 - 1 ∧
      (Swapper.new init).pop_counter_ = 2 ^ 64 - 1) ∧
    (∀ (T : Type) (init : T) (xs : List T) (spare : T) (hne : xs ≠ []),
      xs.length < 2 ^ 64 →
      ∃ s1, (Swapper.pushAll (Swapper.new init) xs).pop spare
        = some ((xs.getLast hne, xs.length - 1), s1)) ∧
    (∀ (κ : Type) (lib : Libswscale κ) (frames : List AVFrame), frames ≠ [] →
      frames.length < 2 ^ 64 →
      ∃ res, (run lib { camera := new, results := [] }
          (pushEvents frames ++ [Op.read_round])).results = [res] ∧
        (∀ what, res ≠ ReadResult.fatal what) ∧
        ∀ img, res = ReadResult.image img → img.frame_index_ = frames.length - 1) := by
  refine ⟨fun T init => ⟨rfl, rfl⟩, ?_, ?_⟩
  · intro T init xs spare hne hlt
    have hlen : 1 ≤ xs.length := by
      cases xs with
      | nil => exact absurd rfl hne
      | cons x xs => simp
    rw [Swapper.pushAll_eq _ xs hne]
    have hd : (Swapper.new init).pop_counter_
        ≠ ((Swapper.new init).push_counter_ + xs.length) % 2 ^ 64 := by
      simp only [Swapper.new]
      omega
    have hs : ((Swapper.new init).push_counter_ + xs.length) % 2 ^ 64 = xs.length - 1 := by
      simp only [Swapper.new]
      omega
    simp only [Swapper.pop]
    rw [if_pos hd, hs]
    exact ⟨_, rfl⟩
  · intro κ lib frames hne hlt
    have hlen : 1 ≤ frames.length := by
      cases frames with
      | nil => exact absurd rfl hne
      | cons x xs => simp
    rw [run_concat, run_pushEvents, Swapper.pushAll_eq _ frames hne]
    have hpend : ((Swapper.new make_videoframe).push_counter_ + frames.length) % 2 ^ 64
        ≠ (Swapper.new make_videoframe).pop_counter_ := by
      simp only [Swapper.new]
      omega
    have hs : ((Swapper.new make_videoframe).push_counter_ + frames.length) % 2 ^ 64
        = frames.length - 1 := by
      simp only [Swapper.new]
      omega
    have hpop := read_iteration_pending
      { (new : RtspCameraImpl κ) with
        swapper_ :=
          { (new : RtspCameraImpl κ).swapper_ with
            item_ := frames.getLast hne
            push_counter_ := ((new : RtspCameraImpl κ).swapper_.push_counter_
              + frames.length) % 2 ^ 64 } } hpend
    simp only [run, step]
    rw [read_iteration_popped lib _ _ _ hpop]
    refine ⟨_, rfl, ?_, ?_⟩
    · intro what h
      simp only [read_frame] at h
      split at h
      · split at h
        · simp at h
        · split at h <;> simp at h
      · split at h <;> simp at h
    · intro img himg
      have := read_frame_index lib _ _ img himg
      rw [this]
      exact hs

/-- Witness of C27: three pushes, then `pop` returns sequence number 2. -/
theorem sequence_numbers_zero_based_witness :
    ∃ s1, (Swapper.pushAll (Swapper.new (0 : Nat)) [5, 6, 7]).pop 9 = some ((7, 2), s1) :=
  sequence_numbers_zero_based.2.1 Nat 0 [5, 6, 7] 9 (by decide) (by decide)

/-- C27 as stated fails in its last part: when two pictures have been pushed
before the first `read()`, the first image returned has `frame_index_` 1. -/
theorem first_frame_index_counterexample :
    (run plainScaler { camera := new, results := [] }
      [Op.event (Event.push make_videoframe), Op.event (Event.push make_videoframe),
        Op.read_round]).results
      = [ReadResult.image
          { data_ := [], size_ := 0, frame_index_ := 1, width_ := 0, height_ := 0,
            stride_ := 0 }] := by
  decide

end RtspCameraImpl

end rtspcam

/-! ## Decoder: empty chunks and the splitting loop -/

namespace rtspcam

namespace Decoder

variable {σ : Type}

theorem sendAll_queue (d : Decoder σ) (slices : List (List Nat)) :
    (sendAll d slices).queue_.queue_ = d.queue_.queue_ ++ slices := by
  induction slices generalizing d with
  | nil => simp [sendAll]
  | cons x xs ih => simp [sendAll, ih, send, Queue.push]

theorem takeWhile_before_sentinel (before after : List (List Nat)) :
    (before ++ [] :: after).takeWhile (fun c => !c.isEmpty) <+: before := by
  induction before with
  | nil => simp
  | cons c cs ih =>
    cases c with
    | nil => simp
    | cons x xs =>
      simp only [List.cons_append, List.takeWhile, List.isEmpty_cons, Bool.not_false]
      exact (List.prefix_cons_inj (x :: xs)).mpr ih

/-- C26: `send` enqueues a zero-length chunk like any other, and the queue then
holds what the destructor's `queue_.push({})` would leave; the chunks sent
after it are enqueued too, but the decode loop processes only chunks queued
before it, and when it reaches the empty chunk (no decode fault before) it
exits, leaving the chunks sent afterwards in the queue. -/
theorem empty_chunk_is_sentinel (lib : Libavcodec σ) (fuel : Nat) (d : Decoder σ)
    (before after : List (List Nat)) :
    (d.send []).queue_ = (d.queue_.push []).2 ∧
    (sendAll ((sendAll d before).send []) after).queue_.queue_
      = d.queue_.queue_ ++ before ++ [] :: after ∧
    (decode_loop lib fuel (sendAll ((sendAll d before).send []) after)).processed
      <+: d.queue_.queue_ ++ before ∧
    (NoFault lib fuel →
      (∀ c ∈ d.queue_.queue_ ++ before, c ≠ [] ∧ c.length ≤ fuel ∧ c.length < 2 ^ 31) →
      (decode_loop lib fuel (sendAll ((sendAll d before).send []) after)).exit
        = LoopExit.exited ∧
      (decode_loop lib fuel (sendAll ((sendAll d before).send []) after)).processed
        = d.queue_.queue_ ++ before ∧
      (decode_loop lib fuel
        (sendAll ((sendAll d before).send []) after)).decoder.queue_.queue_ = after) := by
  have hq : (sendAll ((sendAll d before).send []) after).queue_.queue_
      = (d.queue_.queue_ ++ before) ++ [] :: after := by
    rw [sendAll_queue]
    simp only [send, Queue.push]
    rw [sendAll_queue]
    simp
  refine ⟨rfl, by rw [hq], ?_, ?_⟩
  · obtain ⟨pre, h1, h2⟩ := decode_loop_from_prefix lib fuel
      (sendAll ((sendAll d before).send []) after).queue_.queue_
      (sendAll ((sendAll d before).send []) after) []
    simp only [decode_loop, h1, List.nil_append]
    rw [hq] at h2
    exact h2.trans (takeWhile_before_sentinel _ _)
  · intro hnf hsize
    obtain ⟨s1, s2, s3⟩ := sentinel_split (d.queue_.queue_ ++ before) after
      (fun c hc => (hsize c hc).1)
    obtain ⟨h1, h2, h3⟩ := decode_loop_from_noFault lib fuel hnf
      (sendAll ((sendAll d before).send []) after).queue_.queue_
      (sendAll ((sendAll d before).send []) after) []
      (by
        rw [hq, s1]
        exact fun c hc => (hsize c hc).2)
    rw [hq] at h1 h2 h3
    rw [s1] at h1
    rw [s2] at h2
    rw [s3] at h3
    simp only [decode_loop, hq]
    exact ⟨by simpa using h3, by simpa using h1, by simpa using h2⟩

/-- Witness of C26: two chunks, an empty chunk, one more chunk. -/
theorem empty_chunk_is_sentinel_witness :
    (decode_loop plainCodec 5
      (sendAll ((sendAll (new none (Swapper.new make_videoframe)) [[1, 2], [3]]).send [])
        [[4]])).exit = LoopExit.exited ∧
    (decode_loop plainCodec 5
      (sendAll ((sendAll (new none (Swapper.new make_videoframe)) [[1, 2], [3]]).send [])
        [[4]])).processed = [] ++ [[1, 2], [3]] ∧
    (decode_loop plainCodec 5
      (sendAll ((sendAll (new none (Swapper.new make_videoframe)) [[1, 2], [3]]).send [])
        [[4]])).decoder.queue_.queue_ = [[4]] :=
  (empty_chunk_is_sentinel plainCodec 5 (new none (Swapper.new make_videoframe))
    [[1, 2], [3]] [[4]]).2.2.2 (plainCodec_noFault 3) (by decide)

theorem parseCalls_append (a b : List Call) :
    parseCalls (a ++ b) = parseCalls a ++ parseCalls b := by
  induction a with
  | nil => rfl
  | cons c cs ih =>
    show parseCalls (c :: (cs ++ b)) = parseCalls (c :: cs) ++ parseCalls b
    cases c <;> simp [parseCalls, ih]

theorem sentPackets_append (a b : List Call) :
    sentPackets (a ++ b) = sentPackets a ++ sentPackets b := by
  induction a with
  | nil => rfl
  | cons c cs ih =>
    show sentPackets (c :: (cs ++ b)) = sentPackets (c :: cs) ++ sentPackets b
    cases c <;> simp [sentPackets, ih]

theorem calls_of_receives (rets : List Int) :
    parseCalls (rets.map Call.receive) = [] ∧ sentPackets (rets.map Call.receive) = [] := by
  induction rets with
  | nil => exact ⟨rfl, rfl⟩
  | cons r rs ih => exact ⟨by simpa [parseCalls] using ih.1, by simpa [sentPackets] using ih.2⟩

theorem receive_loop_log (lib : Libavcodec σ) (fuel : Nat) (d : Decoder (σ × List Call)) :
    ∃ rets : List Int,
      (receive_loop (logged lib) fuel d).2.libav.2 = d.libav.2 ++ rets.map Call.receive := by
  induction fuel generalizing d with
  | zero => exact ⟨[], by simp [receive_loop]⟩
  | succ n ih =>
    simp only [receive_loop]
    split
    · exact ⟨[(lib.avcodec_receive_frame d.libav.1 d.src_frame_).1], by simp [logged]⟩
    · split
      · exact ⟨[(lib.avcodec_receive_frame d.libav.1 d.src_frame_).1], by simp [logged]⟩
      · obtain ⟨rets, h⟩ := ih
          { d with
            libav := ((logged lib).avcodec_receive_frame d.libav d.src_frame_).2.2
            first_frame_ := false
            src_frame_ := (d.swapper_.push
              ((logged lib).avcodec_receive_frame d.libav d.src_frame_).2.1).1
            swapper_ := (d.swapper_.push
              ((logged lib).avcodec_receive_frame d.libav d.src_frame_).2.1).2 }
        refine ⟨(lib.avcodec_receive_frame d.libav.1 d.src_frame_).1 :: rets, ?_⟩
        rw [h]
        simp [logged]

theorem decode_log (lib : Libavcodec σ) (fuel : Nat) (d : Decoder (σ × List Call)) :
    ∃ rets : List Int,
      (decode (logged lib) fuel d).2.libav.2
        = d.libav.2 ++ Call.send d.packet_ :: rets.map Call.receive := by
  simp only [decode]
  split
  · exact ⟨[], by simp [logged]⟩
  · obtain ⟨rets, h⟩ := receive_loop_log lib fuel
      { d with libav := ((logged lib).avcodec_send_packet d.libav d.packet_).2 }
    refine ⟨rets, ?_⟩
    rw [h]
    simp [logged]

theorem parse_loop_log (lib : Libavcodec σ) (dfuel : Nat)
    (hsplit : ∀ (av : σ) (buf : List Nat) (n : Int), buf ≠ [] →
      1 ≤ (lib.av_parser_parse2 av buf n).1 ∧
      (lib.av_parser_parse2 av buf n).1 ≤ (buf.length : Int))
    (hdec : ∀ d1 : Decoder (σ × List Call), (decode (logged lib) dfuel d1).1 = Exit.returned)
    (slice : List Nat) (hL : slice.length < 2 ^ 64) (rounds : Nat) (cur_ptr : Int)
    (cur_size : Nat) (d : Decoder (σ × List Call)) (hrounds : cur_size ≤ rounds)
    (hsize : cur_size ≤ slice.length) (hptr : cur_ptr = (slice.length : Int) - cur_size) :
    ∃ ext, (parse_loop (logged lib) dfuel slice rounds cur_ptr cur_size d).2.libav.2
        = d.libav.2 ++ ext ∧
      (parse_loop (logged lib) dfuel slice rounds cur_ptr cur_size d).1 = Exit.returned ∧
      (parseCalls ext).length ≤ cur_size ∧
      ((parseCalls ext).map Prod.fst).sum = (cur_size : Int) ∧
      sentPackets ext
        = ((parseCalls ext).map Prod.snd).filter (fun p => decide (p.length ≠ 0)) := by
  induction rounds generalizing cur_ptr cur_size d with
  | zero =>
    have h0 : cur_size = 0 := by omega
    subst h0
    exact ⟨[], by simp [parse_loop], by simp [parse_loop], by simp [parseCalls],
      by simp [parseCalls], by simp [parseCalls, sentPackets]⟩
  | succ n ih =>
    by_cases hpos : cur_size = 0
    · subst hpos
      exact ⟨[], by simp [parse_loop], by simp [parse_loop], by simp [parseCalls],
        by simp [parseCalls], by simp [parseCalls, sentPackets]⟩
    · have hbuflen : (List.drop cur_ptr.toNat slice).length = cur_size := by
        rw [List.length_drop]
        omega
      have hbuf : List.drop cur_ptr.toNat slice ≠ [] := by
        intro h
        rw [h] at hbuflen
        simp at hbuflen
        omega
      obtain ⟨hl1, hl2⟩ := hsplit d.libav.1 (List.drop cur_ptr.toNat slice)
        (toInt32 cur_size) hbuf
      rw [hbuflen] at hl2
      have hl1q : 1 ≤ ((logged lib).av_parser_parse2 d.libav (List.drop cur_ptr.toNat slice)
          (toInt32 cur_size)).1 := hl1
      have hl2q : ((logged lib).av_parser_parse2 d.libav (List.drop cur_ptr.toNat slice)
          (toInt32 cur_size)).1 ≤ (cur_size : Int) := hl2
      have hnext : (((cur_size : Int)
          - ((logged lib).av_parser_parse2 d.libav (List.drop cur_ptr.toNat slice)
              (toInt32 cur_size)).1) % 2 ^ 64).toNat ≤ n ∧
          (((cur_size : Int)
          - ((logged lib).av_parser_parse2 d.libav (List.drop cur_ptr.toNat slice)
              (toInt32 cur_size)).1) % 2 ^ 64).toNat ≤ slice.length ∧
          cur_ptr + ((logged lib).av_parser_parse2 d.libav (List.drop cur_ptr.toNat slice)
              (toInt32 cur_size)).1
            = (slice.length : Int) - ((((cur_size : Int)
          - ((logged lib).av_parser_parse2 d.libav (List.drop cur_ptr.toNat slice)
              (toInt32 cur_size)).1) % 2 ^ 64).toNat : Nat) ∧
          ((((cur_size : Int)
          - (lib.av_parser_parse2 d.libav.1 (List.drop cur_ptr.toNat slice)
              (toInt32 cur_size)).1) % 2 ^ 64).toNat : Int)
            + (lib.av_parser_parse2 d.libav.1 (List.drop cur_ptr.toNat slice)
              (toInt32 cur_size)).1 = (cur_size : Int) := by
        refine ⟨?_, ?_, ?_, ?_⟩ <;> omega
      obtain ⟨hn1, hn2, hn3, hn4⟩ := hnext
      simp only [parse_loop]
      rw [if_neg hpos]
      split
      · rename_i hpkt
        obtain ⟨ext, e1, e2, e3, e4, e5⟩ := ih
          (cur_ptr + ((logged lib).av_parser_parse2 d.libav (List.drop cur_ptr.toNat slice)
            (toInt32 cur_size)).1)
          ((((cur_size : Int) - ((logged lib).av_parser_parse2 d.libav
            (List.drop cur_ptr.toNat slice) (toInt32 cur_size)).1) % 2 ^ 64).toNat)
          { d with
            libav := ((logged lib).av_parser_parse2 d.libav (List.drop cur_ptr.toNat slice)
              (toInt32 cur_size)).2.2
            packet_ := ((logged lib).av_parser_parse2 d.libav (List.drop cur_ptr.toNat slice)
              (toInt32 cur_size)).2.1 }
          hn1 hn2 hn3
        refine ⟨Call.parse (lib.av_parser_parse2 d.libav.1 (List.drop cur_ptr.toNat slice)
            (toInt32 cur_size)).1 (lib.av_parser_parse2 d.libav.1
            (List.drop cur_ptr.toNat slice) (toInt32 cur_size)).2.1 :: ext, ?_, e2, ?_, ?_, ?_⟩
        · rw [e1]
          simp [logged]
        · simp only [parseCalls, List.length_cons]
          have : (parseCalls ext).length ≤ (((cur_size : Int)
              - (lib.av_parser_parse2 d.libav.1 (List.drop cur_ptr.toNat slice)
                (toInt32 cur_size)).1) % 2 ^ 64).toNat := e3
          omega
        · simp only [parseCalls, List.map_cons, List.sum_cons]
          have : ((parseCalls ext).map Prod.fst).sum = (((((cur_size : Int)
              - (lib.av_parser_parse2 d.libav.1 (List.drop cur_ptr.toNat slice)
                (toInt32 cur_size)).1) % 2 ^ 64).toNat : Nat) : Int) := e4
          omega
        · have hp0 : (lib.av_parser_parse2 d.libav.1 (List.drop cur_ptr.toNat slice)
              (toInt32 cur_size)).2.1.length = 0 := hpkt
          simp only [parseCalls, sentPackets, List.map_cons, e5]
          rw [List.filter_cons_of_neg (by simp [hp0])]
      · rename_i hpkt
        have hd := hdec
          { d with
            libav := ((logged lib).av_parser_parse2 d.libav (List.drop cur_ptr.toNat slice)
              (toInt32 cur_size)).2.2
            packet_ := ((logged lib).av_parser_parse2 d.libav (List.drop cur_ptr.toNat slice)
              (toInt32 cur_size)).2.1 }
        obtain ⟨rets, hlog⟩ := decode_log lib dfuel
          { d with
            libav := ((logged lib).av_parser_parse2 d.libav (List.drop cur_ptr.toNat slice)
              (toInt32 cur_size)).2.2
            packet_ := ((logged lib).av_parser_parse2 d.libav (List.drop cur_ptr.toNat slice)
              (toInt32 cur_size)).2.1 }
        split
        · rename_i d2 heq
          rw [heq] at hlog
          obtain ⟨ext, e1, e2, e3, e4, e5⟩ := ih
            (cur_ptr + ((logged lib).av_parser_parse2 d.libav (List.drop cur_ptr.toNat slice)
              (toInt32 cur_size)).1)
            ((((cur_size : Int) - ((logged lib).av_parser_parse2 d.libav
              (List.drop cur_ptr.toNat slice) (toInt32 cur_size)).1) % 2 ^ 64).toNat)
            d2 hn1 hn2 hn3
          refine ⟨Call.parse (lib.av_parser_parse2 d.libav.1 (List.drop cur_ptr.toNat slice)
              (toInt32 cur_size)).1 (lib.av_parser_parse2 d.libav.1
              (List.drop cur_ptr.toNat slice) (toInt32 cur_size)).2.1
            :: Call.send (lib.av_parser_parse2 d.libav.1 (List.drop cur_ptr.toNat slice)
              (toInt32 cur_size)).2.1 :: (rets.map Call.receive ++ ext), ?_, e2, ?_, ?_, ?_⟩
          · rw [e1]
            simp only at hlog
            rw [hlog]
            simp [logged]
          · simp only [parseCalls, parseCalls_append, (calls_of_receives rets).1,
              List.nil_append, List.length_cons]
            have : (parseCalls ext).length ≤ (((cur_size : Int)
                - (lib.av_parser_parse2 d.libav.1 (List.drop cur_ptr.toNat slice)
                  (toInt32 cur_size)).1) % 2 ^ 64).toNat := e3
            omega
          · simp only [parseCalls, parseCalls_append, (calls_of_receives rets).1,
              List.nil_append, List.map_cons, List.sum_cons]
            have : ((parseCalls ext).map Prod.fst).sum = (((((cur_size : Int)
                - (lib.av_parser_parse2 d.libav.1 (List.drop cur_ptr.toNat slice)
                  (toInt32 cur_size)).1) % 2 ^ 64).toNat : Nat) : Int) := e4
            omega
          · have hp0 : ¬ (lib.av_parser_parse2 d.libav.1 (List.drop cur_ptr.toNat slice)
                (toInt32 cur_size)).2.1.length = 0 := hpkt
            simp only [parseCalls, sentPackets, parseCalls_append, sentPackets_append,
              (calls_of_receives rets).1, (calls_of_receives rets).2, List.nil_append,
              List.map_cons, e5]
            rw [List.filter_cons_of_pos (by simp [hp0])]
        · rename_i e d2 hne heq
          rw [heq] at hd
          exact absurd hd hne

theorem byteCodec_splits (faulty : Bool) (av : Option (List Nat)) (buf : List Nat) (n : Int)
    (hbuf : buf ≠ []) :
    1 ≤ ((if faulty then faultyByteCodec else byteCodec).av_parser_parse2 av buf n).1 ∧
    ((if faulty then faultyByteCodec else byteCodec).av_parser_parse2 av buf n).1
      ≤ (buf.length : Int) := by
  have hlen : 1 ≤ buf.length := by
    cases buf with
    | nil => exact absurd rfl hbuf
    | cons x xs => simp
  cases faulty
  · simp only [byteCodec, Bool.false_eq_true, if_false]
    omega
  · simp only [faultyByteCodec, if_true]
    omega

/-- C25 (as amended): for a chunk of length `L < 2^64`, when each splitter call
consumes `len` bytes with `1 ≤ len ≤` the bytes remaining and every call of
`decode()` returns, the splitting loop of `decode_loop()` ends normally after
at most `L` splitter calls that have consumed `L` bytes in all, and the packets
sent to the decode transform are exactly the non-empty packets the splitter
calls yielded, in order (`rounds` is the fuel of the loop, at least `L`). -/
theorem splitting_loop_terminates (lib : Libavcodec σ) (dfuel : Nat) (slice : List Nat)
    (rounds : Nat) (d : Decoder (σ × List Call)) (hL : slice.length < 2 ^ 64)
    (hrounds : slice.length ≤ rounds)
    (hsplit : ∀ (av : σ) (buf : List Nat) (n : Int), buf ≠ [] →
      1 ≤ (lib.av_parser_parse2 av buf n).1 ∧
      (lib.av_parser_parse2 av buf n).1 ≤ (buf.length : Int))
    (hdec : ∀ d1 : Decoder (σ × List Call),
      (decode (logged lib) dfuel d1).1 = Exit.returned) :
    (parse_loop (logged lib) dfuel slice rounds 0 slice.length d).1 = Exit.returned ∧
    ∃ calls,
      (parse_loop (logged lib) dfuel slice rounds 0 slice.length d).2.libav.2
        = d.libav.2 ++ calls ∧
      (parseCalls calls).length ≤ slice.length ∧
      ((parseCalls calls).map Prod.fst).sum = (slice.length : Int) ∧
      sentPackets calls
        = ((parseCalls calls).map Prod.snd).filter (fun p => decide (p.length ≠ 0)) := by
  obtain ⟨ext, e1, e2, e3, e4, e5⟩ := parse_loop_log lib dfuel hsplit hdec slice hL rounds 0
    slice.length d hrounds (le_refl _) (by omega)
  exact ⟨e2, ext, e1, e3, e4, e5⟩

/-- Witness of C25: a chunk of three bytes, split one byte per call. -/
theorem splitting_loop_terminates_witness :
    (parse_loop (logged byteCodec) 2 [1, 2, 3] 3 0 3
      (new (none, []) (Swapper.new make_videoframe))).1 = Exit.returned :=
  (splitting_loop_terminates byteCodec 2 [1, 2, 3] 3
    (new (none, []) (Swapper.new make_videoframe)) (by decide) (by decide)
    (fun av buf n hbuf => byteCodec_splits false av buf n hbuf)
    (fun d1 => by simp [decode, receive_loop, logged, byteCodec, plainCodec])).1

/-- C25 as stated fails: with a splitter that consumes one byte per call, a
decode fault on the first packet of the chunk `[255, 1]` ends the loop after one
splitter call, with one byte consumed and the second byte never split. -/
theorem splitting_loop_counterexample :
    (∀ (av : Option (List Nat)) (buf : List Nat) (n : Int), buf ≠ [] →
      1 ≤ (faultyByteCodec.av_parser_parse2 av buf n).1 ∧
      (faultyByteCodec.av_parser_parse2 av buf n).1 ≤ (buf.length : Int)) ∧
    (parse_loop (logged faultyByteCodec) 2 [255, 1] 2 0 2
      (new (none, []) (Swapper.new make_videoframe))).1
      = Exit.threw "Error sending a packet for decoding" ∧
    (parse_loop (logged faultyByteCodec) 2 [255, 1] 2 0 2
      (new (none, []) (Swapper.new make_videoframe))).2.libav.2
      = [Call.parse 1 [255], Call.send [255]] :=
  ⟨fun av buf n hbuf => byteCodec_splits true av buf n hbuf, by decide, by decide⟩

end Decoder

end rtspcam

/-! ## Session teardown: lemmas and contract -/

namespace rtspcam

namespace RtspCameraClient

theorem setCount_append (a b : List ClientCall) :
    setCount (a ++ b) = setCount a + setCount b := by
  induction a with
  | nil => simp [setCount]
  | cons c cs ih =>
    show setCount (c :: (cs ++ b)) = setCount (c :: cs) + setCount b
    cases c <;> simp only [setCount, ih]
    omega

theorem closeSinks_setCount (i : Nat) (subs : List MediaSubsession) :
    setCount (closeSinks i subs).2 = 0 := by
  induction subs generalizing i with
  | nil => rfl
  | cons sub subs ih =>
    simp only [closeSinks]
    split
    · split
      · simp [setCount, setCount_append, ih]
      · simp [setCount, ih]
    · exact ih (i + 1)

theorem shutdownStream_done (c : RtspCameraClient) (h : c.already_shutteddown_ = true) :
    shutdownStream c = c := by
  simp only [shutdownStream]
  rw [if_pos h]

theorem shutdownStream_first (c : RtspCameraClient) (h : c.already_shutteddown_ = false) :
    (shutdownStream c).already_shutteddown_ = true ∧
    (shutdownStream c).error_slot_ = c.error_slot_.set c.error_message_ ∧
    (shutdownStream c).error_message_ = c.error_message_ ∧
    (shutdownStream c).quit_flag_ = c.quit_flag_ ∧
    setCount (shutdownStream c).calls = setCount c.calls + 1 := by
  have hn : ¬ (c.already_shutteddown_ = true) := by simp [h]
  simp only [shutdownStream]
  rw [if_neg hn]
  cases hs : c.stream_state_.session_ with
  | none => simp [setCount_append, setCount]
  | some subs =>
    refine ⟨rfl, rfl, rfl, rfl, ?_⟩
    simp only [setCount_append, closeSinks_setCount, setCount]
    split <;> simp [setCount]

/-- The bookkeeping of the teardown: `error_slot_.set` has been called once if
the stream has been shut down, and not at all otherwise. -/
theorem shutdownStream_count (c : RtspCameraClient)
    (h : setCount c.calls = if c.already_shutteddown_ then 1 else 0) :
    setCount (shutdownStream c).calls = 1 ∧ (shutdownStream c).already_shutteddown_ = true := by
  cases ha : c.already_shutteddown_ with
  | true =>
    rw [shutdownStream_done c ha]
    rw [ha] at h
    exact ⟨by simpa using h, ha⟩
  | false =>
    obtain ⟨h1, -, -, -, h5⟩ := shutdownStream_first c ha
    rw [ha] at h
    simp only [Bool.false_eq_true, if_false] at h
    exact ⟨by omega, h1⟩

theorem after_playing_count (c : RtspCameraClient) (i : Nat)
    (h : setCount c.calls = if c.already_shutteddown_ then 1 else 0) :
    setCount (c.subsessionAfterPlaying i).calls
      = if (c.subsessionAfterPlaying i).already_shutteddown_ then 1 else 0 := by
  obtain ⟨slot, msg, flag, already, ⟨session⟩, calls⟩ := c
  have h1 : setCount (calls ++ [ClientCall.close_sink i]) = if already then 1 else 0 := by
    rw [setCount_append]
    simp only at h
    rw [h]
    simp [setCount]
  cases session with
  | none => exact h
  | some subs =>
    simp only [subsessionAfterPlaying]
    split
    · exact h1
    · obtain ⟨h2, h3⟩ := shutdownStream_count
        { error_slot_ := slot, error_message_ := msg, quit_flag_ := flag,
          already_shutteddown_ := already,
          stream_state_ :=
            { session_ := some (List.modify (fun sub => { sub with sink := false }) i subs) },
          calls := calls ++ [ClientCall.close_sink i] } h1
      rw [h2, h3]
      rfl

theorem step_count (c : RtspCameraClient) (op : Op)
    (h : setCount c.calls = if c.already_shutteddown_ then 1 else 0) :
    setCount (c.step op).calls = if (c.step op).already_shutteddown_ then 1 else 0 := by
  have done : ∀ c1 : RtspCameraClient,
      setCount c1.calls = (if c1.already_shutteddown_ then 1 else 0) →
      setCount (shutdownStream c1).calls
        = if (shutdownStream c1).already_shutteddown_ then 1 else 0 := by
    intro c1 h1
    obtain ⟨h2, h3⟩ := shutdownStream_count c1 h1
    rw [h2, h3]
    rfl
  simp only [step]
  split
  · exact h
  · cases op with
    | describe result_code result_string session =>
      simp only [continueAfterDESCRIBE]
      split
      · exact done _ h
      · split
        · exact done _ h
        · split
          · exact done _ h
          · exact h
    | setup state => exact h
    | play result_code =>
      simp only [continueAfterPLAY]
      split
      · exact done _ h
      · exact h
    | after_playing i =>
      exact after_playing_count c i h
    | stream_timer => exact done _ h
    | quit =>
      have := done c h
      simpa [on_quit] using this

theorem run_count (c : RtspCameraClient) (ops : List Op)
    (h : setCount c.calls = if c.already_shutteddown_ then 1 else 0) :
    setCount (c.run ops).calls = if (c.run ops).already_shutteddown_ then 1 else 0 := by
  induction ops generalizing c with
  | nil => exact h
  | cons op ops ih => exact ih (c.step op) (step_count c op h)

/-- C22: the first call of `shutdownStream` sets `already_shutteddown_` and
stores the client's error message in the ErrorSlot; a call made when the flag
is set returns the state as it is, so `shutdownStream` applied twice is
`shutdownStream` applied once; and over every sequence of callbacks of one
client `error_slot_.set` is called at most once. -/
theorem shutdownStream_idempotent (c : RtspCameraClient) :
    (c.already_shutteddown_ = false →
      (shutdownStream c).already_shutteddown_ = true ∧
      (shutdownStream c).error_slot_ = c.error_slot_.set c.error_message_) ∧
    (c.already_shutteddown_ = true → shutdownStream c = c) ∧
    shutdownStream (shutdownStream c) = shutdownStream c ∧
    (∀ (error_slot : ErrorSlot) (ops : List Op),
      setCount ((new error_slot).run ops).calls ≤ 1) := by
  refine ⟨fun h => ⟨(shutdownStream_first c h).1, (shutdownStream_first c h).2.1⟩,
    shutdownStream_done c, ?_, ?_⟩
  · cases ha : c.already_shutteddown_ with
    | true => rw [shutdownStream_done c ha, shutdownStream_done c ha]
    | false => exact shutdownStream_done _ (shutdownStream_first c ha).1
  · intro error_slot ops
    have h := run_count (new error_slot) ops rfl
    rw [h]
    split <;> omega

/-- Witness of C22: a client with one active subsession, shut down twice. -/
theorem shutdownStream_idempotent_witness :
    (shutdownStream
      { (new ErrorSlot.new) with
        stream_state_ := { session_ := some [{ sink := true, rtcpInstance := true }] } }
      ).already_shutteddown_ = true ∧
    (shutdownStream
      { (new ErrorSlot.new) with
        stream_state_ := { session_ := some [{ sink := true, rtcpInstance := true }] } }
      ).error_slot_ = ErrorSlot.new.set "" :=
  (shutdownStream_idempotent
    { (new ErrorSlot.new) with
      stream_state_ := { session_ := some [{ sink := true, rtcpInstance := true }] } }).1 rfl

theorem shutdownStream_message (c : RtspCameraClient) (hm : c.error_message_ = "")
    (hs : c.already_shutteddown_ = true →
      c.error_slot_.errored_ = true ∧ c.error_slot_.error_ = "") :
    (shutdownStream c).error_message_ = "" ∧
    (shutdownStream c).already_shutteddown_ = true ∧
    (shutdownStream c).error_slot_.errored_ = true ∧
    (shutdownStream c).error_slot_.error_ = "" ∧
    (shutdownStream c).quit_flag_ = c.quit_flag_ := by
  cases ha : c.already_shutteddown_ with
  | true =>
    rw [shutdownStream_done c ha]
    exact ⟨hm, ha, (hs ha).1, (hs ha).2, rfl⟩
  | false =>
    obtain ⟨h1, h2, h3, h4, -⟩ := shutdownStream_first c ha
    rw [h2, h3, hm]
    exact ⟨rfl, h1, rfl, rfl, h4⟩

theorem after_playing_message (c : RtspCameraClient) (i : Nat) (hm : c.error_message_ = "")
    (hs : c.already_shutteddown_ = true →
      c.error_slot_.errored_ = true ∧ c.error_slot_.error_ = "")
    (hq : c.quit_flag_ ≠ 0 → c.already_shutteddown_ = true) :
    (c.subsessionAfterPlaying i).error_message_ = "" ∧
    ((c.subsessionAfterPlaying i).already_shutteddown_ = true →
      (c.subsessionAfterPlaying i).error_slot_.errored_ = true ∧
      (c.subsessionAfterPlaying i).error_slot_.error_ = "") ∧
    ((c.subsessionAfterPlaying i).quit_flag_ ≠ 0 →
      (c.subsessionAfterPlaying i).already_shutteddown_ = true) := by
  obtain ⟨slot, msg, flag, already, ⟨session⟩, calls⟩ := c
  cases session with
  | none => exact ⟨hm, hs, hq⟩
  | some subs =>
    simp only [subsessionAfterPlaying]
    split
    · exact ⟨hm, hs, hq⟩
    · obtain ⟨h1, h2, h3, h4, -⟩ := shutdownStream_message
        { error_slot_ := slot, error_message_ := msg, quit_flag_ := flag,
          already_shutteddown_ := already,
          stream_state_ :=
            { session_ := some (List.modify (fun sub => { sub with sink := false }) i subs) },
          calls := calls ++ [ClientCall.close_sink i] } hm hs
      exact ⟨h1, fun _ => ⟨h3, h4⟩, fun _ => h2⟩

theorem step_message (c : RtspCameraClient) (op : Op) (hop : failedDescribe op = false)
    (hm : c.error_message_ = "")
    (hs : c.already_shutteddown_ = true →
      c.error_slot_.errored_ = true ∧ c.error_slot_.error_ = "")
    (hq : c.quit_flag_ ≠ 0 → c.already_shutteddown_ = true) :
    (c.step op).error_message_ = "" ∧
    ((c.step op).already_shutteddown_ = true →
      (c.step op).error_slot_.errored_ = true ∧ (c.step op).error_slot_.error_ = "") ∧
    ((c.step op).quit_flag_ ≠ 0 → (c.step op).already_shutteddown_ = true) := by
  have done : ∀ c1 : RtspCameraClient, c1.error_message_ = "" →
      (c1.already_shutteddown_ = true →
        c1.error_slot_.errored_ = true ∧ c1.error_slot_.error_ = "") →
      (shutdownStream c1).error_message_ = "" ∧
      ((shutdownStream c1).already_shutteddown_ = true →
        (shutdownStream c1).error_slot_.errored_ = true ∧
        (shutdownStream c1).error_slot_.error_ = "") ∧
      ((shutdownStream c1).quit_flag_ ≠ 0 → (shutdownStream c1).already_shutteddown_ = true) := by
    intro c1 h1 h2
    obtain ⟨k1, k2, k3, k4, -⟩ := shutdownStream_message c1 h1 h2
    exact ⟨k1, fun _ => ⟨k3, k4⟩, fun _ => k2⟩
  simp only [step]
  split
  · exact ⟨hm, hs, hq⟩
  · cases op with
    | describe result_code result_string session =>
      have hcode : ¬ (result_code ≠ 0) := by simpa [failedDescribe] using hop
      simp only [continueAfterDESCRIBE]
      rw [if_neg hcode]
      split
      · exact done _ hm hs
      · split
        · exact done _ hm hs
        · exact ⟨hm, hs, hq⟩
    | setup state => exact ⟨hm, hs, hq⟩
    | play result_code =>
      simp only [continueAfterPLAY]
      split
      · exact done _ hm hs
      · exact ⟨hm, hs, hq⟩
    | after_playing i => exact after_playing_message c i hm hs hq
    | stream_timer => exact done _ hm hs
    | quit =>
      obtain ⟨k1, k2, k3, k4, -⟩ := shutdownStream_message c hm hs
      exact ⟨k1, fun _ => ⟨k3, k4⟩, fun _ => k2⟩

theorem run_message (c : RtspCameraClient) (ops : List Op)
    (hops : ∀ op ∈ ops, failedDescribe op = false) (hm : c.error_message_ = "")
    (hs : c.already_shutteddown_ = true →
      c.error_slot_.errored_ = true ∧ c.error_slot_.error_ = "")
    (hq : c.quit_flag_ ≠ 0 → c.already_shutteddown_ = true) :
    (c.run ops).error_message_ = "" ∧
    ((c.run ops).already_shutteddown_ = true →
      (c.run ops).error_slot_.errored_ = true ∧ (c.run ops).error_slot_.error_ = "") ∧
    ((c.run ops).quit_flag_ ≠ 0 → (c.run ops).already_shutteddown_ = true) := by
  induction ops generalizing c with
  | nil => exact ⟨hm, hs, hq⟩
  | cons op ops ih =>
    obtain ⟨h1, h2, h3⟩ := step_message c op (hops op (List.mem_cons_self _ _)) hm hs hq
    exact ih (c.step op) (fun o ho => hops o (List.mem_cons_of_mem _ ho)) h1 h2 h3

theorem run_then (c : RtspCameraClient) (a b : List Op) :
    c.run (a ++ b) = (c.run a).run b := by
  induction a generalizing c with
  | nil => rfl
  | cons op ops ih => simpa [run] using ih (c.step op)

theorem check_of_errored (e : ErrorSlot) (what : String) (h1 : e.errored_ = true)
    (h2 : e.error_ = what) : e.check.1 = some what := by
  simp only [ErrorSlot.check]
  rw [if_pos h1, h2]

/-- C29 (as amended): a DESCRIBE response with `result_code != 0`, on a client
not yet shut down, stores "Failed to get a SDP description: " followed by the
result string in the ErrorSlot; over every sequence of callbacks without such a
response the client's error message stays empty and a shutdown stores the empty
string, as it does after a failed PLAY, the stream timer, quit, or a BYE that
leaves no subsession with a sink; a `read()` that then times out throws with
the empty message.  A BYE that leaves another subsession with a sink changes
neither the ErrorSlot nor `already_shutteddown_`. -/
theorem fault_message_content :
    (∀ (c : RtspCameraClient) (result_code : Int) (result_string : String)
        (session : Option (List MediaSubsession)),
      result_code ≠ 0 → c.already_shutteddown_ = false →
      (c.continueAfterDESCRIBE result_code result_string session).error_slot_.check.1
        = some ("Failed to get a SDP description: " ++ result_string)) ∧
    (∀ (error_slot : ErrorSlot) (ops : List Op), (∀ op ∈ ops, failedDescribe op = false) →
      ((new error_slot).run ops).error_message_ = "" ∧
      (((new error_slot).run ops).already_shutteddown_ = true →
        ((new error_slot).run ops).error_slot_.check.1 = some "")) ∧
    (∀ (error_slot : ErrorSlot) (ops : List Op) (op : Op),
      (∀ o ∈ ops, failedDescribe o = false) →
      ((∃ result_code, result_code ≠ 0 ∧ op = Op.play result_code) ∨ op = Op.stream_timer
        ∨ op = Op.quit) →
      ((new error_slot).run (ops ++ [op])).error_slot_.check.1 = some "") ∧
    (∀ (error_slot : ErrorSlot) (ops : List Op) (i : Nat) (subs : List MediaSubsession),
      (∀ o ∈ ops, failedDescribe o = false) →
      ((new error_slot).run ops).stream_state_.session_ = some subs →
      (subs.modify (fun sub => { sub with sink := false }) i).any (fun sub => sub.sink)
        = false →
      ((new error_slot).run (ops ++ [Op.after_playing i])).error_slot_.check.1 = some "") ∧
    (∀ (error_slot : ErrorSlot) (ops : List Op) (i : Nat) (subs : List MediaSubsession),
      ((new error_slot).run ops).stream_state_.session_ = some subs →
      (subs.modify (fun sub => { sub with sink := false }) i).any (fun sub => sub.sink)
        = true →
      ((new error_slot).run (ops ++ [Op.after_playing i])).error_slot_
        = ((new error_slot).run ops).error_slot_ ∧
      ((new error_slot).run (ops ++ [Op.after_playing i])).already_shutteddown_
        = ((new error_slot).run ops).already_shutteddown_) ∧
    (∀ (κ : Type) (lib : Libswscale κ) (camera : RtspCameraImpl κ) (error_slot : ErrorSlot)
        (ops : List Op), (∀ op ∈ ops, failedDescribe op = false) →
      ((new error_slot).run ops).already_shutteddown_ = true →
      (camera.swapper_.try_pop camera.video_frame_ 100).result = none →
      (RtspCameraImpl.read_iteration lib
        { camera with error_slot_ := ((new error_slot).run ops).error_slot_ }).1
        = some (ReadResult.fatal "")) := by
  have inv : ∀ (error_slot : ErrorSlot) (ops : List Op),
      (∀ op ∈ ops, failedDescribe op = false) →
      ((new error_slot).run ops).error_message_ = "" ∧
      (((new error_slot).run ops).already_shutteddown_ = true →
        ((new error_slot).run ops).error_slot_.errored_ = true ∧
        ((new error_slot).run ops).error_slot_.error_ = "") ∧
      (((new error_slot).run ops).quit_flag_ ≠ 0 →
        ((new error_slot).run ops).already_shutteddown_ = true) := by
    intro error_slot ops hops
    exact run_message (new error_slot) ops hops rfl (fun h => by simp [new] at h)
      (fun h => absurd rfl h)
  refine ⟨?_, ?_, ?_, ?_, ?_, ?_⟩
  · intro c result_code result_string session hcode hnot
    simp only [continueAfterDESCRIBE]
    rw [if_pos hcode]
    obtain ⟨-, h2, -⟩ := shutdownStream_first
      { c with error_message_ := "Failed to get a SDP description: " ++ result_string } hnot
    rw [h2]
    rfl
  · intro error_slot ops hops
    obtain ⟨h1, h2, -⟩ := inv error_slot ops hops
    exact ⟨h1, fun ha => check_of_errored _ _ (h2 ha).1 (h2 ha).2⟩
  · intro error_slot ops op hops hop
    obtain ⟨h1, h2, h3⟩ := inv error_slot ops hops
    rw [run_then]
    simp only [run, step]
    split
    · rename_i hflag
      exact check_of_errored _ _ (h2 (h3 hflag)).1 (h2 (h3 hflag)).2
    · obtain ⟨-, -, k3, k4, -⟩ := shutdownStream_message _ h1 h2
      rcases hop with ⟨result_code, hcode, hop⟩ | hop | hop
      · subst hop
        simp only [continueAfterPLAY]
        rw [if_pos hcode]
        exact check_of_errored _ _ k3 k4
      · subst hop
        exact check_of_errored _ _ k3 k4
      · subst hop
        exact check_of_errored _ _ k3 k4
  · intro error_slot ops i subs hops hsession hlast
    obtain ⟨h1, h2, h3⟩ := inv error_slot ops hops
    rw [run_then]
    simp only [run, step]
    split
    · rename_i hflag
      exact check_of_errored _ _ (h2 (h3 hflag)).1 (h2 (h3 hflag)).2
    · simp only [subsessionAfterPlaying, hsession, hlast]
      obtain ⟨-, -, k3, k4, -⟩ := shutdownStream_message
        { ((new error_slot).run ops) with
          stream_state_ :=
            { session_ := some (List.modify (fun sub => { sub with sink := false }) i subs) }
          calls := ((new error_slot).run ops).calls ++ [ClientCall.close_sink i] } h1 h2
      exact check_of_errored _ _ k3 k4
  · intro error_slot ops i subs hsession hother
    rw [run_then]
    simp only [run, step]
    split
    · exact ⟨rfl, rfl⟩
    · simp only [subsessionAfterPlaying, hsession, hother]
      exact ⟨rfl, rfl⟩
  · intro κ lib camera error_slot ops hops hdown htimeout
    obtain ⟨-, h2, -⟩ := inv error_slot ops hops
    have hto := RtspCameraImpl.read_iteration_timeout lib
      { camera with error_slot_ := ((new error_slot).run ops).error_slot_ } htimeout
    rw [hto]
    simp only
    rw [if_pos (h2 hdown).1, (h2 hdown).2]

/-- Witness of C29: a new client whose DESCRIBE fails with "404"; and a session
of one subsession whose sink a BYE closes, after which the ErrorSlot holds the
empty message. -/
theorem fault_message_content_witness :
    ((new ErrorSlot.new).continueAfterDESCRIBE 1 "404" none).error_slot_.check.1
      = some ("Failed to get a SDP description: " ++ "404") ∧
    ((new ErrorSlot.new).run
      ([Op.describe 0 "" (some [MediaSubsession.mk false false]),
        Op.setup (StreamState.mk (some [MediaSubsession.mk true true])), Op.play 0]
        ++ [Op.after_playing 0])).error_slot_.check.1 = some "" :=
  ⟨fault_message_content.1 (new ErrorSlot.new) 1 "404" none (by decide) rfl,
    fault_message_content.2.2.2.1 ErrorSlot.new
      [Op.describe 0 "" (some [MediaSubsession.mk false false]),
        Op.setup (StreamState.mk (some [MediaSubsession.mk true true])), Op.play 0]
      0 [MediaSubsession.mk true true] (by decide) (by decide) (by decide)⟩

/-- C29 as stated fails for a BYE: in a session of two subsessions with sinks, a
BYE on the first closes that sink only; the client is not shut down, nothing is
stored in the ErrorSlot, and a `read()` that finds no new picture raises
nothing. -/
theorem bye_keeps_stream_counterexample :
    ((new ErrorSlot.new).run
      [Op.describe 0 "" (some [MediaSubsession.mk false false, MediaSubsession.mk false false]),
        Op.setup (StreamState.mk
          (some [MediaSubsession.mk true true, MediaSubsession.mk true true])),
        Op.play 0, Op.after_playing 0]).already_shutteddown_ = false ∧
    ((new ErrorSlot.new).run
      [Op.describe 0 "" (some [MediaSubsession.mk false false, MediaSubsession.mk false false]),
        Op.setup (StreamState.mk
          (some [MediaSubsession.mk true true, MediaSubsession.mk true true])),
        Op.play 0, Op.after_playing 0]).stream_state_.session_
      = some [MediaSubsession.mk false true, MediaSubsession.mk true true] ∧
    ((new ErrorSlot.new).run
      [Op.describe 0 "" (some [MediaSubsession.mk false false, MediaSubsession.mk false false]),
        Op.setup (StreamState.mk
          (some [MediaSubsession.mk true true, MediaSubsession.mk true true])),
        Op.play 0, Op.after_playing 0]).error_slot_.check.1 = none ∧
    (RtspCameraImpl.read RtspCameraImpl.plainScaler [[], [], []]
      { (RtspCameraImpl.new : RtspCameraImpl (Int × Int × AVPixelFormat)) with
        error_slot_ := ((new ErrorSlot.new).run
          [Op.describe 0 ""
              (some [MediaSubsession.mk false false, MediaSubsession.mk false false]),
            Op.setup (StreamState.mk
              (some [MediaSubsession.mk true true, MediaSubsession.mk true true])),
            Op.play 0, Op.after_playing 0]).error_slot_ }).1 = none := by
  refine ⟨by decide, by decide, by decide, by decide⟩

end RtspCameraClient

end rtspcam

/-! ## Video sink: lemmas and contract -/

namespace rtspcam

namespace VideoSink

variable {σ : Type}

theorem drop_marker (n : Nat) (t : List Nat) :
    List.drop (4 + n) (0 :: 0 :: 0 :: 1 :: t) = List.drop n t := by
  rw [Nat.add_comm]
  rfl

theorem marker_buffer (n : Nat) :
    ([0, 0, 0, 1] ++ List.replicate n 0).length = n + 4 ∧
    List.take 4 ([0, 0, 0, 1] ++ List.replicate n 0) = [0, 0, 0, 1] ∧
    ([0, 0, 0, 1] ++ List.replicate n 0).getD 4 0 = 0 := by
  refine ⟨?_, ?_, ?_⟩
  · simp only [List.length_append, List.length_replicate, List.length_cons, List.length_nil]
    omega
  · cases n <;> rfl
  · cases n <;> rfl

theorem new_bufferOk (av : σ) (swapper : Swapper AVFrame) : BufferOk (new av swapper) := by
  obtain ⟨h1, h2, h3⟩ := marker_buffer receive_buffer_size
  refine ⟨h1, h2, ?_⟩
  intro _
  have h : (new av swapper).receive_buffer_.getD 4 0 = 0 := h3
  rw [h]
  decide

theorem afterGettingFrame_eq (b : List Nat) (w : Bool) (dec : Decoder σ) (frameSize : Nat) :
    afterGettingFrame (VideoSink.mk b w dec) frameSize
      = if w = true ∧ b.getD 4 0 ≠ 0x67 then VideoSink.mk b true dec
        else VideoSink.mk b false (dec.send (b.take ((frameSize + 4) % 2 ^ 32))) := by
  unfold afterGettingFrame
  dsimp only
  cases w with
  | false =>
    have hin : (if false = true ∧ b.getD 4 0 = 0x67 then VideoSink.mk b false dec
        else VideoSink.mk b false dec) = VideoSink.mk b false dec :=
      if_neg (fun h => Bool.noConfusion h.1)
    rw [hin, if_pos rfl, if_neg (fun h => Bool.noConfusion h.1)]
  | true =>
    by_cases hb : b.getD 4 0 = 0x67
    · have hin : (if true = true ∧ b.getD 4 0 = 0x67 then VideoSink.mk b false dec
          else VideoSink.mk b true dec) = VideoSink.mk b false dec := if_pos ⟨rfl, hb⟩
      rw [hin, if_pos rfl, if_neg (fun h => h.2 hb)]
    · have hin : (if true = true ∧ b.getD 4 0 = 0x67 then VideoSink.mk b false dec
          else VideoSink.mk b true dec) = VideoSink.mk b true dec := if_neg (fun h => hb h.2)
      rw [hin, if_neg (fun h => Bool.noConfusion h), if_pos ⟨rfl, hb⟩]

theorem deliver_spec (s : VideoSink σ) (frame : List Nat) (hok : BufferOk s) :
    BufferOk (s.deliver frame) ∧
    (s.deliver frame).waiting_for_sps_unit_ = (s.waiting_for_sps_unit_ && notSps frame) ∧
    (s.deliver frame).decoder_.queue_.queue_
      = s.decoder_.queue_.queue_
        ++ (if (s.waiting_for_sps_unit_ && notSps frame) = true then [] else [chunkOf frame]) := by
  obtain ⟨b, w, dec⟩ := s
  obtain ⟨hlen, hmark, hwait⟩ := hok
  simp only at hlen hmark hwait
  obtain ⟨t, ht⟩ : ∃ t, b = 0 :: 0 :: 0 :: 1 :: t :=
    ⟨b.drop 4, by
      have := (List.take_append_drop 4 b).symm
      rw [hmark] at this
      exact this⟩
  subst ht
  have hsz : receive_buffer_size = 2000000 := rfl
  have hdl : (frame.take receive_buffer_size).length ≤ receive_buffer_size :=
    List.length_take_le _ _
  have hhead : (frame.take receive_buffer_size).head? = frame.head? := by
    rw [List.head?_take]
    rw [if_neg (by rw [hsz]; decide)]
  have htl : t.length = receive_buffer_size := by
    simp only [List.length_cons] at hlen
    omega
  have hmod : ((frame.take receive_buffer_size).length + 4) % 2 ^ 32
      = (frame.take receive_buffer_size).length + 4 := by
    omega
  have hchunk : List.take ((frame.take receive_buffer_size).length + 4)
      (0 :: 0 :: 0 :: 1 :: (frame.take receive_buffer_size
        ++ List.drop (frame.take receive_buffer_size).length t)) = chunkOf frame := by
    show 0 :: 0 :: 0 :: 1 :: List.take (frame.take receive_buffer_size).length
      (frame.take receive_buffer_size ++ List.drop (frame.take receive_buffer_size).length t)
      = chunkOf frame
    rw [List.take_left]
    rfl
  have hnewlen : (0 :: 0 :: 0 :: 1 :: (frame.take receive_buffer_size
      ++ List.drop (frame.take receive_buffer_size).length t)).length
      = receive_buffer_size + 4 := by
    simp only [List.length_cons, List.length_append, List.length_drop]
    omega
  have hbyte : (0 :: 0 :: 0 :: 1 :: (frame.take receive_buffer_size
      ++ List.drop (frame.take receive_buffer_size).length t)).getD 4 0 = 0x67
      ↔ (notSps frame = false ∨
          (frame.take receive_buffer_size = [] ∧ (0 :: 0 :: 0 :: 1 :: t).getD 4 0 = 0x67)) := by
    cases hd : frame.take receive_buffer_size with
    | nil =>
      rw [hd] at hhead
      have hn : notSps frame = true := by
        simp only [notSps, ← hhead]
        decide
      simp only [hn, List.nil_append, List.length_nil, List.drop_zero]
      simp
    | cons x ds =>
      rw [hd] at hhead
      have hx : (0 :: 0 :: 0 :: 1 :: (x :: ds ++ List.drop (x :: ds).length t)).getD 4 0 = x :=
        rfl
      rw [hx]
      simp only [notSps, ← hhead, List.head?_cons]
      simp
  have hdel : deliver (VideoSink.mk (0 :: 0 :: 0 :: 1 :: t) w dec) frame
      = afterGettingFrame
          (VideoSink.mk (0 :: 0 :: 0 :: 1 :: (frame.take receive_buffer_size
            ++ List.drop (frame.take receive_buffer_size).length t)) w dec)
          (frame.take receive_buffer_size).length := by
    simp only [deliver, getNextFrame]
    rw [drop_marker]
    rfl
  rw [hdel, afterGettingFrame_eq, hmod, hchunk]
  cases w with
  | false =>
    rw [if_neg (by simp)]
    exact ⟨⟨hnewlen, rfl, fun h => Bool.noConfusion h⟩, rfl, by simp [Decoder.send, Queue.push]⟩
  | true =>
    have hold : (0 :: 0 :: 0 :: 1 :: t).getD 4 0 ≠ 0x67 := hwait rfl
    cases hn : notSps frame with
    | true =>
      have hne : (0 :: 0 :: 0 :: 1 :: (frame.take receive_buffer_size
          ++ List.drop (frame.take receive_buffer_size).length t)).getD 4 0 ≠ 0x67 := by
        intro h
        rcases hbyte.mp h with h1 | ⟨-, h2⟩
        · rw [hn] at h1
          exact Bool.noConfusion h1
        · exact hold h2
      rw [if_pos ⟨rfl, hne⟩]
      exact ⟨⟨hnewlen, rfl, fun _ => hne⟩, rfl, by simp⟩
    | false =>
      have he : (0 :: 0 :: 0 :: 1 :: (frame.take receive_buffer_size
          ++ List.drop (frame.take receive_buffer_size).length t)).getD 4 0 = 0x67 :=
        hbyte.mpr (Or.inl hn)
      rw [if_neg (fun h => h.2 he)]
      exact ⟨⟨hnewlen, rfl, fun h => Bool.noConfusion h⟩, rfl,
        by simp [Decoder.send, Queue.push]⟩

theorem deliverAll_spec (frames : List (List Nat)) :
    ∀ s : VideoSink σ, BufferOk s →
      BufferOk (deliverAll s frames) ∧
      (deliverAll s frames).waiting_for_sps_unit_
        = (s.waiting_for_sps_unit_ && frames.all notSps) ∧
      (deliverAll s frames).decoder_.queue_.queue_
        = s.decoder_.queue_.queue_
          ++ (if s.waiting_for_sps_unit_ = true then (frames.dropWhile notSps).map chunkOf
              else frames.map chunkOf) := by
  induction frames with
  | nil =>
    intro s hok
    refine ⟨hok, ?_, ?_⟩
    · simp [deliverAll]
    · simp [deliverAll]
  | cons frame frames ih =>
    intro s hok
    obtain ⟨hok1, hw1, hq1⟩ := deliver_spec s frame hok
    obtain ⟨hok2, hw2, hq2⟩ := ih (s.deliver frame) hok1
    refine ⟨hok2, ?_, ?_⟩
    · show (deliverAll (s.deliver frame) frames).waiting_for_sps_unit_ = _
      rw [hw2, hw1, List.all_cons, Bool.and_assoc]
    · show (deliverAll (s.deliver frame) frames).decoder_.queue_.queue_ = _
      rw [hq2, hq1, hw1]
      cases hw : s.waiting_for_sps_unit_ with
      | false => simp
      | true =>
        cases hn : notSps frame with
        | false => simp [List.dropWhile_cons, hn]
        | true => simp [List.dropWhile_cons, hn]

/-- C30: SPS gating in VideoSink.  For every sequence of received frames, what a
new sink has sent to its Decoder is, in order, one chunk (marker and frame
bytes) for each frame from the first one whose first byte is `0x67` on, and
nothing for the frames before it; the waiting flag is set exactly when no frame
so far began with `0x67`, and after any further frames it is the earlier flag
and-ed with their test, so once cleared it stays cleared. -/
theorem sps_gating (av : σ) (swapper : Swapper AVFrame) (frames more : List (List Nat)) :
    (deliverAll (new av swapper) frames).decoder_.queue_.queue_
      = (frames.dropWhile notSps).map chunkOf ∧
    (deliverAll (new av swapper) frames).waiting_for_sps_unit_ = frames.all notSps ∧
    (deliverAll (new av swapper) (frames ++ more)).waiting_for_sps_unit_
      = ((deliverAll (new av swapper) frames).waiting_for_sps_unit_ && more.all notSps) := by
  obtain ⟨-, hw, hq⟩ := deliverAll_spec frames (new av swapper) (new_bufferOk av swapper)
  obtain ⟨-, hw2, -⟩ := deliverAll_spec (frames ++ more) (new av swapper) (new_bufferOk av swapper)
  have hnw : (new av swapper).waiting_for_sps_unit_ = true := rfl
  have hnq : (new av swapper).decoder_.queue_.queue_ = [] := rfl
  rw [hnw] at hw hq hw2
  rw [hnq, if_pos rfl, List.nil_append] at hq
  rw [Bool.true_and] at hw hw2
  refine ⟨hq, hw, ?_⟩
  rw [hw2, hw, List.all_append]

end VideoSink

end rtspcam

/-! ## Swapper: a producer and a consumer thread -/

namespace Swapper

namespace Threads

theorem start_control (init : Nat) (items spares : List Nat) (timeout : Nat) :
    Control (start init items spares timeout) := by
  refine ⟨?_, ?_, ?_, ?_, ?_, ?_⟩ <;> simp [start]

theorem producer_control (st st1 : Threads) (h : Control st)
    (hs : st.step Action.producer = some st1) : Control st1 := by
  obtain ⟨sw, m, pa, tp, ta, sp, tmo, res⟩ := st
  obtain ⟨h1, h2, h3, h4, h5, h6⟩ := h
  cases pa with
  | outside =>
    cases tp with
    | nil => simp [step] at hs
    | cons v rest =>
      simp only [step] at hs
      split at hs
      · rename_i hm
        simp only [Option.some.injEq] at hs
        subst hs
        simp only at hm h1 h2 h3 h4 h5 h6 ⊢
        subst hm
        refine ⟨?_, ?_, ?_, ?_, ?_, ?_⟩ <;> simp_all
      · simp at hs
  | locked =>
    cases tp with
    | nil => simp [step] at hs
    | cons v rest =>
      simp only [step, Option.some.injEq] at hs
      subst hs
      simp only at h1 h2 h3 h4 h5 h6 ⊢
      refine ⟨?_, ?_, ?_, ?_, ?_, ?_⟩ <;> simp_all [Swapper.push]
  | unlocked b =>
    simp only [step, Option.some.injEq] at hs
    subst hs
    simp only at h1 h2 h3 h4 h5 h6 ⊢
    refine ⟨?_, ?_, ?_, ?_, ?_, ?_⟩ <;> cases ta <;> cases b <;> simp_all

theorem returns_control (st : Threads) (spare : Nat) (rest : List Nat) (h : Control st)
    (hm : st.mutex_ = some Thread.consumer) : Control (st.returns spare rest) := by
  obtain ⟨sw, m, pa, tp, ta, sp, tmo, res⟩ := st
  obtain ⟨h1, h2, h3, h4, h5, h6⟩ := h
  simp only at hm h1 h2 h3 h4 h5 h6
  subst hm
  refine ⟨?_, ?_, ?_, ?_, ?_, ?_⟩ <;> simp_all [returns]

theorem test_predicate_control (st : Threads) (spare : Nat) (rest : List Nat) (h : Control st)
    (hm : st.mutex_ = some Thread.consumer) (hw : st.swapper.is_waiting_ = true)
    (hs : st.spares ≠ []) :
    Control (st.test_predicate spare rest) := by
  unfold test_predicate
  split
  · exact returns_control st spare rest h hm
  · rename_i hp
    obtain ⟨sw, m, pa, tp, ta, sp, tmo, res⟩ := st
    obtain ⟨h1, h2, h3, h4, h5, h6⟩ := h
    simp only at hm hw hs hp h1 h2 h3 h4 h5 h6 ⊢
    subst hm
    refine ⟨?_, ?_, ?_, ?_, ?_, ?_⟩ <;> simp_all

theorem consumer_control (st st1 : Threads) (h : Control st)
    (hs : st.step Action.consumer = some st1) : Control st1 := by
  obtain ⟨sw, m, pa, tp, ta, sp, tmo, res⟩ := st
  cases ta with
  | outside =>
    obtain ⟨h1, h2, h3, h4, h5, h6⟩ := h
    cases sp with
    | nil => simp [step] at hs
    | cons v rest =>
      simp only [step] at hs
      split at hs
      · rename_i hm
        simp only [Option.some.injEq] at hs
        subst hs
        simp only at hm h1 h2 h3 h4 h5 h6 ⊢
        subst hm
        refine ⟨?_, ?_, ?_, ?_, ?_, ?_⟩ <;> simp_all
      · simp at hs
  | locked =>
    cases sp with
    | nil => simp [step] at hs
    | cons v rest =>
      simp only [step, Option.some.injEq] at hs
      subst hs
      apply test_predicate_control
      · obtain ⟨h1, h2, h3, h4, h5, h6⟩ := h
        simp only at h1 h2 h3 h4 h5 h6 ⊢
        refine ⟨?_, ?_, ?_, ?_, ?_, ?_⟩ <;> simp_all
      · exact h.consumer_lock.mpr (Or.inl rfl)
      · rfl
      · simp
  | blocked => simp [step] at hs
  | unblocked t =>
    obtain ⟨h1, h2, h3, h4, h5, h6⟩ := h
    simp only [step] at hs
    split at hs
    · rename_i hm
      simp only [Option.some.injEq] at hs
      subst hs
      simp only at hm h1 h2 h3 h4 h5 h6 ⊢
      subst hm
      refine ⟨?_, ?_, ?_, ?_, ?_, ?_⟩ <;> simp_all
    · simp at hs
  | relocked t =>
    have hm := h.consumer_lock.mpr (Or.inr ⟨t, rfl⟩)
    have hw := h.waiting (by simp) (by simp)
    cases sp with
    | nil => cases t <;> simp [step] at hs
    | cons v rest =>
      cases t with
      | true =>
        simp only [step, Option.some.injEq] at hs
        subst hs
        exact returns_control _ v rest h hm
      | false =>
        simp only [step, Option.some.injEq] at hs
        subst hs
        exact test_predicate_control _ v rest h hm hw (by simp)

theorem wait_end_control (st st1 : Threads) (a : Action) (h : Control st)
    (ha : a = Action.timeout ∨ a = Action.spurious)
    (hs : st.step a = some st1) : Control st1 := by
  obtain ⟨sw, m, pa, tp, ta, sp, tmo, res⟩ := st
  obtain ⟨h1, h2, h3, h4, h5, h6⟩ := h
  rcases ha with rfl | rfl
  · simp only [step] at hs
    split at hs
    · simp only [Option.some.injEq] at hs
      subst hs
      simp only at h1 h2 h3 h4 h5 h6 ⊢
      refine ⟨?_, ?_, ?_, ?_, ?_, ?_⟩ <;> cases ta <;> simp_all
    · simp at hs
  · simp only [step] at hs
    split at hs
    · simp only [Option.some.injEq] at hs
      subst hs
      simp only at h1 h2 h3 h4 h5 h6 ⊢
      refine ⟨?_, ?_, ?_, ?_, ?_, ?_⟩ <;> cases ta <;> simp_all
    · simp at hs

theorem step_control (st st1 : Threads) (a : Action) (h : Control st)
    (hs : st.step a = some st1) : Control st1 := by
  cases a with
  | producer => exact producer_control st st1 h hs
  | consumer => exact consumer_control st st1 h hs
  | timeout => exact wait_end_control st st1 _ h (Or.inl rfl) hs
  | spurious => exact wait_end_control st st1 _ h (Or.inr rfl) hs

theorem data_congr (items : List Nat) (st st1 : Threads) (h : Data items st)
    (hr : st1.results = st.results) (hp : st1.to_push = st.to_push)
    (h1 : st1.swapper.pop_counter_ = st.swapper.pop_counter_)
    (h2 : st1.swapper.push_counter_ = st.swapper.push_counter_)
    (h3 : st1.swapper.item_ = st.swapper.item_) : Data items st1 := by
  unfold Data received at *
  rw [hr, hp, h1, h2, h3]
  exact h

theorem start_data (init : Nat) (items spares : List Nat) (timeout : Nat) :
    Data items (start init items spares timeout) := by
  refine ⟨?_, [], rfl, ?_, ?_⟩
  · simp [received, start]
  · simp [received, start]
  · intro h
    exact absurd rfl h

theorem push_data (items : List Nat) (hinc : items.Pairwise (fun a b => a < b))
    (st : Threads) (item : Nat) (rest : List Nat) (b : Bool) (h : Data items st)
    (hp : st.to_push = item :: rest) :
    Data items { st with
                 swapper := (st.swapper.push item).2
                 mutex_ := none
                 push_at := PushAt.unlocked b
                 to_push := rest } := by
  obtain ⟨ho, pushed, hi, hmem, -⟩ := h
  refine ⟨ho, pushed ++ [item], ?_, ?_, ?_⟩
  · rw [hi, hp]
    simp
  · intro r hr
    exact List.mem_append_left _ (hmem r hr)
  · intro _
    refine ⟨by simp [Swapper.push], ?_⟩
    intro r hr
    have hr1 := hmem r hr
    rw [hi, hp, List.pairwise_append] at hinc
    exact hinc.2.2 r hr1 item (List.mem_cons_self _ _)

theorem returns_data (items : List Nat) (st : Threads) (spare : Nat) (rest : List Nat)
    (h : Data items st) : Data items (st.returns spare rest) := by
  obtain ⟨ho, pushed, hi, hmem, hitem⟩ := h
  by_cases hp : st.swapper.pop_counter_ ≠ st.swapper.push_counter_
  · obtain ⟨hin, hlt⟩ := hitem hp
    have hrec : (st.returns spare rest).received = st.received ++ [st.swapper.item_] := by
      simp [returns, received, Swapper.try_pop, hp, List.filterMap_append]
    refine ⟨?_, pushed, hi, ?_, ?_⟩
    · rw [hrec, List.pairwise_append]
      refine ⟨ho, List.pairwise_singleton _ _, ?_⟩
      intro a ha b hb
      rw [List.mem_singleton] at hb
      rw [hb]
      exact hlt a ha
    · intro r hr
      rw [hrec, List.mem_append, List.mem_singleton] at hr
      rcases hr with hr | rfl
      · exact hmem r hr
      · exact hin
    · intro hne
      exfalso
      apply hne
      simp [returns, Swapper.try_pop, hp]
  · have hp1 : st.swapper.pop_counter_ = st.swapper.push_counter_ := not_not.mp hp
    have hrec : (st.returns spare rest).received = st.received := by
      simp [returns, received, Swapper.try_pop, hp1, List.filterMap_append]
    refine ⟨?_, pushed, hi, ?_, ?_⟩
    · rw [hrec]
      exact ho
    · rw [hrec]
      exact hmem
    · intro hne
      exfalso
      apply hne
      simp [returns, Swapper.try_pop, hp1]

theorem test_predicate_data (items : List Nat) (st : Threads) (spare : Nat) (rest : List Nat)
    (h : Data items st) : Data items (st.test_predicate spare rest) := by
  unfold test_predicate
  split
  · exact returns_data items st spare rest h
  · exact data_congr items st _ h rfl rfl rfl rfl rfl

theorem step_data (items : List Nat) (hinc : items.Pairwise (fun a b => a < b))
    (st st1 : Threads) (a : Action) (h : Data items st) (hs : st.step a = some st1) :
    Data items st1 := by
  cases a with
  | producer =>
    cases hpa : st.push_at with
    | outside =>
      cases htp : st.to_push with
      | nil => simp [step, hpa, htp] at hs
      | cons v rest =>
        simp only [step, hpa, htp] at hs
        split at hs
        · simp only [Option.some.injEq] at hs
          subst hs
          exact data_congr items st _ h rfl htp.symm rfl rfl rfl
        · simp at hs
    | locked =>
      cases htp : st.to_push with
      | nil => simp [step, hpa, htp] at hs
      | cons v rest =>
        simp only [step, hpa, htp, Option.some.injEq] at hs
        subst hs
        exact push_data items hinc st v rest _ h htp
    | unlocked b =>
      simp only [step, hpa, Option.some.injEq] at hs
      subst hs
      exact data_congr items st _ h rfl rfl rfl rfl rfl
  | consumer =>
    cases hta : st.try_pop_at with
    | outside =>
      cases hsp : st.spares with
      | nil => simp [step, hta, hsp] at hs
      | cons v rest =>
        simp only [step, hta, hsp] at hs
        split at hs
        · simp only [Option.some.injEq] at hs
          subst hs
          exact data_congr items st _ h rfl rfl rfl rfl rfl
        · simp at hs
    | locked =>
      cases hsp : st.spares with
      | nil => simp [step, hta, hsp] at hs
      | cons v rest =>
        simp only [step, hta, hsp, Option.some.injEq] at hs
        subst hs
        apply test_predicate_data
        exact data_congr items st _ h rfl rfl rfl rfl rfl
    | blocked => simp [step, hta] at hs
    | unblocked t =>
      simp only [step, hta] at hs
      split at hs
      · simp only [Option.some.injEq] at hs
        subst hs
        exact data_congr items st _ h rfl rfl rfl rfl rfl
      · simp at hs
    | relocked t =>
      cases hsp : st.spares with
      | nil => cases t <;> simp [step, hta, hsp] at hs
      | cons v rest =>
        cases t with
        | true =>
          simp only [step, hta, hsp, Option.some.injEq] at hs
          subst hs
          exact returns_data items st v rest h
        | false =>
          simp only [step, hta, hsp, Option.some.injEq] at hs
          subst hs
          exact test_predicate_data items st v rest h
  | timeout =>
    simp only [step] at hs
    split at hs
    · simp only [Option.some.injEq] at hs
      subst hs
      exact data_congr items st _ h rfl rfl rfl rfl rfl
    · simp at hs
  | spurious =>
    simp only [step] at hs
    split at hs
    · simp only [Option.some.injEq] at hs
      subst hs
      exact data_congr items st _ h rfl rfl rfl rfl rfl
    · simp at hs

theorem run_invariant (items : List Nat) (hinc : items.Pairwise (fun a b => a < b))
    (acts : List Action) :
    ∀ st st1 : Threads, Control st → Data items st → st.run acts = some st1 →
      Control st1 ∧ Data items st1 := by
  induction acts with
  | nil =>
    intro st st1 hc hd hr
    simp only [run, Option.some.injEq] at hr
    subst hr
    exact ⟨hc, hd⟩
  | cons a acts ih =>
    intro st st1 hc hd hr
    simp only [run] at hr
    cases hs : st.step a with
    | none => simp [hs] at hr
    | some st2 =>
      rw [hs] at hr
      exact ih st2 st1 (step_control st st2 a hc hs) (step_data items hinc st st2 a hd hs) hr

theorem next_step (st : Threads) (h : Control st)
    (hnot : ¬ (st.producerDone ∧ st.consumerDone)) :
    ∃ st1, st.step st.next = some st1 ∧ st1.rank < st.rank := by
  obtain ⟨sw, m, pa, tp, ta, sp, tmo, res⟩ := st
  obtain ⟨h1, h2, h3, h4, h5, h6⟩ := h
  simp only [producerDone, consumerDone] at hnot
  simp only at h1 h2 h3 h4 h5 h6 hnot
  cases m with
  | some t =>
    cases t with
    | producer =>
      have hpa : pa = PushAt.locked := h1.mp rfl
      subst hpa
      cases tp with
      | nil => exact absurd rfl (h3 rfl)
      | cons v rest =>
        refine ⟨_, rfl, ?_⟩
        simp only [rank, pushRank, tryPopRank, List.length_cons]
        omega
    | consumer =>
      have hta := h2.mp rfl
      have hsp : sp ≠ [] := by
        apply h4
        rcases hta with hta | ⟨t, hta⟩ <;> simp [hta]
      cases sp with
      | nil => exact absurd rfl hsp
      | cons v rest =>
        rcases hta with hta | ⟨t, hta⟩
        · subst hta
          refine ⟨_, rfl, ?_⟩
          simp only [test_predicate]
          split
          · simp only [returns, rank, pushRank, tryPopRank, List.length_cons]
            omega
          · simp only [rank, pushRank, tryPopRank, List.length_cons]
            omega
        · subst hta
          cases t with
          | true =>
            refine ⟨_, rfl, ?_⟩
            simp only [returns, rank, pushRank, tryPopRank, List.length_cons]
            omega
          | false =>
            refine ⟨_, rfl, ?_⟩
            simp only [test_predicate]
            split
            · simp only [returns, rank, pushRank, tryPopRank, List.length_cons]
              omega
            · simp only [rank, pushRank, tryPopRank, List.length_cons]
              omega
  | none =>
    have hpa : pa ≠ PushAt.locked := fun hp => Option.noConfusion (h1.mpr hp)
    have hta1 : ta ≠ TryPopAt.locked := fun hp => Option.noConfusion (h2.mpr (Or.inl hp))
    have hta2 : ∀ t, ta ≠ TryPopAt.relocked t :=
      fun t hp => Option.noConfusion (h2.mpr (Or.inr ⟨t, hp⟩))
    cases pa with
    | locked => exact absurd rfl hpa
    | unlocked b =>
      refine ⟨_, rfl, ?_⟩
      simp only [rank, pushRank, tryPopRank]
      cases ta with
      | blocked =>
        cases b
        · simp
        · simp
          omega
      | outside => simp
      | locked => simp
      | unblocked t => cases t <;> simp
      | relocked t => cases t <;> simp
    | outside =>
      cases tp with
      | cons v rest =>
        refine ⟨_, rfl, ?_⟩
        simp only [rank, pushRank, tryPopRank, List.length_cons]
        omega
      | nil =>
        cases ta with
        | locked => exact absurd rfl hta1
        | relocked t => exact absurd rfl (hta2 t)
        | blocked =>
          refine ⟨_, rfl, ?_⟩
          simp only [rank, pushRank, tryPopRank]
          omega
        | unblocked t =>
          refine ⟨_, rfl, ?_⟩
          cases t <;> simp only [rank, pushRank, tryPopRank] <;> omega
        | outside =>
          cases sp with
          | nil => exact absurd ⟨⟨rfl, rfl⟩, ⟨rfl, rfl⟩⟩ hnot
          | cons v rest =>
            refine ⟨_, rfl, ?_⟩
            simp only [rank, pushRank, tryPopRank, List.length_cons]
            omega

theorem finishes (n : Nat) :
    ∀ st : Threads, Control st → st.rank ≤ n →
      ∃ acts st1, st.run acts = some st1 ∧ st1.producerDone ∧ st1.consumerDone := by
  induction n with
  | zero =>
    intro st hc hr
    by_cases hd : st.producerDone ∧ st.consumerDone
    · exact ⟨[], st, rfl, hd⟩
    · obtain ⟨st1, -, hlt⟩ := next_step st hc hd
      omega
  | succ n ih =>
    intro st hc hr
    by_cases hd : st.producerDone ∧ st.consumerDone
    · exact ⟨[], st, rfl, hd⟩
    · obtain ⟨st1, hs, hlt⟩ := next_step st hc hd
      obtain ⟨acts, st2, hrun, hdone⟩ :=
        ih st1 (step_control st st1 st.next hc hs) (by omega)
      refine ⟨st.next :: acts, st2, ?_, hdone⟩
      simp only [run, hs]
      exact hrun

/-- C23: a producer thread pushing strictly increasing values and a consumer
thread calling `try_pop`, under every schedule of their moves between lock,
unlock, wait, notification, timeout and spurious wake-up.  In every state
reached the values the consumer has received are strictly increasing and are
pushed values; the holder of `mutex_` can move and its move releases the lock;
with the lock free each thread that has a call left can move (for a blocked
consumer, by the timeout); from the state some schedule completes every call of
both threads; and a consumer blocked on `condvar_` while
`pop_counter_ != push_counter_` is woken by the next move of the producer, the
pending `notify_one`. -/
theorem concurrent_push_try_pop (init : Nat) (items spares : List Nat) (timeout : Nat)
    (acts : List Action) (st : Threads)
    (hinc : items.Pairwise (fun a b => a < b))
    (hrun : (start init items spares timeout).run acts = some st) :
    st.received.Pairwise (fun a b => a < b) ∧
    (∀ r ∈ st.received, r ∈ items) ∧
    (st.mutex_ = some Thread.producer →
      ∃ st1, st.step Action.producer = some st1 ∧ st1.mutex_ = none) ∧
    (st.mutex_ = some Thread.consumer →
      ∃ st1, st.step Action.consumer = some st1 ∧ st1.mutex_ = none) ∧
    (st.mutex_ = none →
      (st.producerDone ∨ (st.step Action.producer).isSome = true) ∧
      (st.consumerDone ∨ (st.step Action.consumer).isSome = true
        ∨ (st.step Action.timeout).isSome = true)) ∧
    (∃ more st1, st.run more = some st1 ∧ st1.producerDone ∧ st1.consumerDone) ∧
    (st.try_pop_at = TryPopAt.blocked →
      st.swapper.pop_counter_ ≠ st.swapper.push_counter_ →
      ∃ st1, st.step Action.producer = some st1 ∧
        st1.try_pop_at = TryPopAt.unblocked false) := by
  obtain ⟨hc, hd⟩ := run_invariant items hinc acts _ st
    (start_control init items spares timeout) (start_data init items spares timeout) hrun
  refine ⟨hd.1, ?_, ?_, ?_, ?_, finishes st.rank st hc (Nat.le_refl _), ?_⟩
  · obtain ⟨-, pushed, hi, hmem, -⟩ := hd
    intro r hr
    rw [hi]
    exact List.mem_append_left _ (hmem r hr)
  · intro hm
    have hpa := hc.producer_lock.mp hm
    have htp := hc.producer_call hpa
    cases h : st.to_push with
    | nil => exact absurd h htp
    | cons v rest =>
      simp only [step, hpa, h]
      exact ⟨_, rfl, rfl⟩
  · intro hm
    have hta := hc.consumer_lock.mp hm
    have hsp : st.spares ≠ [] := by
      apply hc.consumer_call
      rcases hta with hta | ⟨t, hta⟩ <;> simp [hta]
    cases h : st.spares with
    | nil => exact absurd h hsp
    | cons v rest =>
      rcases hta with hta | ⟨t, hta⟩
      · simp only [step, hta, h]
        refine ⟨_, rfl, ?_⟩
        simp only [test_predicate]
        split <;> rfl
      · cases t with
        | true =>
          simp only [step, hta, h]
          exact ⟨_, rfl, rfl⟩
        | false =>
          simp only [step, hta, h]
          refine ⟨_, rfl, ?_⟩
          simp only [test_predicate]
          split <;> rfl
  · intro hm
    have hpa : st.push_at ≠ PushAt.locked := by
      intro hp
      have := hc.producer_lock.mpr hp
      rw [hm] at this
      exact Option.noConfusion this
    have hta : st.try_pop_at ≠ TryPopAt.locked ∧ ∀ t, st.try_pop_at ≠ TryPopAt.relocked t := by
      refine ⟨?_, ?_⟩
      · intro hp
        have := hc.consumer_lock.mpr (Or.inl hp)
        rw [hm] at this
        exact Option.noConfusion this
      · intro t hp
        have := hc.consumer_lock.mpr (Or.inr ⟨t, hp⟩)
        rw [hm] at this
        exact Option.noConfusion this
    refine ⟨?_, ?_⟩
    · cases hp : st.push_at with
      | locked => exact absurd hp hpa
      | unlocked b =>
        right
        simp [step, hp]
      | outside =>
        cases htp : st.to_push with
        | nil => exact Or.inl ⟨hp, htp⟩
        | cons v rest =>
          right
          simp [step, hp, htp, hm]
    · cases hp : st.try_pop_at with
      | locked => exact absurd hp hta.1
      | relocked t => exact absurd hp (hta.2 t)
      | blocked =>
        right
        right
        simp [step, hp]
      | unblocked t =>
        right
        left
        simp [step, hp, hm]
      | outside =>
        cases hsp : st.spares with
        | nil => exact Or.inl ⟨hp, hsp⟩
        | cons v rest =>
          right
          left
          simp [step, hp, hsp, hm]
  · intro hb hne
    have hpa := hc.wakeup hb hne
    simp only [step, hpa]
    refine ⟨_, rfl, ?_⟩
    simp [hb]

/-- C23 at a schedule: the consumer blocks, the producer pushes 1 and notifies,
the consumer takes the lock again and returns 1 with sequence number 0. -/
theorem concurrent_push_try_pop_witness :
    (start 0 [1, 2] [10, 11] 100).run
        [Action.consumer, Action.consumer, Action.producer, Action.producer,
          Action.producer, Action.consumer, Action.consumer]
      = some
          { swapper := { push_counter_ := 0, pop_counter_ := 0, item_ := 10, is_waiting_ := false }
            mutex_ := none
            push_at := PushAt.outside
            to_push := [2]
            try_pop_at := TryPopAt.outside
            spares := [11]
            timeout := 100
            results := [some (1, 0)] } ∧
    [1].Pairwise (fun a b => a < b) :=
  ⟨by decide,
   (concurrent_push_try_pop 0 [1, 2] [10, 11] 100
      [Action.consumer, Action.consumer, Action.producer, Action.producer,
        Action.producer, Action.consumer, Action.consumer]
      { swapper := { push_counter_ := 0, pop_counter_ := 0, item_ := 10, is_waiting_ := false }
        mutex_ := none
        push_at := PushAt.outside
        to_push := [2]
        try_pop_at := TryPopAt.outside
        spares := [11]
        timeout := 100
        results := [some (1, 0)] }
      (by decide) (by decide)).1⟩

end Threads

end Swapper
